import Mathlib

/-! # ftpsync: the fingerprint cache, the tree scanner and the scan controller

A shallow embedding of `scanner.go`, `app/cache.go`, `app/report.go`, the
dialling and vetting of `app/ftp.go` and the scan-control part of `main.go`,
followed by the theorems about them.

Conventions of the embedding:

* a Go `[]byte` is a `List UInt8`; the `nil` slice is the empty list (the code
  observes `Hash` only through `bytes.Equal`, which does not tell them apart),
  except for `Config.ServerKey`, which the code tests against `nil` and which
  is an `Option`;
* a Go `error` result is an `Option Error`, `none` being `nil`;
* a `time.Time` is the instant it denotes, counted from the zero `Time`, so
  that `t.Equal(u)` is `t = u` and `t.IsZero()` is `t = 0`;
* a `*FilePrint` obtained from the cache is the path it is stored under: a
  write through the pointer is a write of the map value at that path;
* what the scanner reads from the outside world (the local tree, the remote
  listings, the bytes a read or a fetch delivers, the arrival of the stop
  signal) is data handed to the functions, and what it does to the outside
  world is recorded in a log of events;
* the diagnostic output under `Opt.Verbose` is left out.
-/

namespace FtpSync

/-! ## Bytes and the standard library routines the scanner calls -/

/-- One byte of a Go byte slice. -/
abbrev Byte := UInt8

/-- Skips `skip` bytes, then copies `s` from left to right, writing `new` in
place of every occurrence of `old` that does not overlap an earlier one. -/
def ReplaceAllFrom (old new : List Byte) : Nat → List Byte → List Byte
  | _, [] => []
  | skip + 1, _ :: rest => ReplaceAllFrom old new skip rest
  | 0, b :: rest =>
    if old.isPrefixOf (b :: rest) then new ++ ReplaceAllFrom old new (old.length - 1) rest
    else b :: ReplaceAllFrom old new 0 rest

/-- The library routine `bytes.ReplaceAll(s, old, new)` for a non-empty `old`:
a copy of `s` with all non-overlapping instances of `old` replaced by `new`. -/
def ReplaceAll (s old new : List Byte) : List Byte :=
  ReplaceAllFrom old new 0 s

/-- The two bytes of `[]byte("\r\n")`. -/
def CRLF : List Byte := [13, 10]

/-- The single byte of `[]byte("\n")`. -/
def LF : List Byte := [10]

/-! ### MD5 (RFC 1321), the digest behind `md5.New()` -/

/-- Per-round left-rotation amounts. -/
def md5Shift : List Nat :=
  [7, 12, 17, 22, 7, 12, 17, 22, 7, 12, 17, 22, 7, 12, 17, 22,
   5, 9, 14, 20, 5, 9, 14, 20, 5, 9, 14, 20, 5, 9, 14, 20,
   4, 11, 16, 23, 4, 11, 16, 23, 4, 11, 16, 23, 4, 11, 16, 23,
   6, 10, 15, 21, 6, 10, 15, 21, 6, 10, 15, 21, 6, 10, 15, 21]

/-- Per-round additive constants, `floor (2^32 * |sin (i + 1)|)`. -/
def md5Const : List Nat :=
  [0xd76aa478, 0xe8c7b756, 0x242070db, 0xc1bdceee, 0xf57c0faf, 0x4787c62a, 0xa8304613, 0xfd469501,
   0x698098d8, 0x8b44f7af, 0xffff5bb1, 0x895cd7be, 0x6b901122, 0xfd987193, 0xa679438e, 0x49b40821,
   0xf61e2562, 0xc040b340, 0x265e5a51, 0xe9b6c7aa, 0xd62f105d, 0x02441453, 0xd8a1e681, 0xe7d3fbc8,
   0x21e1cde6, 0xc33707d6, 0xf4d50d87, 0x455a14ed, 0xa9e3e905, 0xfcefa3f8, 0x676f02d9, 0x8d2a4c8a,
   0xfffa3942, 0x8771f681, 0x6d9d6122, 0xfde5380c, 0xa4beea44, 0x4bdecfa9, 0xf6bb4b60, 0xbebfbc70,
   0x289b7ec6, 0xeaa127fa, 0xd4ef3085, 0x04881d05, 0xd9d4d039, 0xe6db99e5, 0x1fa27cf8, 0xc4ac5665,
   0xf4292244, 0x432aff97, 0xab9423a7, 0xfc93a039, 0x655b59c3, 0x8f0ccc92, 0xffeff47d, 0x85845dd1,
   0x6fa87e4f, 0xfe2ce6e0, 0xa3014314, 0x4e0811a1, 0xf7537e82, 0xbd3af235, 0x2ad7d2bb, 0xeb86d391]

/-- Reduction to a 32-bit word. -/
def w32 (n : Nat) : Nat := n % 2 ^ 32

/-- Bitwise complement of a 32-bit word. -/
def not32 (x : Nat) : Nat := 0xffffffff - w32 x

/-- Left rotation of a 32-bit word by `s` bits. -/
def rotl32 (x s : Nat) : Nat := w32 (w32 x <<< s) ||| (w32 x >>> (32 - s))

/-- The four little-endian bytes of a 32-bit word. -/
def le32 (x : Nat) : List Byte :=
  [UInt8.ofNat x, UInt8.ofNat (x >>> 8), UInt8.ofNat (x >>> 16), UInt8.ofNat (x >>> 24)]

/-- The message followed by the bit `1`, zero bits up to 56 bytes modulo 64,
and the message length in bits as a 64-bit little-endian number. -/
def md5Pad (msg : List Byte) : List Byte :=
  let bits := (8 * msg.length) % 2 ^ 64
  msg ++ [(0x80 : Byte)] ++ List.replicate ((119 - msg.length % 64) % 64) (0 : Byte)
    ++ le32 bits ++ le32 (bits >>> 32)

/-- Reads little-endian 32-bit words off a byte list. -/
def md5Words : List Byte → List Nat
  | a :: b :: c :: d :: rest =>
    (a.toNat + b.toNat <<< 8 + c.toNat <<< 16 + d.toNat <<< 24) :: md5Words rest
  | _ => []

/-- One of the 64 operations of the compression function. -/
def md5Step (m : List Nat) (st : Nat × Nat × Nat × Nat) (i : Nat) : Nat × Nat × Nat × Nat :=
  let (a, b, c, d) := st
  let f :=
    if i < 16 then (b &&& c) ||| (not32 b &&& d)
    else if i < 32 then (d &&& b) ||| (not32 d &&& c)
    else if i < 48 then b ^^^ c ^^^ d
    else c ^^^ (b ||| not32 d)
  let g :=
    if i < 16 then i
    else if i < 32 then (5 * i + 1) % 16
    else if i < 48 then (3 * i + 5) % 16
    else (7 * i) % 16
  let x := w32 (f + a + md5Const.getD i 0 + m.getD g 0)
  (d, w32 (b + rotl32 x (md5Shift.getD i 0)), b, c)

/-- Folds one 16-word block into the chaining value. -/
def md5Block (st : Nat × Nat × Nat × Nat) (m : List Nat) : Nat × Nat × Nat × Nat :=
  let (a, b, c, d) := st
  let (a', b', c', d') := (List.range 64).foldl (md5Step m) st
  (w32 (a + a'), w32 (b + b'), w32 (c + c'), w32 (d + d'))

/-- Folds the word list, 16 words at a time, into the chaining value; the
first argument bounds the number of blocks. -/
def md5Blocks : Nat → Nat × Nat × Nat × Nat → List Nat → Nat × Nat × Nat × Nat
  | 0, st, _ => st
  | n + 1, st, ws =>
    if ws.isEmpty then st else md5Blocks n (md5Block st (ws.take 16)) (ws.drop 16)

/-- The 16-byte MD5 digest of a message. -/
def md5Sum (msg : List Byte) : List Byte :=
  let ws := md5Words (md5Pad msg)
  let (a, b, c, d) :=
    md5Blocks ws.length (0x67452301, 0xefcdab89, 0x98badcfe, 0x10325476) ws
  le32 a ++ le32 b ++ le32 c ++ le32 d

/-! ### Errors, hashes and readers -/

/-- An error that comes from outside the scanner: from the operating system,
the transport or the dialling of the server. -/
inductive OsError where
  /-- An error for which `os.IsNotExist` holds. -/
  | NotExist (text : String)
  /-- Any other failure. -/
  | Fail (text : String)
  deriving DecidableEq, Repr

/-- A Go `error` value, as far as the scanner can tell errors apart. -/
inductive Error where
  /-- The value `errors.New(text)`. -/
  | New (text : String)
  /-- The sentinel `filepath.SkipDir`. -/
  | SkipDir
  /-- An error that came from outside. -/
  | Os (e : OsError)
  deriving DecidableEq, Repr

/-- The library predicate `os.IsNotExist`. -/
def IsNotExist : OsError → Bool
  | .NotExist _ => true
  | .Fail _ => false

/-- A value of interface type `hash.Hash`: either a library hash, given by
the digest function it computes and the data added to it so far, or the
`TextHash` wrapper of this repository around another hash. -/
inductive Hash where
  | raw (digest : List Byte → List Byte) (data : List Byte)
  | TextHash (h : Hash)

/-- Method `Write`. A library hash appends the data to its running state and
never fails; `TextHash.Write` folds the line endings of the slice it is handed
and passes the result on, reporting the length of the slice it was handed. -/
def Hash.Write : Hash → List Byte → Hash × Nat × Option Error
  | .raw digest data, p => (.raw digest (data ++ p), p.length, none)
  | .TextHash h, p =>
    let b := ReplaceAll p CRLF LF
    let r := h.Write b
    (.TextHash r.1, p.length, r.2.2)

/-- Method `Sum(nil)`: the digest of everything written. `TextHash` does not
define it, so the method of the embedded hash is the one called. -/
def Hash.Sum : Hash → List Byte
  | .raw digest data => digest data
  | .TextHash h => h.Sum

/-- The constructor `md5.New()`. -/
def md5New : Hash := .raw md5Sum []

/-- Wraps a hash provider so that text line endings are folded. -/
def NewTextHash (h : Hash) : Hash := .TextHash h

/-- A source of bytes as `io.Copy` sees it: the chunks that successive reads
deliver, and the error that ends the reading (`none` for a plain end of file). -/
structure Reader where
  chunks : List (List Byte)
  err : Option OsError := none
  deriving DecidableEq

/-- All the bytes a reader delivers. -/
def Reader.content (r : Reader) : List Byte := r.chunks.flatten

/-- The error `io.ErrShortWrite`. -/
def ErrShortWrite : Error := .New "short write"

/-- The loop of `io.Copy(dst, src)`: every non-empty chunk read is written to
`dst`; a failed or short write stops the copy, and so does the error that ends
the reading. -/
def copyChunks (readErr : Option OsError) : Hash → List (List Byte) → Hash × Option Error
  | dst, [] => (dst, readErr.map .Os)
  | dst, p :: rest =>
    if p.length > 0 then
      match dst.Write p with
      | (dst', _, some ew) => (dst', some ew)
      | (dst', nw, none) =>
        if nw ≠ p.length then (dst', some ErrShortWrite) else copyChunks readErr dst' rest
    else copyChunks readErr dst rest

/-- The library routine `io.Copy(dst, src)`, returning the hash written to
and the error. -/
def ioCopy (dst : Hash) (src : Reader) : Hash × Option Error :=
  copyChunks src.err dst src.chunks

/-- The library routine `bytes.Equal`. -/
def bytesEqual (a b : List Byte) : Bool := a == b

/-! ## The fingerprint cache (`app/cache.go`) -/

/-- An instant, as a `time.Time` denotes it. -/
abbrev Time := Int

/-- One side of a fingerprint. -/
structure FileInfo where
  IsDir : Bool := false
  Changed : Bool := false
  ModTime : Time := 0
  Size : Int := 0
  Hash : List Byte := []
  deriving DecidableEq, Repr

/-- The details of the local and the remote copy of a file or folder. -/
structure FilePrint where
  Local : FileInfo := {}
  Remote : FileInfo := {}
  deriving DecidableEq, Repr

/-- The in-memory cache: a Go map from relative path to fingerprint, and the
location of the cache file. -/
structure Cache where
  FilePrints : AList (fun _ : String => FilePrint) := ∅
  path : String := ""
  deriving DecidableEq

/-- The map read `cache.FilePrints[path]` with its `ok` flag. -/
def Cache.get? (cache : Cache) (path : String) : Option FilePrint :=
  cache.FilePrints.lookup path

/-- A write through the entry pointer stored under `path`, or the map write
`cache.FilePrints[path] = ent`. -/
def Cache.set (cache : Cache) (path : String) (ent : FilePrint) : Cache :=
  { cache with FilePrints := cache.FilePrints.insert path ent }

/-- The value `new(FilePrint)` after the two assignments of `AddEntry`. -/
def newEntry : FilePrint :=
  let ent : FilePrint := {}
  let ent := { ent with Local.Changed := true }
  { ent with Remote.Changed := true }

/-- Adds or retrieves the fingerprint entry of a file or folder; returns the
cache after the call and the entry. -/
def Cache.AddEntry (cache : Cache) (path : String) : Cache × FilePrint :=
  match cache.get? path with
  | some ent => (cache, ent)
  | none => (cache.set path newEntry, newEntry)

/-- The library routine `sort.Strings`: ascending byte-wise order, which on
UTF-8 strings is the order of `String`. -/
def sortStrings (keys : List String) : List String :=
  keys.insertionSort (fun a b => a ≤ b)

/-- The sorted list of the paths that have a fingerprint. -/
def Cache.Keys (cache : Cache) : List String :=
  let keys := cache.FilePrints.keys
  if keys.length > 1 then sortStrings keys else keys

/-- Walks through the cache in the order of `Keys`, threading the state of
the callback. -/
def Cache.Walk {σ : Type} (cache : Cache) (cb : σ → String → FilePrint → σ) (init : σ) : σ :=
  cache.Keys.foldl
    (fun acc k =>
      match cache.get? k with
      | some fp => cb acc k fp
      | none => acc)
    init

/-! ## The report (`app/report.go`) -/

/-- The three icons of the report. -/
inductive Icon where
  | upload
  | download
  | conflict
  deriving DecidableEq, Repr

/-- One row appended to the results model: the path, then icon and text of
the local and of the remote column. -/
structure Row where
  path : String
  lc : Option Icon
  ls : String
  rc : Option Icon
  rs : String
  deriving DecidableEq, Repr

/-- The callback `ShowResults` hands to `Cache.Walk`: the row appended for a
path, if any. -/
def resultRow (path : String) (fp : FilePrint) : Option Row :=
  if path = "." then none
  else if ¬ (fp.Local.Changed || fp.Remote.Changed) then none
  else if fp.Local.Changed then
    if fp.Remote.Changed then
      if fp.Remote.ModTime = 0 then some ⟨path, some .upload, "", none, "X"⟩
      else some ⟨path, some .conflict, "", some .conflict, ""⟩
    else some ⟨path, some .upload, "", none, "-"⟩
  else
    if fp.Remote.Changed then some ⟨path, none, "-", some .download, ""⟩
    else some ⟨path, none, "-", none, "-"⟩

/-- The rows of the results model built from a cache. -/
def ShowResults (cache : Cache) : List Row :=
  cache.Walk
    (fun rows path fp =>
      match resultRow path fp with
      | some row => rows ++ [row]
      | none => rows)
    []

/-! ## The outside world of a scan -/

/-- The part of an `os.FileInfo` that the scanner reads. -/
structure OsFileInfo where
  Name : String := ""
  IsDir : Bool := false
  ModTime : Time := 0
  Size : Int := 0
  deriving DecidableEq, Repr, Inhabited

/-- The interface `FTPConn`: the listing of a remote folder, and for a remote
file the chunks that `Retrieve` writes to its sink before it returns and the
error it returns. -/
structure FTPConn where
  ReadDir : String → Except OsError (List OsFileInfo)
  Retrieve : String → Reader

/-- The fields of the current `SiteConfig` that the scan and the dialling
read or write. `RemoteAddr` is given by its scheme, host, path, user name and
password, the password being `none` when the address has none; `ServerKey`
is `none` for the `nil` slice. -/
structure SiteConfig where
  Source : String := ""
  CacheFile : String := ""
  Exclude : String := ""
  BinaryFiles : String := ""
  RemoteHost : String := ""
  RemotePath : String := ""
  RemoteScheme : String := ""
  RemoteUser : String := ""
  RemotePassword : Option String := none
  ServerKey : Option (List Byte) := none
  password : String := ""

/-- Everything a scan reads that is not in the repository: the current site
configuration, the path routines of the standard library with the error
results the code drops already dropped, the local files, and the outcome of
dialling the remote server. -/
structure Env where
  Config : SiteConfig
  /-- The constant `filepath.Separator`. -/
  Separator : Char
  /-- The routine `filepath.Join` of two elements. -/
  Join : String → String → String
  /-- The routine `filepath.Rel(base, target)`. -/
  Rel : String → String → String
  /-- The routine `filepath.Base`. -/
  Base : String → String
  /-- The routine `filepath.Ext`. -/
  Ext : String → String
  /-- The routine `filepath.IsAbs`. -/
  IsAbs : String → Bool
  /-- The routine `strings.ToLower`. -/
  ToLower : String → String
  /-- The routine `filepath.Match(pattern, name)`. -/
  Match : String → String → Bool
  /-- The call `os.Open` and the reads of the file it returns. -/
  Open : String → Except OsError Reader
  /-- The lines a `bufio.Scanner` yields for a file, if it can be opened. -/
  Lines : String → Option (List String)
  /-- The outcome of `DialRemote()`. -/
  Dial : Except OsError FTPConn

/-- What a scan does to the outside world. -/
inductive Event where
  | ShowStatus (msg : String)
  | Open (path : String)
  | ReadDir (path : String)
  | Retrieve (path : String)
  | Close
  | ScanComplete
  deriving DecidableEq, Repr

/-- The state a scan threads through its steps: the cache the scanner points
to, the events so far, and the stop channel, given as the number of nodes the
walk can still visit before a value is waiting in the channel (`none` when no
value is ever sent). -/
structure ScanState where
  cache : Cache
  log : List Event := []
  stop : Option Nat := none
  deriving DecidableEq

/-- The state after one more event. -/
def ScanState.emit (st : ScanState) (e : Event) : ScanState :=
  { st with log := st.log ++ [e] }

/-! ## The scanner (`scanner.go`) -/

/-- The constant data of a scan. The `Cache` field of the Go struct is a
pointer to the cache, which is kept in the `ScanState`; `BinaryFiles` lists
the keys of the Go map. -/
structure Scanner where
  Conn : FTPConn
  Local : String
  Remote : String
  Exclude : List String
  BinaryFiles : List String

/-- The loop of `excluded` over the exclusion patterns. -/
def excludedLoop (env : Env) (path base : String) : List String → Bool
  | [] => false
  | pattern :: rest =>
    let ps := if env.Separator ∉ pattern.data then base else path
    if env.Match pattern ps then true else excludedLoop env path base rest

/-- Compares a path with the patterns of the exclusion list; `true` if the
file or folder should be skipped. -/
def Scanner.excluded (env : Env) (s : Scanner) (path : String) : Bool :=
  if path = env.Config.CacheFile then true
  else excludedLoop env path (env.Base path) s.Exclude

/-- Compares the extension of a path with the binary file types. -/
def Scanner.isBinary (env : Env) (s : Scanner) (path : String) : Bool :=
  let ext := env.ToLower (env.Ext path)
  if ext ∈ s.BinaryFiles ∨ ext = "" then true else false

/-- The hash `CheckLocal` and `CheckRemote` set up for a path: MD5, wrapped
in a `TextHash` unless the path is a binary file. -/
def Scanner.newHash (env : Env) (s : Scanner) (path : String) : Hash :=
  let hash := md5New
  if ¬ s.isBinary env path then NewTextHash hash else hash

/-- Called for each local file: checks whether the fingerprint needs to be
updated and, if so, recomputes the hash value. -/
def Scanner.CheckLocal (env : Env) (s : Scanner) (st : ScanState) (path : String)
    (info : OsFileInfo) : ScanState × Option Error :=
  if s.excluded env path then (st, none)
  else
    let (cache, ent) := st.cache.AddEntry path
    let st := { st with cache := cache }
    if ent.Local.ModTime ≠ info.ModTime ∨ ent.Local.Size ≠ info.Size then
      let ent := { ent with Local.Changed := true }
      let ent := { ent with Local.ModTime := info.ModTime }
      let ent := { ent with Local.Size := info.Size }
      let st := { st with cache := st.cache.set path ent }
      let st := st.emit (.Open (env.Join s.Local path))
      match env.Open (env.Join s.Local path) with
      | .error err => (st, some (.Os err))
      | .ok f =>
        match ioCopy (s.newHash env path) f with
        | (_, some err) =>
          let ent := { ent with Local.Hash := [] }
          ({ st with cache := st.cache.set path ent }, some err)
        | (hash, none) =>
          let ent := { ent with Local.Hash := hash.Sum }
          if bytesEqual ent.Local.Hash ent.Remote.Hash then
            let ent := { ent with Local.Changed := false }
            let ent := { ent with Remote.Changed := false }
            ({ st with cache := st.cache.set path ent }, none)
          else ({ st with cache := st.cache.set path ent }, none)
    else (st, none)

/-- Called for each remote file: checks whether the fingerprint needs to be
updated and, if so, recomputes the hash value. -/
def Scanner.CheckRemote (env : Env) (s : Scanner) (st : ScanState) (path : String)
    (info : OsFileInfo) : ScanState × Option Error :=
  if s.excluded env path then (st, none)
  else
    let st := st.emit (.ShowStatus path)
    let (cache, ent) := st.cache.AddEntry path
    let st := { st with cache := cache }
    if ent.Remote.ModTime ≠ info.ModTime ∨ ent.Remote.Size ≠ info.Size then
      let ent := { ent with Remote.Changed := true }
      let ent := { ent with Remote.ModTime := info.ModTime }
      let ent := { ent with Remote.Size := info.Size }
      let st := { st with cache := st.cache.set path ent }
      let st := st.emit (.Retrieve (env.Join s.Remote path))
      match ioCopy (s.newHash env path) (s.Conn.Retrieve (env.Join s.Remote path)) with
      | (_, some err) =>
        let ent := { ent with Remote.Hash := [] }
        ({ st with cache := st.cache.set path ent }, some err)
      | (hash, none) =>
        let ent := { ent with Remote.Hash := hash.Sum }
        ({ st with cache := st.cache.set path ent }, none)
    else (st, none)

/-- The body of the loop of `EnterFolder` over the remote listing. -/
def Scanner.remoteEntry (env : Env) (s : Scanner) (path : String) (st : ScanState)
    (inf : OsFileInfo) : ScanState :=
  let rel := env.Join path inf.Name
  if s.excluded env rel then st
  else if inf.IsDir then
    let (cache, ent) := st.cache.AddEntry rel
    let ent := { ent with Remote := { IsDir := true, ModTime := inf.ModTime, Size := 0 } }
    { st with cache := cache.set rel ent }
  else (s.CheckRemote env st rel inf).1

/-- The state in which `EnterFolder` reads the remote folder: the folder has
its entry, and the local side of the entry is written. -/
def Scanner.folderState (env : Env) (s : Scanner) (st : ScanState) (path : String)
    (info : OsFileInfo) : ScanState :=
  let rel := if path = "." then s.Local else path
  let st := st.emit (.ShowStatus rel)
  let (cache, ent) := st.cache.AddEntry path
  let ent := { ent with Local := { IsDir := true, ModTime := info.ModTime, Size := 0 } }
  let st := { st with cache := cache.set path ent }
  st.emit (.ReadDir (env.Join s.Remote path))

/-- Called when a folder is entered: fetches the folder contents from the
remote copy and creates or updates the fingerprint of each entry. -/
def Scanner.EnterFolder (env : Env) (s : Scanner) (st : ScanState) (path : String)
    (info : OsFileInfo) : ScanState × Option Error :=
  if s.excluded env path then (st, some .SkipDir)
  else
    let rel := if path = "." then s.Local else path
    let st := st.emit (.ShowStatus rel)
    let (cache, ent) := st.cache.AddEntry path
    let ent := { ent with Local := { IsDir := true, ModTime := info.ModTime, Size := 0 } }
    let st := { st with cache := cache.set path ent }
    let st := st.emit (.ReadDir (env.Join s.Remote path))
    match s.Conn.ReadDir (env.Join s.Remote path) with
    | .ok dir => (dir.foldl (s.remoteEntry env path) st, none)
    | .error err => if ent.Remote.IsDir then (st, some (.Os err)) else (st, none)

/-- The local tree as `filepath.Walk` finds it: a node that `Lstat` cannot
read, or a node with its `Lstat` result and, for use when that says it is a
folder, the error of reading its names, if any, and its entries in the order
of their names. -/
inductive Tree where
  | bad (name : String) (err : OsError)
  | node (info : OsFileInfo) (readErr : Option OsError) (children : List Tree)

/-- The name of a node within its folder. -/
def Tree.name : Tree → String
  | .bad name _ => name
  | .node info _ _ => info.Name

/-- A local file. -/
def Tree.file (name : String) (modTime : Time) (size : Int) : Tree :=
  .node { Name := name, IsDir := false, ModTime := modTime, Size := size } none []

/-- A local folder whose names can be read. -/
def Tree.dir (name : String) (modTime : Time) (children : List Tree) : Tree :=
  .node { Name := name, IsDir := true, ModTime := modTime, Size := 0 } none children

/-- The type `filepath.WalkFunc`, threading the scan state. -/
abbrev WalkFunc :=
  ScanState → String → OsFileInfo → Option OsError → ScanState × Option Error

mutual

/-- The helper `walk` of `filepath.Walk`; for a node that `Lstat` cannot read
it is the call of the function with that error. -/
def walk (env : Env) (fn : WalkFunc) (path : String) : Tree → ScanState → ScanState × Option Error
  | .bad _ err, st => fn st path default (some err)
  | .node info readErr children, st =>
    if ¬ info.IsDir then fn st path info none
    else
      match fn st path info readErr with
      | (st1, err1) =>
        if readErr.isSome ∨ err1.isSome then (st1, err1)
        else walkNames env fn path children st1

/-- The loop of `walk` over the names of a folder. -/
def walkNames (env : Env) (fn : WalkFunc) (path : String) :
    List Tree → ScanState → ScanState × Option Error
  | [], st => (st, none)
  | t :: rest, st =>
    match walk env fn (env.Join path t.name) t st with
    | (st1, none) => walkNames env fn path rest st1
    | (st1, some err) =>
      let stops :=
        match t with
        | .bad _ _ => decide (err ≠ .SkipDir)
        | .node info _ _ => !info.IsDir || decide (err ≠ .SkipDir)
      if stops then (st1, some err) else walkNames env fn path rest st1

end

/-- The library routine `filepath.Walk(root, fn)`. -/
def filepathWalk (env : Env) (fn : WalkFunc) (root : String) (tree : Tree) (st : ScanState) :
    ScanState × Option Error :=
  match walk env fn root tree st with
  | (st1, err) => if err = some .SkipDir then (st1, none) else (st1, err)

/-- The function `Scanner.Walk` hands to `filepath.Walk`. -/
def Scanner.visit (env : Env) (s : Scanner) : WalkFunc := fun st path info err =>
  match st.stop with
  | some 0 => ({ st with stop := none }, some (.New "Scan aborted"))
  | stop =>
    let st := { st with stop := stop.map (fun n => n - 1) }
    let rel := env.Rel s.Local path
    match err with
    | some e => if IsNotExist e then (st, none) else (st, some (.Os e))
    | none => if info.IsDir then s.EnterFolder env st rel info else s.CheckLocal env st rel info

/-- Traverses the local file tree and compares the files and folders with
the remote copy. -/
def Scanner.Walk (env : Env) (s : Scanner) (tree : Tree) (st : ScanState) :
    ScanState × Option Error :=
  filepathWalk env (s.visit env) env.Config.Source tree st

/-- The pieces of a list of characters between the occurrences of `sep`. -/
def splitChars (sep : Char) : List Char → List (List Char)
  | [] => [[]]
  | c :: cs =>
    match splitChars sep cs with
    | [] => [[]]
    | w :: ws => if c = sep then [] :: w :: ws else (c :: w) :: ws

/-- The library routine `strings.Split(s, "|")`. -/
def splitBar (s : String) : List String :=
  (splitChars '|' s.data).map String.mk

/-- The loop of `ScanFolders` that resolves the exclusion list: an entry
`@file` stands for the file itself and for every line of it. -/
def expandExclude (env : Env) : List String → List String
  | [] => []
  | x :: rest =>
    if x.data.head? = some '@' then
      let path := String.mk (x.data.drop 1)
      let full := if ¬ env.IsAbs path then env.Join env.Config.Source path else path
      match env.Lines full with
      | none => path :: expandExclude env rest
      | some lines => path :: (lines ++ expandExclude env rest)
    else x :: expandExclude env rest

/-- The scanner `ScanFolders` sets up for a connection. -/
def newScanner (env : Env) (conn : FTPConn) : Scanner :=
  { Conn := conn
    Local := env.Config.Source
    Remote := env.Config.RemotePath
    Exclude := expandExclude env (splitBar env.Config.Exclude)
    BinaryFiles := splitBar env.Config.BinaryFiles }

/-- Initiates a local and remote scan; the error returned is the value sent
on the `errors` channel. The deferred `conn.Close()` runs when the function
returns, after the completion signal. -/
def ScanFolders (env : Env) (tree : Tree) (st : ScanState) : ScanState × Option Error :=
  let st := st.emit (.ShowStatus "Opening connection ...")
  match env.Dial with
  | .error err => (st.emit .ScanComplete, some (.Os err))
  | .ok conn =>
    match (newScanner env conn).Walk env tree st with
    | (st1, err) => ((st1.emit .ScanComplete).emit .Close, err)

/-! ## The scan controller (`main.go`) -/

/-- Checks that the site configuration allows a scan. -/
def SiteConfig.Check (c : SiteConfig) : Option Error :=
  if c.Source = "" then some (.New "No source configured for scan")
  else if c.RemoteHost = "" then some (.New "No remote server configured for scan")
  else if c.CacheFile = "" then some (.New "Cache file name must not be blank")
  else none

/-- No scan is running. -/
def Scanner__Idle : Nat := 0

/-- A scan is running. -/
def Scanner__Active : Nat := 1

/-- A scan is running and has been told to stop. -/
def Scanner__Stopping : Nat := 2

/-- What the controller does to the outside world. -/
inductive UiEvent where
  /-- The statement `go ScanFolders(w.cache, w.errors, w.abort)`. -/
  | StartScan
  /-- The send `w.abort <- true`. -/
  | SendAbort
  /-- The call `w.cache.Write()`, with the cache it is called on. -/
  | CacheWrite (cache : Cache)
  /-- The call `w.report.SetModel(ShowResults(w.cache))`. -/
  | SetModel (rows : List Row)
  | TempStatus (msg : String)
  | showError (scope : String) (err : Error)
  /-- The call `log.Println("Scan:", err)`. -/
  | Log (err : Error)
  deriving DecidableEq

/-- The fields of the main window that control a scan, and the events so far.
The field `cache` of the Go struct is a pointer: `cacheNil` tells that it is
`nil`, and `cache` is then of no account. -/
structure MainWindow where
  cache : Cache
  scanState : Nat := Scanner__Idle
  ui : List UiEvent := []
  cacheNil : Bool := false
  deriving DecidableEq

/-- The window after one more event. -/
def MainWindow.emit (w : MainWindow) (e : UiEvent) : MainWindow :=
  { w with ui := w.ui ++ [e] }

/-- The caches that `Cache.Write` was called on, oldest first. -/
def MainWindow.writes (w : MainWindow) : List Cache :=
  w.ui.filterMap fun e =>
    match e with
    | .CacheWrite c => some c
    | _ => none

/-- The number of values sent on the `abort` channel. -/
def MainWindow.aborts (w : MainWindow) : Nat :=
  w.ui.countP fun e =>
    match e with
    | .SendAbort => true
    | _ => false

/-- Handles the menu item to begin a new scan. -/
def MainWindow.beginScan (env : Env) (w : MainWindow) : MainWindow :=
  if w.scanState ≠ Scanner__Idle then w
  else
    match env.Config.Check with
    | none => { w with scanState := Scanner__Active }.emit .StartScan
    | some err => w.emit (.showError "Scan" err)

/-- The handler of the signal that the scan goroutine has finished; `recv` is
the value it receives from the `errors` channel. -/
def MainWindow.scanComplete (w : MainWindow) (recv : Option Error) : MainWindow :=
  let w :=
    if w.scanState ≠ Scanner__Idle then
      match recv with
      | some err => (w.emit (.TempStatus "Scan failed")).emit (.showError "Scan" err)
      | none =>
        ((w.emit (.TempStatus "Scan complete")).emit (.CacheWrite w.cache)).emit
          (.SetModel (ShowResults w.cache))
    else w
  { w with scanState := Scanner__Idle }

/-- Called to abort the current scan on program exit; `recv` is the value it
receives from the `errors` channel after it has sent the abort. -/
def MainWindow.EndScan (w : MainWindow) (recv : Option Error) : MainWindow :=
  if w.scanState = Scanner__Active then
    let w := { w with scanState := Scanner__Stopping }
    let w := w.emit .SendAbort
    match recv with
    | some err => w.emit (.Log err)
    | none => w.emit (.CacheWrite w.cache)
  else w

/-- The scan goroutine run to its end on the cache of the window, and the
value it sends on `errors`; `stop` tells when an abort reaches it. -/
def MainWindow.scan (env : Env) (tree : Tree) (w : MainWindow) (stop : Option Nat) :
    MainWindow × Option Error :=
  match ScanFolders env tree { cache := w.cache, stop := stop } with
  | (st, err) => ({ w with cache := st.cache }, err)

/-- A scan that runs undisturbed: `beginScan`, the goroutine to its end, and
the handler of its completion signal. -/
def MainWindow.runScan (env : Env) (tree : Tree) (w : MainWindow) : MainWindow :=
  let w1 := w.beginScan env
  if w.scanState = Scanner__Idle ∧ w1.scanState = Scanner__Active then
    match w1.scan env tree none with
    | (w2, err) => w2.scanComplete err
  else w1

/-- A shutdown during a scan: the window is active, `EndScan` sends the abort
when the walk has visited `k` nodes, and receives what the goroutine sends. -/
def MainWindow.shutdown (env : Env) (tree : Tree) (w : MainWindow) (k : Nat) : MainWindow :=
  match w.scan env tree (some k) with
  | (w2, err) => w2.EndScan err

/-! ## Progress of a walk -/

/-- The walk of the node `t` at path `p`, begun in state `st`, comes to the
node `t'` at path `p'` in state `st'`: either it is there already, or `t` is a
folder whose names could be read, the function returned no error for it, the
entries before one entry `c` were walked through, and the walk of `c` comes
to `t'`. -/
inductive Reaches (env : Env) (fn : WalkFunc) :
    String → Tree → ScanState → String → Tree → ScanState → Prop where
  | here (p : String) (t : Tree) (st : ScanState) : Reaches env fn p t st p t st
  | child {p : String} {info : OsFileInfo} {pre post : List Tree} {c : Tree}
      {st st1 st2 : ScanState} {p' : String} {t' : Tree} {st' : ScanState}
      (hdir : info.IsDir = true)
      (hfn : fn st p info none = (st1, none))
      (hpre : walkNames env fn p pre st1 = (st2, none))
      (hc : Reaches env fn (env.Join p c.name) c st2 p' t' st') :
      Reaches env fn p (.node info none (pre ++ c :: post)) st p' t' st'

/-! ## A small site for the concrete runs -/

/-- The piece of a string after the last occurrence of `sep`. -/
def lastPiece (sep : Char) (s : String) : String :=
  String.mk ((splitChars sep s.data).getLastD [])

/-- The routine `filepath.Join` on two clean paths without a trailing
slash, the second one relative. -/
def siteJoin (a b : String) : String :=
  if a = "." then b else if b = "." then a else a ++ "/" ++ b

/-- The routine `filepath.Rel` on a clean folder path and a path below it. -/
def siteRel (base target : String) : String :=
  if target = base then "." else String.mk (target.data.drop (base.length + 1))

/-- The routine `filepath.Ext` on a clean slash-separated path. -/
def siteExt (path : String) : String :=
  let b := lastPiece '/' path
  if '.' ∈ b.data then "." ++ lastPiece '.' b else ""

/-- A site on a system with slash-separated paths: local folder `/site`,
remote folder `/www`, cache file `ftpsync.cache`, nothing excluded, `.png`
and `.jpg` binary. The path routines are the library ones on clean paths of
ASCII letters, and patterns are matched as plain names. -/
def siteEnv (files : String → Except OsError Reader) (dial : Except OsError FTPConn) : Env :=
  { Config :=
      { Source := "/site"
        CacheFile := "ftpsync.cache"
        Exclude := ""
        BinaryFiles := ".png|.jpg"
        RemoteHost := "example.org"
        RemotePath := "/www" }
    Separator := '/'
    Join := siteJoin
    Rel := siteRel
    Base := lastPiece '/'
    Ext := siteExt
    IsAbs := fun path => path.data.head? = some '/'
    ToLower := fun s => String.mk (s.data.map Char.toLower)
    Match := fun pattern name => pattern = name
    Open := files
    Lines := fun _ => none
    Dial := dial }

/-- The bytes of a string of ASCII characters. -/
def ascii (s : String) : List Byte :=
  s.data.map fun c => UInt8.ofNat c.toNat

/-- The local files of the site: `index.html` with the given reader, and no
other file. -/
def siteFiles (r : Reader) : String → Except OsError Reader := fun path =>
  if path = "/site/index.html" then .ok r else .error (.NotExist path)

/-- A server for the site: the remote folder `/www` has the given listing, no
other folder can be listed, and the files are fetched as `fetch` tells. -/
def siteConn (listing : List OsFileInfo) (fetch : String → Reader) : FTPConn :=
  { ReadDir := fun path => if path = "/www" then .ok listing else .error (.NotExist path)
    Retrieve := fetch }

/-- The local tree of the site: the folder with the one file `index.html`,
5 bytes long, last modified at 7. -/
def siteTree : Tree :=
  Tree.dir "site" 3 [Tree.file "index.html" 7 5]

/-- The `Lstat` result of the local `index.html`. -/
def pageInfo : OsFileInfo :=
  { Name := "index.html", IsDir := false, ModTime := 7, Size := 5 }

/-- The `Lstat` result of the local folder of the site. -/
def rootInfo : OsFileInfo :=
  { Name := "site", IsDir := true, ModTime := 3, Size := 0 }

/-- The five bytes `a\r\nb` of `index.html`. -/
def page : List Byte := ascii "a\r\nb"

/-- A server that has `index.html`, listed with modification time `modTime`
and size 5 and fetched as `fetch`. -/
def pageConn (modTime : Time) (fetch : Reader) : FTPConn :=
  siteConn [{ Name := "index.html", ModTime := modTime, Size := 5 }] fun _ => fetch

/-- The site with `index.html` on both sides, locally read as `r`. -/
def pageEnv (r : Reader) (modTime : Time) (fetch : Reader) : Env :=
  siteEnv (siteFiles r) (.ok (pageConn modTime fetch))

/-- The scanner `ScanFolders` sets up for that site. -/
def pageScanner (r : Reader) (modTime : Time) (fetch : Reader) : Scanner :=
  newScanner (pageEnv r modTime fetch) (pageConn modTime fetch)

/-- Both sides deliver the page in one chunk; the remote copy was last
modified at 9. -/
def syncedEnv : Env := pageEnv { chunks := [page] } 9 { chunks := [page] }

/-- As `syncedEnv`, after the same page was uploaded again at 11. -/
def reuploadedEnv : Env := pageEnv { chunks := [page] } 11 { chunks := [page] }

/-- As `syncedEnv`, but the transport delivers the page in the two chunks
`a\r` and `\nb`. -/
def splitEnv : Env := pageEnv { chunks := [page] } 9 { chunks := [ascii "a\r", ascii "\nb"] }

/-- As `syncedEnv`, but reading the local page fails after its first two
bytes. -/
def unreadableEnv : Env :=
  pageEnv { chunks := [ascii "a\r"], err := some (.Fail "input/output error") } 9
    { chunks := [page] }

/-- The state in which the walk of that site, begun with an empty cache,
leaves the root folder. -/
def unreadableStart : ScanState :=
  ((newScanner unreadableEnv (pageConn 9 { chunks := [page] })).visit unreadableEnv
    (({ cache := {} } : ScanState).emit (.ShowStatus "Opening connection ..."))
    "/site" rootInfo none).1

/-- A cache that holds `index.html` with the digest of the folded page on
both sides, the local side as of modification time `localTime`. -/
def pageCache (localTime : Time) : Cache :=
  { FilePrints := AList.singleton "index.html"
      { Local := { Changed := true, ModTime := localTime, Size := 5,
                   Hash := md5Sum (ascii "a\nb") }
        Remote := { Changed := true, ModTime := 9, Size := 5, Hash := md5Sum (ascii "a\nb") } } }

/-- A server that lists `logo.png` and `index.html` and fails to deliver
`logo.png`. -/
def logoConn : FTPConn :=
  siteConn
    [{ Name := "logo.png", ModTime := 4, Size := 9 },
     { Name := "index.html", ModTime := 9, Size := 5 }]
    fun path =>
      if path = "/www/logo.png" then { chunks := [], err := some (.Fail "connection reset") }
      else { chunks := [page] }

/-- The site on that server. -/
def logoEnv : Env := siteEnv (siteFiles { chunks := [page] }) (.ok logoConn)

/-- A window with an empty cache and no scan running. -/
def idleWindow : MainWindow := { cache := {} }

/-- A window with an empty cache whose scan is running. -/
def activeWindow : MainWindow := { cache := {}, scanState := Scanner__Active }

/-- The remote listing item of `index.html` after the second upload. -/
def reuploadedInfo : OsFileInfo :=
  { Name := "index.html", IsDir := false, ModTime := 11, Size := 5 }

/-- A cache that holds `a.txt` only. -/
def oneEntryCache : Cache := { FilePrints := AList.singleton "a.txt" {} }

/-! ## Loading the cache (`app/cache.go`) -/

/-- Creates an empty cache for the current site. -/
def NewCache (env : Env) : Cache :=
  let path := env.Config.CacheFile
  let path :=
    if path ≠ "" ∧ env.Base path = path then env.Join env.Config.Source path else path
  { FilePrints := ∅, path := path }

/-- Reads and decodes the saved cache file of the last run. `Decode` is the
call `dec.Decode(cache)` of the `gob` decoder on the opened file: the cache as
the decoder leaves it, and its error. The result is the pointer returned,
`none` for `nil`, and the error. -/
def LoadCache (env : Env) (Decode : Reader → Cache → Cache × Option OsError) :
    Option Cache × Option Error :=
  let cache := NewCache env
  match env.Open cache.path with
  | .error err => if ¬ IsNotExist err then (none, some (.Os err)) else (some cache, none)
  | .ok f =>
    match Decode f cache with
    | (_, some err) => (none, some (.Os err))
    | (cache, none) => (some cache, none)

/-! ## Globbing -/

/-- The rest of a pattern after a `*`, given as the test `k` of what is left
of the name: the `*` stands for any sequence of characters other than the
separator. -/
def starMatch (k : List Char → Bool) : List Char → Bool
  | [] => k []
  | c :: cs => k (c :: cs) || (c != '/' && starMatch k cs)

/-- The library routine `filepath.Match` on a system whose separator is the
slash, for a pattern without `[` and `\`: `*` matches any sequence of
non-separator characters, `?` any single non-separator character, any other
character itself, and the pattern has to match all of the name. -/
def globMatch : List Char → List Char → Bool
  | [], name => name.isEmpty
  | p :: ps, name =>
    if p = '*' then starMatch (globMatch ps) name
    else
      match name with
      | [] => false
      | c :: cs => if p = '?' then c != '/' && globMatch ps cs else p == c && globMatch ps cs

/-- The site of the concrete runs with patterns matched as globs, the given
binary file types, and the scheme and cached server key given. -/
def globEnv (binary scheme : String) (key : Option (List Byte)) : Env :=
  { Config :=
      { Source := "/site"
        CacheFile := "ftpsync.cache"
        Exclude := ""
        BinaryFiles := binary
        RemoteHost := "example.org"
        RemotePath := "/www"
        RemoteScheme := scheme
        ServerKey := key }
    Separator := '/'
    Join := siteJoin
    Rel := siteRel
    Base := lastPiece '/'
    Ext := siteExt
    IsAbs := fun path => path.data.head? = some '/'
    ToLower := fun s => String.mk (s.data.map Char.toLower)
    Match := fun pattern name => globMatch pattern.data name.data
    Open := fun path => .error (.NotExist path)
    Lines := fun _ => none
    Dial := .error (.Fail "no server") }

/-- A scanner with the given exclusion list and binary file types, over a
server that lists nothing. -/
def plainScanner (exclude binary : List String) : Scanner :=
  { Conn := siteConn [] fun _ => { chunks := [] }
    Local := "/site"
    Remote := "/www"
    Exclude := exclude
    BinaryFiles := binary }

/-! ## The controller as a machine of events -/

/-- The events of the controller; the two that read the `errors` channel
carry the value a scan has sent. -/
inductive CtlEvent where
  | beginScan
  | scanComplete (recv : Option Error)
  | EndScan (recv : Option Error)

/-- The window together with the number of scans that were started and whose
result has not been received, and whether the controller waits for ever for
a result that no scan will send. -/
structure Controller where
  w : MainWindow
  scans : Nat := 0
  stuck : Bool := false

/-- One event of the controller. A receive from `errors` ends the scan whose
result it receives; with no scan left to send one, it never returns. -/
def Controller.step (env : Env) (c : Controller) : CtlEvent → Controller
  | .beginScan =>
    if c.stuck then c
    else if c.w.scanState = Scanner__Idle ∧ env.Config.Check = none then
      { c with w := c.w.beginScan env, scans := c.scans + 1 }
    else { c with w := c.w.beginScan env }
  | .scanComplete recv =>
    if c.stuck then c
    else if c.w.scanState ≠ Scanner__Idle then
      if c.scans = 0 then { c with stuck := true }
      else { c with w := c.w.scanComplete recv, scans := c.scans - 1 }
    else { c with w := c.w.scanComplete recv }
  | .EndScan recv =>
    if c.stuck then c
    else if c.w.scanState = Scanner__Active then
      if c.scans = 0 then
        { c with
          w := { c.w with scanState := Scanner__Stopping }.emit .SendAbort
          stuck := true }
      else { c with w := c.w.EndScan recv, scans := c.scans - 1 }
    else { c with w := c.w.EndScan recv }

/-- A sequence of events of the controller. -/
def Controller.run (env : Env) (c : Controller) (events : List CtlEvent) : Controller :=
  events.foldl (Controller.step env) c

/-- The number of scans started. -/
def MainWindow.starts (w : MainWindow) : Nat :=
  w.ui.countP fun e =>
    match e with
    | .StartScan => true
    | _ => false

/-- The count of aborts sent to the scan last started, after one more
event: a start sets it to zero, an abort adds one to it. -/
def countAbort (acc : Option Nat) : UiEvent → Option Nat
  | .StartScan => some 0
  | .SendAbort => acc.map fun n => n + 1
  | _ => acc

/-- The number of aborts sent since the last scan was started, `none` when
no scan was started yet. -/
def abortsOfScan (ui : List UiEvent) : Option Nat :=
  ui.foldl countAbort none

/-- What holds of the controller after any sequence of events that begins
with an idle window: it is idle with no scan running and no abort sent since
the last start, or active with one scan running and no abort sent to it, or
stopping with the one abort sent and the result of the scan received. -/
def CtlInv (c : Controller) : Prop :=
  (c.w.scanState = Scanner__Idle ∧ c.scans = 0 ∧
      ((abortsOfScan c.w.ui = none ∧ c.w.aborts = 0) ∨ abortsOfScan c.w.ui = some 0)) ∨
    (c.w.scanState = Scanner__Active ∧ c.scans = 1 ∧ abortsOfScan c.w.ui = some 0) ∨
    (c.w.scanState = Scanner__Stopping ∧ c.scans = 0 ∧ abortsOfScan c.w.ui = some 1)

/-! ## Dialling the server (`app/ftp.go`) -/

/-- The fields of an `x509.Certificate` that the vetting reads. The signature
of a parsed certificate is never the `nil` slice. -/
structure Certificate where
  Signature : List Byte
  Subject : String := ""
  Issuer : String := ""
  deriving DecidableEq

/-- A dialogue shown to the user. -/
inductive Prompt where
  /-- The box `TLS Certificate`, with the host, the error and the details. -/
  | Certificate (host detail subject issuer : String)
  /-- The box `New SSH Key`, with the host name and the address. -/
  | HostKey (hostname remote : String)
  /-- The input dialogue `Password`, with the host. -/
  | Password (host : String)
  deriving DecidableEq

/-- The state the dialling threads through its steps: the current site
configuration, the dialogues shown so far, and the events so far. -/
structure Session where
  Config : SiteConfig
  prompts : List Prompt := []
  log : List Event := []

/-- The text of an error from outside. -/
def OsError.text : OsError → String
  | .NotExist text => text
  | .Fail text => text

/-- What the dialling finds outside the repository. -/
structure Remote where
  /-- The routine `x509.ParseCertificates` on the first raw certificate, which
  the TLS layer has parsed before: the leaf and what follows it, or an error. -/
  ParseCertificates : List Byte → Except OsError (Certificate × List Certificate)
  /-- The method `leaf.Verify` for a host name and a pool of intermediates. -/
  Verify : Certificate → String → List Certificate → Option OsError
  /-- Whether the user presses `Ok` in a trust box. -/
  trust : Bool
  /-- What the user types into the password dialogue, `none` for `Cancel`. -/
  typed : Option String
  /-- The call `goftp.DialConfig`, which opens no connection yet. -/
  DialConfig : Option OsError
  /-- The first raw certificate the server presents when a connection under
  TLS is opened. -/
  raw : List Byte
  /-- The FTP server once a connection is open. -/
  ftp : FTPConn
  /-- The host name, address and marshalled host key the SSH server presents. -/
  hostKey : String × String × List Byte
  /-- The failure of `ssh.Dial` apart from the vetting of the host key. -/
  sshDial : Option OsError
  /-- The call `sftp.NewClient`. -/
  NewClient : Except OsError FTPConn

/-- Vets the FTPS server certificate in place of the normal checking of
trust chains. -/
def vetServerTrust (r : Remote) (v : Session) (raw0 : List Byte) : Session × Option Error :=
  match r.ParseCertificates raw0 with
  | .error err => (v, some (.Os err))
  | .ok (leaf, rest) =>
    if v.Config.ServerKey.isSome ∧ bytesEqual (v.Config.ServerKey.getD []) leaf.Signature then
      (v, none)
    else
      match r.Verify leaf v.Config.RemoteHost rest with
      | none => (v, none)
      | some err =>
        let v :=
          { v with
            prompts := v.prompts ++
              [.Certificate v.Config.RemoteHost err.text leaf.Subject leaf.Issuer] }
        if r.trust then
          ({ v with Config := { v.Config with ServerKey := some leaf.Signature } }, none)
        else (v, some (.New "TLS certificate not trusted"))

/-- Vets the SSH server key; `keyBytes` is `key.Marshal()`, which is never
the `nil` slice. -/
def vetHostKey (r : Remote) (v : Session) (hostname remote : String) (keyBytes : List Byte) :
    Session × Option Error :=
  if v.Config.ServerKey.isSome ∧ bytesEqual (v.Config.ServerKey.getD []) keyBytes then
    (v, none)
  else
    let v := { v with prompts := v.prompts ++ [.HostKey hostname remote] }
    if r.trust then ({ v with Config := { v.Config with ServerKey := some keyBytes } }, none)
    else (v, some (.New ("Server key not trusted (host=" ++ hostname ++ ")")))

/-- Prompts the user to enter a password. -/
def promptForPassword (r : Remote) (v : Session) : Session × Except Error String :=
  let v := { v with prompts := v.prompts ++ [.Password v.Config.RemoteHost] }
  match r.typed with
  | some pwd => (v, .ok pwd)
  | none => (v, .error (.New "Transfer cancelled"))

/-- The first command on a `goftp` connection: the connection is opened, under
`ftps` the certificate of the server is vetted, and the folder is listed. -/
def ftpReadDir (r : Remote) (v : Session) (path : String) :
    Session × Except Error (List OsFileInfo) :=
  let v := { v with log := v.log ++ [.ReadDir path] }
  if v.Config.RemoteScheme = "ftps" then
    match vetServerTrust r v r.raw with
    | (v, some err) => (v, .error err)
    | (v, none) =>
      match r.ftp.ReadDir path with
      | .ok dir => (v, .ok dir)
      | .error err => (v, .error (.Os err))
  else
    match r.ftp.ReadDir path with
    | .ok dir => (v, .ok dir)
    | .error err => (v, .error (.Os err))

/-- Creates a normal FTP session, with or without TLS. -/
def dialFTP (r : Remote) (v : Session) : Session × Except Error FTPConn :=
  let resolved : Session × Except Error String :=
    match v.Config.RemotePassword with
    | some pwd => (v, .ok pwd)
    | none =>
      if v.Config.password = "" then
        match promptForPassword r v with
        | (v, .error err) => (v, .error err)
        | (v, .ok pwd) => ({ v with Config := { v.Config with password := pwd } }, .ok pwd)
      else (v, .ok v.Config.password)
  match resolved with
  | (v, .error err) => (v, .error err)
  | (v, .ok _) =>
    match r.DialConfig with
    | some err => (v, .error (.Os err))
    | none =>
      match ftpReadDir r v v.Config.RemotePath with
      | (v, .error err) => ({ v with log := v.log ++ [.Close] }, .error err)
      | (v, .ok _) => (v, .ok r.ftp)

/-- Creates an SSH FTP session. -/
def dialSFTP (r : Remote) (v : Session) : Session × Except Error FTPConn :=
  let resolved : Session × Except Error String :=
    match v.Config.RemotePassword with
    | some pwd => (v, .ok pwd)
    | none => promptForPassword r v
  match resolved with
  | (v, .error err) => (v, .error err)
  | (v, .ok _) =>
    match vetHostKey r v r.hostKey.1 r.hostKey.2.1 r.hostKey.2.2 with
    | (v, some err) => (v, .error err)
    | (v, none) =>
      match r.sshDial with
      | some err => (v, .error (.Os err))
      | none =>
        match r.NewClient with
        | .error err => (v, .error (.Os err))
        | .ok client => (v, .ok client)

/-- Detects the type of connection from the scheme of the remote address and
returns an active connection. -/
def DialRemote (r : Remote) (v : Session) : Session × Except Error FTPConn :=
  if v.Config.RemoteScheme = "ftp" ∨ v.Config.RemoteScheme = "ftps" then dialFTP r v
  else if v.Config.RemoteScheme = "sftp" then dialSFTP r v
  else
    (v, .error (.New ("Unsupported scheme (" ++ v.Config.RemoteScheme ++
      ") for remote address")))

/-- The number of listings of `path` among the events. -/
def listings (path : String) (log : List Event) : Nat :=
  log.count (.ReadDir path)

/-- A server whose root folder `/www` cannot be listed, reached with a
password in the address; the user would trust it. -/
def lostRoot : Remote :=
  { ParseCertificates := fun _ => .ok ({ Signature := [1, 2, 3] }, [])
    Verify := fun _ _ _ => none
    trust := true
    typed := some "secret"
    DialConfig := none
    raw := [48]
    ftp :=
      { ReadDir := fun path => .error (.NotExist path)
        Retrieve := fun _ => { chunks := [] } }
    hostKey := ("example.org", "192.0.2.1:22", [7, 7, 7])
    sshDial := none
    NewClient := .ok
      { ReadDir := fun path => .error (.NotExist path)
        Retrieve := fun _ => { chunks := [] } } }

/-- A server whose certificate is signed by itself and whose host key is not
known; `trust` tells whether the user accepts it. -/
def selfSigned (trust : Bool) : Remote :=
  { ParseCertificates := fun _ =>
      .ok ({ Signature := [1, 2, 3], Subject := "CN=example.org", Issuer := "CN=example.org" }, [])
    Verify := fun _ _ _ => some (.Fail "x509: certificate signed by unknown authority")
    trust := trust
    typed := some "secret"
    DialConfig := none
    raw := [48]
    ftp := siteConn [] fun _ => { chunks := [] }
    hostKey := ("example.org", "192.0.2.1:22", [7, 7, 7])
    sshDial := none
    NewClient := .ok (siteConn [] fun _ => { chunks := [] }) }

/-- A site whose cache file can be opened, with the given content. -/
def storedEnv (f : Reader) : Env :=
  siteEnv (fun path => if path = "/site/ftpsync.cache" then .ok f else .error (.NotExist path))
    (.error (.Fail "no server"))

/-- A decoder that fails on every input after it has stored one entry. -/
def brokenDecode : Reader → Cache → Cache × Option OsError := fun _ cache =>
  (cache.set "index.html" {}, some (.Fail "unexpected EOF"))

/-- The session of a site with the given scheme, a password in the address
and no cached server key. -/
def freshSession (scheme : String) : Session :=
  { Config :=
      { Source := "/site", CacheFile := "ftpsync.cache", RemoteHost := "example.org",
        RemotePath := "/www", RemoteScheme := scheme, RemoteUser := "web",
        RemotePassword := some "secret" } }

/-! ## The window and its cache (`main.go`) -/

/-- The pointer `w.cache`: `none` when it is `nil`. -/
def MainWindow.handle (w : MainWindow) : Option Cache :=
  if w.cacheNil then none else some w.cache

/-- The assignment to `w.cache` of a pointer, `none` for `nil`. -/
def MainWindow.setCache (w : MainWindow) : Option Cache → MainWindow
  | some cache => { w with cache := cache, cacheNil := false }
  | none => { w with cacheNil := true }

/-- Loads again the results of the last scan of the current site, if any.
`SetModel(nil)` is the event with no rows; the title of the window is left
out. -/
def MainWindow.refresh (env : Env) (Decode : Reader → Cache → Cache × Option OsError)
    (w : MainWindow) : MainWindow :=
  if env.Config.Source = "" then
    let w := w.setCache (some (NewCache env))
    w.emit (.SetModel [])
  else
    match LoadCache env Decode with
    | (cache, some err) => (w.setCache cache).emit (.showError "Load cache" err)
    | (cache, none) =>
      let w := w.setCache cache
      w.emit (.SetModel (ShowResults w.cache))

/-- The number of times the report was given a model. -/
def MainWindow.models (w : MainWindow) : Nat :=
  w.ui.countP fun e =>
    match e with
    | .SetModel _ => true
    | _ => false

/-- A window that holds the cache of the last scan of the site, with
`index.html` in it, and shows its report. -/
def shownWindow : MainWindow :=
  { cache := pageCache 7, ui := [.SetModel (ShowResults (pageCache 7))] }

/-! ## Writing the cache (`app/cache.go`) -/

/-- Encodes and saves the cache. `Create` is the error of `os.Create`, if
any; `Encode` is the call `enc.Encode(cache)` of the `gob` encoder on the
created file: the bytes it has written and its error. The result is the
outside world after the call, in which the file named by `cache.path` holds
what was written and is read in one piece, and the error shown, if any. -/
def Cache.Write (env : Env) (Create : String → Option OsError)
    (Encode : Cache → List Byte × Option OsError) (cache : Cache) : Env × Option UiEvent :=
  match env.Config.Check with
  | some _ => (env, none)
  | none =>
    match Create cache.path with
    | some err => (env, some (.showError "Write cache" (.Os err)))
    | none =>
      let written := Encode cache
      let env :=
        { env with
          Open := fun path =>
            if path = cache.path then .ok { chunks := [written.1] } else env.Open path }
      (env, written.2.map fun err => .showError "Write cache" (.Os err))

/-! ## The `gob` stream of a cache (`encoding/gob`, `time`) -/

/-- The routine `binary.BigEndian.PutUint64`: the eight bytes of a number
below `2^64`, the most significant first. -/
def PutUint64 (x : Nat) : List Byte :=
  [UInt8.ofNat (x / 72057594037927936 % 256), UInt8.ofNat (x / 281474976710656 % 256),
   UInt8.ofNat (x / 1099511627776 % 256), UInt8.ofNat (x / 4294967296 % 256),
   UInt8.ofNat (x / 16777216 % 256), UInt8.ofNat (x / 65536 % 256),
   UInt8.ofNat (x / 256 % 256), UInt8.ofNat (x % 256)]

/-- The number that a sequence of bytes holds, the most significant first:
the loop `x = x<<8 | uint64(b)`. -/
def bigEndian (bytes : List Byte) : Nat :=
  bytes.foldl (fun x b => x * 256 + b.toNat) 0

/-- The method `encodeUint` of the encoder: a number below 128 is one byte;
any other is sent as its bytes without the leading zero bytes, the most
significant first, after a byte that holds their count, negated. -/
def encodeUint (x : Nat) : List Byte :=
  if x ≤ 0x7F then [UInt8.ofNat x]
  else
    let bytes := (PutUint64 x).dropWhile fun b => b = 0
    UInt8.ofNat (256 - bytes.length) :: bytes

/-- The method `decodeUint` of the decoder: the number read and the bytes
left, or nothing when the data is not a number. -/
def decodeUint : List Byte → Option (Nat × List Byte)
  | [] => none
  | b :: rest =>
    if b.toNat ≤ 0x7F then some (b.toNat, rest)
    else
      let n := 256 - b.toNat
      if n > 8 then none
      else if rest.length < n then none
      else some (bigEndian (rest.take n), rest.drop n)

/-- The method `encodeInt`: bit 0 of the number sent tells whether the other
bits are to be complemented. -/
def encodeInt (i : Int) : List Byte :=
  encodeUint (if i < 0 then (2 * (-i - 1) + 1).toNat else (2 * i).toNat)

/-- The method `decodeInt`. -/
def decodeInt (b : List Byte) : Option (Int × List Byte) :=
  (decodeUint b).map fun r =>
    (if r.1 % 2 = 1 then -((r.1 / 2 : Nat) : Int) - 1 else ((r.1 / 2 : Nat) : Int), r.2)

/-- The constant `tooBig` of the decoder on a 64-bit system: a length that is
refused. -/
def tooBig : Nat := 8589934592

/-- A byte slice or a string as the encoder sends it: the count of its bytes
and the bytes. -/
def encodeBytes (p : List Byte) : List Byte :=
  encodeUint p.length ++ p

/-- A byte slice or the bytes of a string as the decoder reads them: the
count, which `getLength` refuses when it is more than what is left or too
big, and so many bytes. -/
def decodeBytes (b : List Byte) : Option (List Byte × List Byte) :=
  match decodeUint b with
  | none => none
  | some (n, rest) =>
    if rest.length < n ∨ tooBig ≤ n then none else some (rest.take n, rest.drop n)

/-- The bytes of one character of a Go string, which is held in UTF-8. -/
def utf8Char (c : Char) : List Byte :=
  let n := c.toNat
  if n < 128 then [UInt8.ofNat n]
  else if n < 2048 then [UInt8.ofNat (192 + n / 64), UInt8.ofNat (128 + n % 64)]
  else if n < 65536 then
    [UInt8.ofNat (224 + n / 4096), UInt8.ofNat (128 + n / 64 % 64), UInt8.ofNat (128 + n % 64)]
  else
    [UInt8.ofNat (240 + n / 262144), UInt8.ofNat (128 + n / 4096 % 64),
     UInt8.ofNat (128 + n / 64 % 64), UInt8.ofNat (128 + n % 64)]

/-- The bytes of a Go string. -/
def stringBytes (s : String) : List Byte :=
  s.data.flatMap utf8Char

/-- The first character that a sequence of bytes in UTF-8 holds, and the
bytes after it; nothing when the bytes begin with no character. -/
def utf8Next : List Byte → Option (Char × List Byte)
  | [] => none
  | b0 :: rest =>
    if b0.toNat < 128 then some (Char.ofNat b0.toNat, rest)
    else
      match rest with
      | [] => none
      | b1 :: rest =>
        if b0.toNat < 224 then
          some (Char.ofNat ((b0.toNat - 192) * 64 + (b1.toNat - 128)), rest)
        else
          match rest with
          | [] => none
          | b2 :: rest =>
            if b0.toNat < 240 then
              some (Char.ofNat ((b0.toNat - 224) * 4096 + (b1.toNat - 128) * 64 +
                (b2.toNat - 128)), rest)
            else
              match rest with
              | [] => none
              | b3 :: rest =>
                some (Char.ofNat ((b0.toNat - 240) * 262144 + (b1.toNat - 128) * 4096 +
                  (b2.toNat - 128) * 64 + (b3.toNat - 128)), rest)

/-- The characters that a sequence of bytes in UTF-8 holds, at most `n` of
them; bytes that begin no character end the reading. -/
def utf8CharsN : Nat → List Byte → List Char
  | 0, _ => []
  | n + 1, b =>
    match utf8Next b with
    | none => []
    | some (c, rest) => c :: utf8CharsN n rest

/-- The characters that a sequence of bytes in UTF-8 holds: there are at most
as many as there are bytes. -/
def utf8Chars (b : List Byte) : List Char :=
  utf8CharsN b.length b

/-- The Go string with the given bytes. -/
def bytesString (b : List Byte) : String :=
  String.mk (utf8Chars b)

/-- The routine `binary.BigEndian.PutUint32`, for a number below `2^32`. -/
def PutUint32 (x : Nat) : List Byte :=
  [UInt8.ofNat (x / 16777216 % 256), UInt8.ofNat (x / 65536 % 256),
   UInt8.ofNat (x / 256 % 256), UInt8.ofNat (x % 256)]

/-- The method `Time.MarshalBinary`, which is `GobEncode`: the version, the
seconds and the nanoseconds of the instant, and the offset of the zone in
minutes. An instant is counted in nanoseconds from the zero time; the zone,
which is no part of an instant, is sent as UTC. -/
def MarshalBinary (t : Time) : List Byte :=
  let sec := t / 1000000000
  let nsec := t % 1000000000
  [1] ++ PutUint64 (sec % 18446744073709551616).toNat ++ PutUint32 nsec.toNat ++ [255, 255]

/-- The conversion `int64(x)` of a number below `2^64`. -/
def int64 (x : Nat) : Int :=
  if x ≥ 9223372036854775808 then (x : Int) - 18446744073709551616 else x

/-- The method `Time.UnmarshalBinary`, which is `GobDecode`. -/
def UnmarshalBinary (data : List Byte) : Option Time :=
  match data with
  | [] => none
  | version :: buf =>
    if version ≠ 1 then none
    else if data.length ≠ 15 then none
    else
      let sec := int64 (bigEndian (buf.take 8))
      let nsec := bigEndian ((buf.drop 8).take 4)
      some (sec * 1000000000 + nsec)

/-- The method `encodeStruct` of the encoder with `update`: the fields that
are sent, each after the difference of its number from the number of the
field sent before it, then the end mark. The list holds for every field from
number `i` on what is sent for it, if it is sent; `fieldnum` is the number of
the field sent last, -1 at first. -/
def encodeStruct : Int → Nat → List (Option (List Byte)) → List Byte
  | _, _, [] => encodeUint 0
  | fieldnum, i, none :: rest => encodeStruct fieldnum (i + 1) rest
  | fieldnum, i, some value :: rest =>
    encodeUint ((i : Int) - fieldnum).toNat ++ value ++ encodeStruct i (i + 1) rest

/-- The method `decodeStruct` of the decoder for a type of `n` fields, `field`
being what it does to the value for a field of a given number: it reads
differences of field numbers and fields until it reads the end mark or the
data ends. The field number grows with every field and is refused when it is
not below `n`, so the loop has at most `n + 1` rounds, which is what `rounds`
is at first. -/
def decodeStruct {α : Type} (n : Nat) (field : Nat → α → List Byte → Option (α × List Byte)) :
    Nat → Int → α → List Byte → Option (α × List Byte)
  | 0, _, _, _ => none
  | rounds + 1, fieldnum, v, b =>
    if b = [] then some (v, [])
    else
      match decodeUint b with
      | none => none
      | some (delta, rest) =>
        if delta = 0 then some (v, rest)
        else if fieldnum + delta ≥ n then none
        else
          match field (fieldnum + delta).toNat v rest with
          | none => none
          | some (v, rest) => decodeStruct n field rounds (fieldnum + delta) v rest

/-- What the encoder sends for the five fields of a `FileInfo`: a field
that has the zero value of its type is left out. -/
def fieldsFileInfo (i : FileInfo) : List (Option (List Byte)) :=
  [if i.IsDir then some (encodeUint 1) else none,
   if i.Changed then some (encodeUint 1) else none,
   if i.ModTime ≠ 0 then some (encodeBytes (MarshalBinary i.ModTime)) else none,
   if i.Size ≠ 0 then some (encodeInt i.Size) else none,
   if i.Hash.length > 0 then some (encodeBytes i.Hash) else none]

/-- A `FileInfo` as the encoder sends it. -/
def encodeFileInfo (i : FileInfo) : List Byte :=
  encodeStruct (-1) 0 (fieldsFileInfo i)

/-- What the decoder does for one field of a `FileInfo`. -/
def decodeFileInfoField (fieldnum : Nat) (i : FileInfo) (b : List Byte) :
    Option (FileInfo × List Byte) :=
  match fieldnum with
  | 0 => (decodeUint b).map fun r => ({ i with IsDir := decide (r.1 ≠ 0) }, r.2)
  | 1 => (decodeUint b).map fun r => ({ i with Changed := decide (r.1 ≠ 0) }, r.2)
  | 2 =>
    match decodeBytes b with
    | none => none
    | some (data, rest) => (UnmarshalBinary data).map fun t => ({ i with ModTime := t }, rest)
  | 3 => (decodeInt b).map fun r => ({ i with Size := r.1 }, r.2)
  | _ => (decodeBytes b).map fun r => ({ i with Hash := r.1 }, r.2)

/-- A `FileInfo` as the decoder reads it into a value. -/
def decodeFileInfo (i : FileInfo) (b : List Byte) : Option (FileInfo × List Byte) :=
  decodeStruct 5 decodeFileInfoField 6 (-1) i b

/-- A `FilePrint` as the encoder sends it: a field that is a struct is sent
whatever it holds. -/
def encodeFilePrint (fp : FilePrint) : List Byte :=
  encodeStruct (-1) 0 [some (encodeFileInfo fp.Local), some (encodeFileInfo fp.Remote)]

/-- What the decoder does for one field of a `FilePrint`. -/
def decodeFilePrintField (fieldnum : Nat) (fp : FilePrint) (b : List Byte) :
    Option (FilePrint × List Byte) :=
  match fieldnum with
  | 0 => (decodeFileInfo fp.Local b).map fun r => ({ fp with Local := r.1 }, r.2)
  | _ => (decodeFileInfo fp.Remote b).map fun r => ({ fp with Remote := r.1 }, r.2)

/-- A `FilePrint` as the decoder reads it into a value. -/
def decodeFilePrint (fp : FilePrint) (b : List Byte) : Option (FilePrint × List Byte) :=
  decodeStruct 2 decodeFilePrintField 3 (-1) fp b

/-- The method `encodeMap` for the entries of the map in the order in which
the map is ranged over: the count of the entries, then every key and, through
its pointer, the fingerprint stored under it. -/
def encodeMap (entries : List (Σ _ : String, FilePrint)) : List Byte :=
  encodeUint entries.length ++
    entries.flatMap fun e => encodeBytes (stringBytes e.1) ++ encodeFilePrint e.2

/-- The loop of `decodeMap` over `n` entries: each key is read, and its
fingerprint into a new `FilePrint`, and the fingerprint is stored in the map
under the key. -/
def decodeEntries : Nat → Cache → List Byte → Option (Cache × List Byte)
  | 0, cache, b => some (cache, b)
  | n + 1, cache, b =>
    match decodeBytes b with
    | none => none
    | some (key, rest) =>
      match decodeFilePrint {} rest with
      | none => none
      | some (fp, rest) => decodeEntries n (cache.set (bytesString key) fp) rest

/-- What the decoder does for the one field of a `Cache` that is sent,
`FilePrints`; the field `path` is not exported and is no field of the
stream. -/
def decodeCacheField (_ : Nat) (cache : Cache) (b : List Byte) : Option (Cache × List Byte) :=
  match decodeUint b with
  | none => none
  | some (n, rest) => decodeEntries n cache rest

/-- The value of a cache in the stream that `enc.Encode(cache)` writes, for
the entries of its map in the order in which the map is ranged over. The
stream begins with the messages that define the types, and the value has its
length and the number of its type before it; they hold nothing of the value,
the type numbers depend on what else the program has sent, and they are left
out here. -/
def gobValue (entries : List (Σ _ : String, FilePrint)) : List Byte :=
  encodeStruct (-1) 0 [some (encodeMap entries)]

/-- The call `enc.Encode(cache)` on a file that can be written: the bytes
written and no error. Go leaves open in which order a map is ranged over;
`range` gives the entries of the map of a cache in that order. -/
def gobEncode (range : Cache → List (Σ _ : String, FilePrint)) (cache : Cache) :
    List Byte × Option OsError :=
  (gobValue (range cache), none)

/-- The call `dec.Decode(cache)`: the value is read into the cache handed
over. A file with nothing in it gives `io.EOF`, and data that is no value
gives an error, the error of the reading if there is one. -/
def gobDecode (r : Reader) (cache : Cache) : Cache × Option OsError :=
  if r.content = [] then (cache, some (r.err.getD (.Fail "EOF")))
  else
    match decodeStruct 1 decodeCacheField 2 (-1) cache r.content with
    | some (loaded, _) => (loaded, none)
    | none => (cache, some (r.err.getD (.Fail "unexpected EOF")))

/-- A number that an `int64` holds. -/
def fitsInt64 (i : Int) : Prop :=
  -9223372036854775808 ≤ i ∧ i < 9223372036854775808

instance (i : Int) : Decidable (fitsInt64 i) :=
  inferInstanceAs (Decidable (-9223372036854775808 ≤ i ∧ i < 9223372036854775808))

/-- One side of a fingerprint that the Go type holds: size and seconds of the
instant are `int64`, and the digest is shorter than what the decoder
refuses. -/
def FileInfo.fits (i : FileInfo) : Prop :=
  fitsInt64 i.Size ∧ fitsInt64 (i.ModTime / 1000000000) ∧ i.Hash.length < tooBig

instance (i : FileInfo) : Decidable i.fits :=
  inferInstanceAs
    (Decidable (fitsInt64 i.Size ∧ fitsInt64 (i.ModTime / 1000000000) ∧ i.Hash.length < tooBig))

/-- A cache that the Go types hold: the count of its entries is an `int`,
its paths are shorter than what the decoder refuses, and both sides of every
fingerprint are as the type holds them. -/
def Cache.fits (cache : Cache) : Prop :=
  cache.FilePrints.entries.length < 18446744073709551616 ∧
    ∀ e ∈ cache.FilePrints.entries,
      (stringBytes e.1).length < tooBig ∧ e.2.Local.fits ∧ e.2.Remote.fits

instance (cache : Cache) : Decidable cache.fits :=
  inferInstanceAs
    (Decidable (cache.FilePrints.entries.length < 18446744073709551616 ∧
      ∀ e ∈ cache.FilePrints.entries,
        (stringBytes e.1).length < tooBig ∧ e.2.Local.fits ∧ e.2.Remote.fits))

/-- The value after the decoder has stored in it the fields that were sent,
`store j` being what storing field `j` makes of a value. -/
def storeFields {α : Type} (store : Nat → α → α) : Nat → List (Option (List Byte)) → α → α
  | _, [], v => v
  | i, none :: rest, v => storeFields store (i + 1) rest v
  | i, some _ :: rest, v => storeFields store (i + 1) rest (store i v)

/-- The field of number `j` of `i` stored in `v`. -/
def storeFileInfo (i : FileInfo) (j : Nat) (v : FileInfo) : FileInfo :=
  match j with
  | 0 => { v with IsDir := i.IsDir }
  | 1 => { v with Changed := i.Changed }
  | 2 => { v with ModTime := i.ModTime }
  | 3 => { v with Size := i.Size }
  | _ => { v with Hash := i.Hash }

/-- What a `FileInfo` is after `i` was decoded into it: it has the fields of
`i` that were sent, and keeps its own where `i` has the zero value. -/
def mergeFileInfo (i v : FileInfo) : FileInfo :=
  { IsDir := if i.IsDir then true else v.IsDir
    Changed := if i.Changed then true else v.Changed
    ModTime := if i.ModTime ≠ 0 then i.ModTime else v.ModTime
    Size := if i.Size ≠ 0 then i.Size else v.Size
    Hash := if i.Hash.length > 0 then i.Hash else v.Hash }

/-- The field of number `j` of `fp` decoded into `v`. -/
def storeFilePrint (fp : FilePrint) (j : Nat) (v : FilePrint) : FilePrint :=
  match j with
  | 0 => { v with Local := mergeFileInfo fp.Local v.Local }
  | _ => { v with Remote := mergeFileInfo fp.Remote v.Remote }

/-! ## Pattern files -/

/-- The helper `dropCR` of `bufio`: drops one carriage return at the end. -/
def dropCR (line : List Char) : List Char :=
  if line.getLast? = some '\r' then line.dropLast else line

/-- The tokens a `bufio.Scanner` with the split function `ScanLines` yields
for the rest of a text, `cur` being the line it has begun; no line is longer
than the buffer of the scanner. -/
def scanLinesFrom (cur : List Char) : List Char → List String
  | [] => if cur = [] then [] else [String.mk (dropCR cur)]
  | c :: cs =>
    if c = '\n' then String.mk (dropCR cur) :: scanLinesFrom [] cs
    else scanLinesFrom (cur ++ [c]) cs

/-- The values of `scanner.Text()` in the loop `for scanner.Scan()` over a
file with the given text. -/
def scanLines (text : String) : List String :=
  scanLinesFrom [] text.data

/-- The pattern file of an entry `@file` as `ScanFolders` opens it. -/
def patternFile (env : Env) (path : String) : String :=
  if ¬ env.IsAbs path then env.Join env.Config.Source path else path

/-- What one entry of the exclusion string adds to the resolved list. -/
def excludeEntry (env : Env) (x : String) : List String :=
  if x.data.head? = some '@' then
    let path := String.mk (x.data.drop 1)
    path :: ((env.Lines (patternFile env path)).getD [])
  else [x]

/-- The site of the concrete runs with the exclusion string
`@skip.lst|*.tmp`, the file `/site/skip.lst` holding the given text. -/
def patternEnv (text : String) : Env :=
  let env := globEnv ".png" "ftp" none
  { env with
    Config := { env.Config with Exclude := "@skip.lst|*.tmp" }
    Lines := fun path => if path = "/site/skip.lst" then some (scanLines text) else none }

/-! ## The viewer (`app/viewer.go`) -/

/-- The type `Operation` of the library `diffmatchpatch`. -/
inductive Operation where
  | DiffDelete
  | DiffInsert
  | DiffEqual
  deriving DecidableEq, Repr

/-- The type `Diff` of the library: one fragment, with its fields `Type` and
`Text`. -/
structure Diff where
  Kind : Operation
  Text : List Byte
  deriving DecidableEq, Repr

/-- The two routines of the library that `ViewFile` calls. A Go slice is
handed over by value, so a routine can write to the elements of the slice of
its caller but cannot change its length: `DiffCleanupSemantic` gives the
slice it returns and what the slice of the caller holds after the call. -/
structure DiffMatchPatch where
  DiffMain : List Byte → List Byte → List Diff
  DiffCleanupSemantic : List Diff → List Diff × List Diff
  keeps : ∀ diffs, (DiffCleanupSemantic diffs).2.length = diffs.length

/-- Fetches the remote and the local copy of a file and compares them; the
result is the error returned, or the path and the fragments handed to the
viewer by `SetPath` and `SetHtml`. The status message and the closing of the
connection are left out. -/
def ViewFile (env : Env) (d : DiffMatchPatch) (path : String) :
    Except Error (String × List Diff) :=
  match env.Dial with
  | .error err => .error (.Os err)
  | .ok conn =>
    let fetched := conn.Retrieve (env.Join env.Config.RemotePath path)
    match fetched.err with
    | some err => .error (.Os err)
    | none =>
      let buf := fetched.content
      match env.Open (env.Join env.Config.Source path) with
      | .error err => .error (.Os err)
      | .ok f =>
        match f.err with
        | some err => .error (.Os err)
        | none =>
          let text1 := f.content
          let diffs := d.DiffMain text1 buf
          let diffs := (d.DiffCleanupSemantic diffs).2
          .ok (path, diffs)

/-- The raw diff of `mouse` against `sofas`. -/
def mouseRaw : List Diff :=
  [⟨.DiffDelete, ascii "m"⟩, ⟨.DiffInsert, ascii "s"⟩, ⟨.DiffEqual, ascii "o"⟩,
   ⟨.DiffDelete, ascii "u"⟩, ⟨.DiffInsert, ascii "fa"⟩, ⟨.DiffEqual, ascii "s"⟩,
   ⟨.DiffDelete, ascii "e"⟩]

/-- The result of the semantic cleanup of that diff. -/
def mouseClean : List Diff :=
  [⟨.DiffDelete, ascii "mouse"⟩, ⟨.DiffInsert, ascii "sofas"⟩]

/-- The library on the texts `mouse` and `sofas`, as its documentation gives
the two results; `left` is what the cleanup leaves in the slice of its caller
in that case, cut or filled up to the length of the slice. The diff of any
other two texts is the one text deleted and the other inserted, which the
cleanup leaves as it is. -/
def mouseLib (left : List Diff) : DiffMatchPatch :=
  { DiffMain := fun text1 text2 =>
      if text1 = ascii "mouse" ∧ text2 = ascii "sofas" then mouseRaw
      else [⟨.DiffDelete, text1⟩, ⟨.DiffInsert, text2⟩]
    DiffCleanupSemantic := fun diffs =>
      if diffs = mouseRaw then
        (mouseClean, left.take 7 ++ List.replicate (7 - left.length) ⟨.DiffEqual, []⟩)
      else (diffs, diffs)
    keeps := by
      intro diffs
      by_cases h : diffs = mouseRaw
      · simp [h, mouseRaw]
        omega
      · simp [h] }

/-- The site with the file `a.txt`, which is `mouse` locally and `sofas` on
the server. -/
def mouseEnv : Env :=
  siteEnv (fun path => if path = "/site/a.txt" then .ok { chunks := [ascii "mouse"] }
      else .error (.NotExist path))
    (.ok (siteConn [{ Name := "a.txt", ModTime := 9, Size := 5 }]
      fun _ => { chunks := [ascii "sofas"] }))

/-- The site with `index.html` on both sides, the local copy of which cannot
be opened. -/
def lockedEnv : Env :=
  siteEnv (fun _ => .error (.Fail "permission denied")) (.ok (pageConn 9 { chunks := [page] }))

/-- A server whose root folder holds the one folder `img`, last modified
at 5. -/
def imgConn : FTPConn :=
  siteConn [{ Name := "img", IsDir := true, ModTime := 5 }] fun _ => { chunks := [] }

/-- The site on that server; locally it has no folder `img`. -/
def imgEnv : Env := siteEnv (siteFiles { chunks := [page] }) (.ok imgConn)

/-! ## Lemmas on the cache, the hashes and the copy loop -/

theorem Cache.get?_set_same (c : Cache) (p : String) (e : FilePrint) :
    (c.set p e).get? p = some e := by
  simp [Cache.get?, Cache.set]

theorem Cache.get?_set_ne (c : Cache) {p q : String} (e : FilePrint) (h : q ≠ p) :
    (c.set p e).get? q = c.get? q := by
  simp [Cache.get?, Cache.set, AList.lookup_insert_ne h]

theorem Cache.AddEntry_of_get? {c : Cache} {p : String} {e : FilePrint}
    (h : c.get? p = some e) : c.AddEntry p = (c, e) := by
  simp [Cache.AddEntry, h]

theorem Cache.AddEntry_of_none {c : Cache} {p : String}
    (h : c.get? p = none) : c.AddEntry p = (c.set p newEntry, newEntry) := by
  simp [Cache.AddEntry, h]

theorem Cache.get?_AddEntry_same (c : Cache) (p : String) :
    (c.AddEntry p).1.get? p = some (c.AddEntry p).2 := by
  cases h : c.get? p with
  | none => simp [Cache.AddEntry_of_none h, Cache.get?_set_same]
  | some e => simp [Cache.AddEntry_of_get? h, h]

theorem Cache.get?_AddEntry_ne (c : Cache) {p q : String} (h : q ≠ p) :
    (c.AddEntry p).1.get? q = c.get? q := by
  cases h' : c.get? p with
  | none => simp [Cache.AddEntry_of_none h', Cache.get?_set_ne _ _ h]
  | some e => simp [Cache.AddEntry_of_get? h']

/-- A hash never fails to write and reports the length it was handed. -/
theorem Hash.Write_snd (h : Hash) (p : List Byte) : (h.Write p).2 = (p.length, none) := by
  induction h generalizing p with
  | raw d data => simp [Hash.Write]
  | TextHash h ih => simp [Hash.Write, ih]

theorem copyChunks_cons (e : Option OsError) (h : Hash) (p : List Byte)
    (rest : List (List Byte)) :
    copyChunks e h (p :: rest) = copyChunks e (if p.length > 0 then (h.Write p).1 else h) rest := by
  have hw := Hash.Write_snd h p
  rcases hq : h.Write p with ⟨h', nw, ew⟩
  rw [hq] at hw
  simp only [Prod.mk.injEq] at hw
  obtain ⟨rfl, rfl⟩ := hw
  by_cases hp : p.length > 0
  · simp [copyChunks, hp, hq]
  · simp [copyChunks, hp]

/-- The copy into a hash ends with the error that ended the reading. -/
theorem copyChunks_snd (e : Option OsError) (h : Hash) (chunks : List (List Byte)) :
    (copyChunks e h chunks).2 = e.map Error.Os := by
  induction chunks generalizing h with
  | nil => simp [copyChunks]
  | cons p rest ih => rw [copyChunks_cons, ih]

theorem copyChunks_raw (e : Option OsError) (d : List Byte → List Byte) (data : List Byte)
    (chunks : List (List Byte)) :
    (copyChunks e (.raw d data) chunks).1 = .raw d (data ++ chunks.flatten) := by
  induction chunks generalizing data with
  | nil => simp [copyChunks]
  | cons p rest ih =>
    rw [copyChunks_cons]
    by_cases hp : p.length > 0
    · simp [hp, Hash.Write, ih]
    · have : p = [] := by simpa using hp
      simp [this, ih]

theorem copyChunks_text (e : Option OsError) (d : List Byte → List Byte) (data : List Byte)
    (chunks : List (List Byte)) :
    (copyChunks e (.TextHash (.raw d data)) chunks).1 =
      .TextHash (.raw d (data ++ (chunks.map fun p => ReplaceAll p CRLF LF).flatten)) := by
  induction chunks generalizing data with
  | nil => simp [copyChunks]
  | cons p rest ih =>
    rw [copyChunks_cons]
    by_cases hp : p.length > 0
    · simp [hp, Hash.Write, ih]
    · have : p = [] := by simpa using hp
      simp [this, ih, ReplaceAll, ReplaceAllFrom]

/-- What a plain MD5 hash holds after a copy: the digest of the content. -/
theorem ioCopy_md5_Sum (r : Reader) : (ioCopy md5New r).1.Sum = md5Sum r.content := by
  simp [ioCopy, md5New, copyChunks_raw, Hash.Sum, Reader.content]

/-- What a `TextHash` over MD5 holds after a copy: the digest of the chunks,
each folded on its own. -/
theorem ioCopy_text_Sum (r : Reader) :
    (ioCopy (NewTextHash md5New) r).1.Sum =
      md5Sum (r.chunks.map fun p => ReplaceAll p CRLF LF).flatten := by
  simp [ioCopy, md5New, NewTextHash, copyChunks_text, Hash.Sum]

theorem ioCopy_snd (h : Hash) (r : Reader) : (ioCopy h r).2 = r.err.map Error.Os := by
  simp [ioCopy, copyChunks_snd]

theorem Cache.set_set (c : Cache) (p : String) (e1 e2 : FilePrint) :
    (c.set p e1).set p e2 = c.set p e2 := by
  simp [Cache.set, AList.insert_insert]

theorem Cache.isSome_get?_set (c : Cache) (p q : String) (e : FilePrint)
    (h : (c.get? q).isSome) : ((c.set p e).get? q).isSome := by
  by_cases hq : q = p
  · subst hq; simp [Cache.get?_set_same]
  · rwa [Cache.get?_set_ne _ _ hq]

theorem Cache.isSome_get?_AddEntry (c : Cache) (p q : String)
    (h : (c.get? q).isSome) : (((c.AddEntry p).1).get? q).isSome := by
  by_cases hq : q = p
  · subst hq; simp [Cache.get?_AddEntry_same]
  · rwa [Cache.get?_AddEntry_ne _ hq]

/-- The cache after `CheckRemote` is the cache before it, or that cache with
the entry of the path added and, possibly, written. -/
theorem CheckRemote_cache (env : Env) (s : Scanner) (st : ScanState) (path : String)
    (info : OsFileInfo) :
    (s.CheckRemote env st path info).1.cache = st.cache ∨
      (s.CheckRemote env st path info).1.cache = (st.cache.AddEntry path).1 ∨
      ∃ ent, (s.CheckRemote env st path info).1.cache = (st.cache.AddEntry path).1.set path ent := by
  unfold Scanner.CheckRemote
  rcases ha : st.cache.AddEntry path with ⟨cache, ent⟩
  rcases hc : ioCopy (s.newHash env path) (s.Conn.Retrieve (env.Join s.Remote path)) with
    ⟨hash, _ | err⟩ <;>
  · simp only [ScanState.emit, ha, hc]
    split_ifs <;> simp [Cache.set_set]

theorem CheckRemote_get?_ne (env : Env) (s : Scanner) (st : ScanState) {path q : String}
    (info : OsFileInfo) (h : q ≠ path) :
    (s.CheckRemote env st path info).1.cache.get? q = st.cache.get? q := by
  rcases CheckRemote_cache env s st path info with h1 | h1 | ⟨ent, h1⟩ <;> rw [h1]
  · exact Cache.get?_AddEntry_ne _ h
  · rw [Cache.get?_set_ne _ _ h, Cache.get?_AddEntry_ne _ h]

theorem CheckRemote_isSome (env : Env) (s : Scanner) (st : ScanState) (path q : String)
    (info : OsFileInfo) (h : (st.cache.get? q).isSome) :
    ((s.CheckRemote env st path info).1.cache.get? q).isSome := by
  rcases CheckRemote_cache env s st path info with h1 | h1 | ⟨ent, h1⟩ <;> rw [h1]
  · exact h
  · exact Cache.isSome_get?_AddEntry _ _ _ h
  · exact Cache.isSome_get?_set _ _ _ _ (Cache.isSome_get?_AddEntry _ _ _ h)

theorem CheckRemote_isSome_self (env : Env) (s : Scanner) (st : ScanState) (path : String)
    (info : OsFileInfo) (hex : s.excluded env path = false) :
    ((s.CheckRemote env st path info).1.cache.get? path).isSome := by
  unfold Scanner.CheckRemote
  rcases ha : st.cache.AddEntry path with ⟨cache, ent⟩
  have hs : (cache.get? path).isSome := by
    have := Cache.get?_AddEntry_same st.cache path
    rw [ha] at this
    simp [this]
  rcases hc : ioCopy (s.newHash env path) (s.Conn.Retrieve (env.Join s.Remote path)) with
    ⟨hash, _ | err⟩ <;>
  · simp only [ScanState.emit, ha, hc, hex]
    split_ifs <;> simp_all [Cache.get?_set_same, Cache.set_set]

theorem remoteEntry_get?_ne (env : Env) (s : Scanner) (path : String) (st : ScanState)
    (inf : OsFileInfo) {q : String} (h : q ≠ env.Join path inf.Name) :
    (s.remoteEntry env path st inf).cache.get? q = st.cache.get? q := by
  unfold Scanner.remoteEntry
  simp only
  split_ifs
  · rfl
  · rw [Cache.get?_set_ne _ _ h, Cache.get?_AddEntry_ne _ h]
  · exact CheckRemote_get?_ne env s st inf h

theorem remoteEntry_isSome (env : Env) (s : Scanner) (path : String) (st : ScanState)
    (inf : OsFileInfo) (q : String) (h : (st.cache.get? q).isSome) :
    ((s.remoteEntry env path st inf).cache.get? q).isSome := by
  unfold Scanner.remoteEntry
  simp only
  split_ifs
  · exact h
  · exact Cache.isSome_get?_set _ _ _ _ (Cache.isSome_get?_AddEntry _ _ _ h)
  · exact CheckRemote_isSome env s st _ q inf h

theorem remoteEntry_isSome_self (env : Env) (s : Scanner) (path : String) (st : ScanState)
    (inf : OsFileInfo) (hex : s.excluded env (env.Join path inf.Name) = false) :
    ((s.remoteEntry env path st inf).cache.get? (env.Join path inf.Name)).isSome := by
  unfold Scanner.remoteEntry
  by_cases hd : inf.IsDir = true
  · simp [hex, hd, Cache.get?_set_same]
  · simp only [hex, hd]
    exact CheckRemote_isSome_self env s st _ inf hex

theorem foldl_remoteEntry_get?_ne (env : Env) (s : Scanner) (path : String)
    (l : List OsFileInfo) (st : ScanState) {q : String}
    (h : ∀ inf ∈ l, env.Join path inf.Name ≠ q) :
    (l.foldl (s.remoteEntry env path) st).cache.get? q = st.cache.get? q := by
  induction l generalizing st with
  | nil => rfl
  | cons inf rest ih =>
    rw [List.foldl_cons, ih _ (fun i hi => h i (List.mem_cons_of_mem _ hi))]
    exact remoteEntry_get?_ne env s path st inf (h inf (List.mem_cons_self _ _)).symm

theorem foldl_remoteEntry_isSome (env : Env) (s : Scanner) (path : String)
    (l : List OsFileInfo) (st : ScanState) (q : String) (h : (st.cache.get? q).isSome) :
    ((l.foldl (s.remoteEntry env path) st).cache.get? q).isSome := by
  induction l generalizing st with
  | nil => exact h
  | cons inf rest ih =>
    rw [List.foldl_cons]
    exact ih _ (remoteEntry_isSome env s path st inf q h)

theorem foldl_remoteEntry_isSome_mem (env : Env) (s : Scanner) (path : String)
    (l : List OsFileInfo) (st : ScanState) (inf : OsFileInfo) (hmem : inf ∈ l)
    (hex : s.excluded env (env.Join path inf.Name) = false) :
    ((l.foldl (s.remoteEntry env path) st).cache.get? (env.Join path inf.Name)).isSome := by
  induction l generalizing st with
  | nil => cases hmem
  | cons a rest ih =>
    rw [List.foldl_cons]
    rcases List.mem_cons.mp hmem with rfl | hr
    · exact foldl_remoteEntry_isSome env s path rest _ _
        (remoteEntry_isSome_self env s path st inf hex)
    · exact ih _ hr

/-- A folder that is not excluded and whose remote listing can be read: the
loop runs over the whole listing and no error is returned. -/
theorem EnterFolder_listed (env : Env) (s : Scanner) (st : ScanState) (path : String)
    (info : OsFileInfo) (dir : List OsFileInfo)
    (hex : s.excluded env path = false)
    (hdir : s.Conn.ReadDir (env.Join s.Remote path) = .ok dir) :
    s.EnterFolder env st path info =
      (dir.foldl (s.remoteEntry env path) (s.folderState env st path info), none) := by
  simp [Scanner.EnterFolder, Scanner.folderState, hex, hdir]

/-- A remote file that has to be fetched and whose fetch fails. -/
theorem CheckRemote_failed (env : Env) (s : Scanner) (st : ScanState) (path : String)
    (info : OsFileInfo) (err : OsError)
    (hex : s.excluded env path = false)
    (hdiff : (st.cache.AddEntry path).2.Remote.ModTime ≠ info.ModTime ∨
      (st.cache.AddEntry path).2.Remote.Size ≠ info.Size)
    (hfail : (s.Conn.Retrieve (env.Join s.Remote path)).err = some err) :
    (s.CheckRemote env st path info).2 = some (.Os err) ∧
      ∃ ent, (s.CheckRemote env st path info).1.cache.get? path = some ent ∧
        ent.Remote.Hash = [] ∧ ent.Remote.Changed = true ∧
        ent.Remote.ModTime = info.ModTime ∧ ent.Remote.Size = info.Size ∧
        ent.Local = (st.cache.AddEntry path).2.Local := by
  have h2 : (ioCopy (s.newHash env path) (s.Conn.Retrieve (env.Join s.Remote path))).2
      = some (.Os err) := by simp [ioCopy_snd, hfail]
  rcases hc : ioCopy (s.newHash env path) (s.Conn.Retrieve (env.Join s.Remote path)) with
    ⟨hash, e⟩
  rw [hc] at h2
  simp only at h2
  subst h2
  rcases ha : st.cache.AddEntry path with ⟨cache, ent⟩
  rw [ha] at hdiff
  simp only at hdiff
  simp [Scanner.CheckRemote, hex, ha, hdiff, hc, ScanState.emit, Cache.get?_set_same]

/-! ## Lemmas on the walk -/

theorem walk_folder (env : Env) (fn : WalkFunc) (p : String) (info : OsFileInfo)
    (children : List Tree) (st st1 : ScanState)
    (hdir : info.IsDir = true) (hfn : fn st p info none = (st1, none)) :
    walk env fn p (.node info none children) st = walkNames env fn p children st1 := by
  simp [walk, hdir, hfn]

theorem walkNames_append (env : Env) (fn : WalkFunc) (p : String) (pre l : List Tree)
    (st st2 : ScanState) (h : walkNames env fn p pre st = (st2, none)) :
    walkNames env fn p (pre ++ l) st = walkNames env fn p l st2 := by
  induction pre generalizing st with
  | nil =>
    simp only [walkNames, Prod.mk.injEq, and_true] at h
    subst h
    rfl
  | cons t rest ih =>
    rw [List.cons_append]
    rw [walkNames] at h ⊢
    rcases hw : walk env fn (env.Join p t.name) t st with ⟨st1, _ | err⟩
    · rw [hw] at h
      simp only at h ⊢
      exact ih _ h
    · rw [hw] at h
      simp only at h ⊢
      split_ifs at h ⊢ with hs
      · simp at h
      · exact ih _ h

theorem walkNames_stops (env : Env) (fn : WalkFunc) (p : String) (c : Tree) (post : List Tree)
    (st st' : ScanState) (e : Error)
    (h : walk env fn (env.Join p c.name) c st = (st', some e)) (he : e ≠ .SkipDir) :
    walkNames env fn p (c :: post) st = (st', some e) := by
  rw [walkNames, h]
  cases c <;> simp [he]

/-- An error other than `SkipDir` that the walk of a node returns is returned
by the walk of every node above it, with the state left as it was then. -/
theorem walk_of_Reaches (env : Env) (fn : WalkFunc) {p : String} {t : Tree} {st : ScanState}
    {p' : String} {t' : Tree} {st' : ScanState} (hr : Reaches env fn p t st p' t' st')
    (st'' : ScanState) (e : Error) (h : walk env fn p' t' st' = (st'', some e))
    (he : e ≠ .SkipDir) :
    walk env fn p t st = (st'', some e) := by
  induction hr with
  | here p t st => exact h
  | child hdir hfn hpre _ ih =>
    rw [walk_folder env fn _ _ _ _ _ hdir hfn, walkNames_append env fn _ _ _ _ _ hpre]
    exact walkNames_stops env fn _ _ _ _ _ e (ih h) he

theorem filepathWalk_of_Reaches (env : Env) (fn : WalkFunc) {root : String} {t : Tree}
    {st : ScanState} {p' : String} {t' : Tree} {st' : ScanState}
    (hr : Reaches env fn root t st p' t' st')
    (st'' : ScanState) (e : Error) (h : walk env fn p' t' st' = (st'', some e))
    (he : e ≠ .SkipDir) :
    filepathWalk env fn root t st = (st'', some e) := by
  simp [filepathWalk, walk_of_Reaches env fn hr st'' e h he, he]

theorem visit_stop (env : Env) (s : Scanner) (st : ScanState) (p : String) (info : OsFileInfo)
    (err : Option OsError) (h : st.stop = some 0) :
    s.visit env st p info err = ({ st with stop := none }, some (.New "Scan aborted")) := by
  simp [Scanner.visit, h]

theorem walk_visit_stop (env : Env) (s : Scanner) (p : String) (t : Tree) (st : ScanState)
    (h : st.stop = some 0) :
    walk env (s.visit env) p t st = ({ st with stop := none }, some (.New "Scan aborted")) := by
  cases t with
  | bad name err => simp [walk, visit_stop env s st p _ _ h]
  | node info readErr children =>
    by_cases hd : info.IsDir = true
    · simp [walk, hd, visit_stop env s st p _ _ h]
    · simp [walk, hd, visit_stop env s st p _ _ h]

theorem visit_file (env : Env) (s : Scanner) (st : ScanState) (p : String) (info : OsFileInfo)
    (hstop : st.stop ≠ some 0) (hfile : info.IsDir = false) :
    s.visit env st p info none =
      s.CheckLocal env { st with stop := st.stop.map fun n => n - 1 } (env.Rel s.Local p) info := by
  unfold Scanner.visit
  split
  · next h => exact absurd h hstop
  · simp [hfile]

/-- A local file that has to be hashed and whose reading fails. -/
theorem CheckLocal_read_failed (env : Env) (s : Scanner) (st : ScanState) (path : String)
    (info : OsFileInfo) (f : Reader) (e : OsError)
    (hex : s.excluded env path = false)
    (hdiff : (st.cache.AddEntry path).2.Local.ModTime ≠ info.ModTime ∨
      (st.cache.AddEntry path).2.Local.Size ≠ info.Size)
    (hopen : env.Open (env.Join s.Local path) = .ok f)
    (hread : f.err = some e) :
    (s.CheckLocal env st path info).2 = some (.Os e) ∧
      ∃ ent, (s.CheckLocal env st path info).1.cache.get? path = some ent ∧
        ent.Local.Hash = [] := by
  have h2 : (ioCopy (s.newHash env path) f).2 = some (.Os e) := by simp [ioCopy_snd, hread]
  rcases hc : ioCopy (s.newHash env path) f with ⟨hash, err⟩
  rw [hc] at h2
  simp only at h2
  subst h2
  rcases ha : st.cache.AddEntry path with ⟨cache, ent⟩
  rw [ha] at hdiff
  simp only at hdiff
  simp [Scanner.CheckLocal, hex, ha, hdiff, hopen, hc, ScanState.emit, Cache.get?_set_same]

theorem scanComplete_error_writes (w : MainWindow) (err : Error) :
    (w.scanComplete (some err)).writes = w.writes := by
  unfold MainWindow.scanComplete
  by_cases h : w.scanState ≠ Scanner__Idle
  · simp [h, MainWindow.writes, MainWindow.emit, List.filterMap_append]
  · simp [h, MainWindow.writes]

/-! ## The text hash -/

/-- C1, on the code: the content `a\r\nb` written to a `TextHash` over MD5 in
the two chunks `a\r` and `\nb` gives the MD5 digest of `a\r\nb`, which is not
the digest MD5 gives for the content with the CRLF pair replaced by LF; the
same content written as one chunk does give that digest. -/
theorem TextHash_misses_CRLF_across_writes :
    (ioCopy (NewTextHash md5New) { chunks := [ascii "a\r", ascii "\nb"] }).1.Sum
        = md5Sum (ascii "a\r\nb") ∧
      (ioCopy (NewTextHash md5New) { chunks := [ascii "a\r", ascii "\nb"] }).1.Sum
        ≠ md5Sum (ReplaceAll ([ascii "a\r", ascii "\nb"] : List (List Byte)).flatten CRLF LF) ∧
      (ioCopy (NewTextHash md5New) { chunks := [ascii "a\r\nb"] }).1.Sum
        = md5Sum (ReplaceAll ([ascii "a\r\nb"] : List (List Byte)).flatten CRLF LF) := by
  decide!

/-! ## The cache -/

/-- C9: `AddEntry` called twice with the same path returns the same entry
both times, and the second call leaves the cache as the first call left it. -/
theorem AddEntry_twice (cache : Cache) (path : String) :
    ((cache.AddEntry path).1.AddEntry path).2 = (cache.AddEntry path).2 ∧
      ((cache.AddEntry path).1.AddEntry path).1 = (cache.AddEntry path).1 := by
  have h := Cache.AddEntry_of_get? (Cache.get?_AddEntry_same cache path)
  rw [h]
  exact ⟨rfl, rfl⟩

/-- C10: for a path that is not yet a key, `AddEntry` stores under that path
an entry whose two `Changed` flags are set and whose other fields are zero,
returns that entry, adds that one key to the keys, and leaves the entry of
every other path as it was. -/
theorem AddEntry_new (cache : Cache) (path : String) (hnew : cache.get? path = none) :
    (cache.AddEntry path).2 =
        { Local := { IsDir := false, Changed := true, ModTime := 0, Size := 0, Hash := [] }
          Remote := { IsDir := false, Changed := true, ModTime := 0, Size := 0, Hash := [] } } ∧
      (cache.AddEntry path).1.get? path = some (cache.AddEntry path).2 ∧
      (cache.AddEntry path).1.FilePrints.keys = path :: cache.FilePrints.keys ∧
      path ∉ cache.FilePrints.keys ∧
      ∀ q, q ≠ path → (cache.AddEntry path).1.get? q = cache.get? q := by
  have hmem : path ∉ cache.FilePrints.keys := by
    rw [← AList.mem_keys, ← AList.lookup_eq_none]
    exact hnew
  refine ⟨?_, Cache.get?_AddEntry_same cache path, ?_, hmem, fun q hq =>
    Cache.get?_AddEntry_ne cache hq⟩
  · rw [Cache.AddEntry_of_none hnew]
    rfl
  · rw [Cache.AddEntry_of_none hnew]
    simp [Cache.set, AList.keys_insert, List.erase_of_not_mem hmem]

/-- C10 at a cache that holds `a.txt`, for the new path `b.txt`. -/
theorem AddEntry_new_witness :
    oneEntryCache.get? "b.txt" = none ∧
      (oneEntryCache.AddEntry "b.txt").2 =
        { Local := { IsDir := false, Changed := true, ModTime := 0, Size := 0, Hash := [] }
          Remote := { IsDir := false, Changed := true, ModTime := 0, Size := 0, Hash := [] } } ∧
      (oneEntryCache.AddEntry "b.txt").1.get? "b.txt" = some (oneEntryCache.AddEntry "b.txt").2 ∧
      (oneEntryCache.AddEntry "b.txt").1.FilePrints.keys = "b.txt" :: oneEntryCache.FilePrints.keys ∧
      "b.txt" ∉ oneEntryCache.FilePrints.keys ∧
      ∀ q, q ≠ "b.txt" → (oneEntryCache.AddEntry "b.txt").1.get? q = oneEntryCache.get? q :=
  ⟨by decide, AddEntry_new oneEntryCache "b.txt" (by decide)⟩

/-! ## The scanner -/

/-- C2: for a local file that is not excluded and whose stored local
modification time or size differs from the file system's, if the file can be
opened and read and the digest `CheckLocal` computes equals the remote digest
of the entry, then `CheckLocal` returns no error and leaves the entry with
`Local.Changed` and `Remote.Changed` both false. -/
theorem CheckLocal_equal_digest (env : Env) (s : Scanner) (st : ScanState) (path : String)
    (info : OsFileInfo) (f : Reader)
    (hex : s.excluded env path = false)
    (hdiff : (st.cache.AddEntry path).2.Local.ModTime ≠ info.ModTime ∨
      (st.cache.AddEntry path).2.Local.Size ≠ info.Size)
    (hopen : env.Open (env.Join s.Local path) = .ok f)
    (hread : f.err = none)
    (heq : (ioCopy (s.newHash env path) f).1.Sum = (st.cache.AddEntry path).2.Remote.Hash) :
    (s.CheckLocal env st path info).2 = none ∧
      ∃ ent, (s.CheckLocal env st path info).1.cache.get? path = some ent ∧
        ent.Local.Changed = false ∧ ent.Remote.Changed = false := by
  have h2 : (ioCopy (s.newHash env path) f).2 = none := by simp [ioCopy_snd, hread]
  rcases hc : ioCopy (s.newHash env path) f with ⟨hash, err⟩
  rw [hc] at h2 heq
  simp only at h2 heq
  subst h2
  rcases ha : st.cache.AddEntry path with ⟨cache, ent⟩
  rw [ha] at hdiff heq
  simp only at hdiff heq
  simp [Scanner.CheckLocal, hex, ha, hdiff, hopen, hc, heq, bytesEqual, ScanState.emit,
    Cache.get?_set_same]

/-- C2 at `index.html`, stored as of local modification time 1 with both
flags set, found with modification time 7. -/
theorem CheckLocal_equal_digest_witness :
    ((pageScanner { chunks := [page] } 9 { chunks := [page] }).CheckLocal syncedEnv
        { cache := pageCache 1 } "index.html" pageInfo).2 = none ∧
      ∃ ent, ((pageScanner { chunks := [page] } 9 { chunks := [page] }).CheckLocal syncedEnv
          { cache := pageCache 1 } "index.html" pageInfo).1.cache.get? "index.html" = some ent ∧
        ent.Local.Changed = false ∧ ent.Remote.Changed = false :=
  CheckLocal_equal_digest syncedEnv (pageScanner { chunks := [page] } 9 { chunks := [page] })
    { cache := pageCache 1 } "index.html" pageInfo { chunks := [page] }
    (by decide!) (by decide!) rfl rfl (by decide!)

/-- C5: for a local file that is not excluded and whose entry holds the
modification time and the size the file system reports, `CheckLocal` returns
no error and the state it was given: the cache is unchanged and no event, so
no opening of the file, is added to the log. -/
theorem CheckLocal_fast_path (env : Env) (s : Scanner) (st : ScanState) (path : String)
    (info : OsFileInfo) (fp : FilePrint)
    (hex : s.excluded env path = false)
    (hget : st.cache.get? path = some fp)
    (hm : fp.Local.ModTime = info.ModTime) (hs : fp.Local.Size = info.Size) :
    s.CheckLocal env st path info = (st, none) := by
  simp [Scanner.CheckLocal, hex, Cache.AddEntry_of_get? hget, hm, hs]

/-- C5 at `index.html`, stored and found with modification time 7 and size 5. -/
theorem CheckLocal_fast_path_witness :
    (pageScanner { chunks := [page] } 9 { chunks := [page] }).CheckLocal syncedEnv
        { cache := pageCache 7 } "index.html" pageInfo = ({ cache := pageCache 7 }, none) :=
  CheckLocal_fast_path syncedEnv (pageScanner { chunks := [page] } 9 { chunks := [page] })
    { cache := pageCache 7 } "index.html" pageInfo
    { Local := { Changed := true, ModTime := 7, Size := 5, Hash := md5Sum (ascii "a\nb") }
      Remote := { Changed := true, ModTime := 9, Size := 5, Hash := md5Sum (ascii "a\nb") } }
    (by decide!) (by decide!) rfl rfl

/-- C6: in a folder that is not excluded and whose remote listing is
`pre ++ e :: post`, let `e` be a file that is not excluded, that has to be
fetched when the loop comes to it, and whose `Retrieve` fails. Then
`CheckRemote` returns that error and leaves the entry with `Remote.Hash`
cleared and `Remote.Changed` true; `EnterFolder` runs the loop over all of
`post` from that state and returns no error; the entry is still so at the end
if no later item of the listing has the same path; and every later item that
is not excluded has an entry at the end. -/
theorem EnterFolder_continues_after_failed_Retrieve (env : Env) (s : Scanner) (st : ScanState)
    (path : String) (info : OsFileInfo) (pre post : List OsFileInfo) (e : OsFileInfo)
    (err : OsError) (st1 : ScanState)
    (hex : s.excluded env path = false)
    (hdir : s.Conn.ReadDir (env.Join s.Remote path) = .ok (pre ++ e :: post))
    (hst1 : pre.foldl (s.remoteEntry env path) (s.folderState env st path info) = st1)
    (hfile : e.IsDir = false)
    (hrel : s.excluded env (env.Join path e.Name) = false)
    (hdiff : (st1.cache.AddEntry (env.Join path e.Name)).2.Remote.ModTime ≠ e.ModTime ∨
      (st1.cache.AddEntry (env.Join path e.Name)).2.Remote.Size ≠ e.Size)
    (hfail : (s.Conn.Retrieve (env.Join s.Remote (env.Join path e.Name))).err = some err) :
    (s.CheckRemote env st1 (env.Join path e.Name) e).2 = some (.Os err) ∧
      s.EnterFolder env st path info =
        (post.foldl (s.remoteEntry env path) (s.CheckRemote env st1 (env.Join path e.Name) e).1,
          none) ∧
      (∃ ent, (s.CheckRemote env st1 (env.Join path e.Name) e).1.cache.get?
            (env.Join path e.Name) = some ent ∧
          ent.Remote.Hash = [] ∧ ent.Remote.Changed = true ∧
          ((∀ e' ∈ post, env.Join path e'.Name ≠ env.Join path e.Name) →
            (s.EnterFolder env st path info).1.cache.get? (env.Join path e.Name) = some ent)) ∧
      ∀ e' ∈ post, s.excluded env (env.Join path e'.Name) = false →
        ((s.EnterFolder env st path info).1.cache.get? (env.Join path e'.Name)).isSome := by
  have hE := EnterFolder_listed env s st path info _ hex hdir
  have hstep : s.remoteEntry env path st1 e = (s.CheckRemote env st1 (env.Join path e.Name) e).1 := by
    simp [Scanner.remoteEntry, hrel, hfile]
  rw [List.foldl_append, List.foldl_cons, hst1, hstep] at hE
  obtain ⟨h2, ent, hget, hh, hc, -⟩ := CheckRemote_failed env s st1 _ e err hrel hdiff hfail
  refine ⟨h2, hE, ⟨ent, hget, hh, hc, fun hne => ?_⟩, fun e' he' hex' => ?_⟩
  · rw [hE]
    simp only
    rw [foldl_remoteEntry_get?_ne env s path post _ hne, hget]
  · rw [hE]
    exact foldl_remoteEntry_isSome_mem env s path post _ e' he' hex'

/-- C6 at the root of the site, for a server that lists `logo.png` and then
`index.html` and fails to deliver `logo.png`. -/
theorem EnterFolder_continues_after_failed_Retrieve_witness :
    ((newScanner logoEnv logoConn).CheckRemote logoEnv
        ((newScanner logoEnv logoConn).folderState logoEnv { cache := {} } "." rootInfo)
        (logoEnv.Join "." "logo.png") { Name := "logo.png", ModTime := 4, Size := 9 }).2
        = some (.Os (.Fail "connection reset")) ∧
      ((newScanner logoEnv logoConn).EnterFolder logoEnv { cache := {} } "." rootInfo).2 = none ∧
      (((newScanner logoEnv logoConn).EnterFolder logoEnv { cache := {} } "." rootInfo).1.cache.get?
        "index.html").isSome := by
  have h := EnterFolder_continues_after_failed_Retrieve logoEnv (newScanner logoEnv logoConn)
    { cache := {} } "." rootInfo [] [{ Name := "index.html", ModTime := 9, Size := 5 }]
    { Name := "logo.png", ModTime := 4, Size := 9 } (.Fail "connection reset")
    ((newScanner logoEnv logoConn).folderState logoEnv { cache := {} } "." rootInfo)
    (by decide!) rfl rfl rfl (by decide!) (by decide!) rfl
  refine ⟨h.1, ?_, ?_⟩
  · rw [h.2.1]
  · exact h.2.2.2 { Name := "index.html", ModTime := 9, Size := 5 } (by simp) (by decide!)

/-- C7: let the scan of a tree come to a local file, with no stop signal
waiting, that is not excluded, has to be hashed again, can be opened, and
whose reading fails with `e`. Then `CheckLocal` returns `e` and leaves the
entry with its local digest cleared; `Walk` returns `e` with the state
`CheckLocal` left, so no later node is visited; `e` is the value `ScanFolders`
sends as the result of the scan; and the completion handler that receives it
calls `Cache.Write` on nothing. -/
theorem local_read_failure_ends_scan (env : Env) (conn : FTPConn) (tree : Tree)
    (st0 st : ScanState) (p : String) (info : OsFileInfo) (readErr : Option OsError)
    (children : List Tree) (f : Reader) (e : OsError)
    (hdial : env.Dial = .ok conn)
    (hreach : Reaches env ((newScanner env conn).visit env) env.Config.Source tree
      (st0.emit (.ShowStatus "Opening connection ...")) p (.node info readErr children) st)
    (hstop : st.stop ≠ some 0)
    (hfile : info.IsDir = false)
    (hex : (newScanner env conn).excluded env (env.Rel env.Config.Source p) = false)
    (hdiff : (st.cache.AddEntry (env.Rel env.Config.Source p)).2.Local.ModTime ≠ info.ModTime ∨
      (st.cache.AddEntry (env.Rel env.Config.Source p)).2.Local.Size ≠ info.Size)
    (hopen : env.Open (env.Join env.Config.Source (env.Rel env.Config.Source p)) = .ok f)
    (hread : f.err = some e) :
    ∃ st' ent,
      (newScanner env conn).CheckLocal env { st with stop := st.stop.map fun n => n - 1 }
          (env.Rel env.Config.Source p) info = (st', some (.Os e)) ∧
        st'.cache.get? (env.Rel env.Config.Source p) = some ent ∧ ent.Local.Hash = [] ∧
        (newScanner env conn).Walk env tree (st0.emit (.ShowStatus "Opening connection ..."))
          = (st', some (.Os e)) ∧
        ScanFolders env tree st0 = ((st'.emit .ScanComplete).emit .Close, some (.Os e)) ∧
        ∀ w : MainWindow, (w.scanComplete (ScanFolders env tree st0).2).writes = w.writes := by
  obtain ⟨h2, ent, hget, hh⟩ := CheckLocal_read_failed env (newScanner env conn)
    { st with stop := st.stop.map fun n => n - 1 } (env.Rel env.Config.Source p) info f e
    hex hdiff hopen hread
  have hwalk : walk env ((newScanner env conn).visit env) p (.node info readErr children) st =
      (((newScanner env conn).CheckLocal env { st with stop := st.stop.map fun n => n - 1 }
        (env.Rel env.Config.Source p) info).1, some (.Os e)) := by
    rw [← h2]
    simp only [walk, hfile]
    exact visit_file env (newScanner env conn) st p info hstop hfile
  have hW := filepathWalk_of_Reaches env _ hreach _ _ hwalk (by simp)
  have hS : ScanFolders env tree st0 =
      (((((newScanner env conn).CheckLocal env { st with stop := st.stop.map fun n => n - 1 }
        (env.Rel env.Config.Source p) info).1).emit .ScanComplete).emit .Close, some (.Os e)) := by
    simp only [ScanFolders, hdial, Scanner.Walk, hW]
  refine ⟨_, ent, Prod.ext rfl h2, hget, hh, hW, hS, fun w => ?_⟩
  rw [hS]
  exact scanComplete_error_writes w _

/-- C7 at the site whose `index.html` cannot be read to its end. -/
theorem local_read_failure_ends_scan_witness :
    ∃ st' ent,
      (newScanner unreadableEnv (pageConn 9 { chunks := [page] })).CheckLocal unreadableEnv
          { unreadableStart with stop := unreadableStart.stop.map fun n => n - 1 }
          (unreadableEnv.Rel unreadableEnv.Config.Source "/site/index.html") pageInfo
          = (st', some (.Os (.Fail "input/output error"))) ∧
        st'.cache.get? (unreadableEnv.Rel unreadableEnv.Config.Source "/site/index.html")
          = some ent ∧ ent.Local.Hash = [] ∧
        (newScanner unreadableEnv (pageConn 9 { chunks := [page] })).Walk unreadableEnv siteTree
            (({ cache := {} } : ScanState).emit (.ShowStatus "Opening connection ..."))
          = (st', some (.Os (.Fail "input/output error"))) ∧
        ScanFolders unreadableEnv siteTree { cache := {} }
          = ((st'.emit .ScanComplete).emit .Close, some (.Os (.Fail "input/output error"))) ∧
        ∀ w : MainWindow,
          (w.scanComplete (ScanFolders unreadableEnv siteTree { cache := {} }).2).writes
            = w.writes :=
  local_read_failure_ends_scan unreadableEnv (pageConn 9 { chunks := [page] }) siteTree
    { cache := {} } unreadableStart "/site/index.html" pageInfo none []
    { chunks := [ascii "a\r"], err := some (.Fail "input/output error") }
    (.Fail "input/output error")
    rfl
    (@Reaches.child _ _ _ _ [] [] (Tree.file "index.html" 7 5) _ unreadableStart _ _ _ _
      (by decide) (Prod.ext rfl (by decide!)) (by rw [walkNames]) (Reaches.here _ _ _))
    (by decide!) rfl (by decide!) (by decide!) rfl rfl

theorem EndScan_some (w : MainWindow) (err : Error) (hact : w.scanState = Scanner__Active) :
    w.EndScan (some err) =
      (({ w with scanState := Scanner__Stopping }.emit .SendAbort).emit (.Log err)) := by
  simp [MainWindow.EndScan, hact]

theorem EndScan_none (w : MainWindow) (hact : w.scanState = Scanner__Active) :
    w.EndScan none =
      (({ w with scanState := Scanner__Stopping }.emit .SendAbort).emit (.CacheWrite w.cache)) := by
  simp [MainWindow.EndScan, hact, MainWindow.emit]

/-- C3, on the code: a first scan of the site from an empty cache leaves
`index.html` with both flags false and equal digests. The same page is then
uploaded again, so that only its remote modification time changes: from that
cache `CheckRemote` and then `CheckLocal` both return no error, the stored
digests are equal afterwards, and yet `Remote.Changed` is set; the report
after the second scan has a row for the file. -/
theorem remote_only_change_stays_flagged :
    ((idleWindow.runScan syncedEnv siteTree).cache.get? "index.html").map
        (fun fp => (fp.Local.Changed, fp.Remote.Changed, fp.Local.Hash == fp.Remote.Hash))
        = some (false, false, true) ∧
      ((pageScanner { chunks := [page] } 11 { chunks := [page] }).CheckRemote reuploadedEnv
        { cache := (idleWindow.runScan syncedEnv siteTree).cache } "index.html"
        reuploadedInfo).2 = none ∧
      ((pageScanner { chunks := [page] } 11 { chunks := [page] }).CheckLocal reuploadedEnv
        ((pageScanner { chunks := [page] } 11 { chunks := [page] }).CheckRemote reuploadedEnv
          { cache := (idleWindow.runScan syncedEnv siteTree).cache } "index.html"
          reuploadedInfo).1
        "index.html" pageInfo).2 = none ∧
      (((pageScanner { chunks := [page] } 11 { chunks := [page] }).CheckLocal reuploadedEnv
        ((pageScanner { chunks := [page] } 11 { chunks := [page] }).CheckRemote reuploadedEnv
          { cache := (idleWindow.runScan syncedEnv siteTree).cache } "index.html"
          reuploadedInfo).1
        "index.html" pageInfo).1.cache.get? "index.html").map
        (fun fp => (fp.Local.Changed, fp.Remote.Changed, fp.Local.Hash == fp.Remote.Hash))
        = some (false, true, true) ∧
      ShowResults ((idleWindow.runScan syncedEnv siteTree).runScan reuploadedEnv siteTree).cache
        = [{ path := "index.html", lc := none, ls := "-", rc := some .download, rs := "" }] := by
  decide!

/-- C4, on the code: the page `a\r\nb` is on both sides, byte for byte, and
the cache is empty. The local file is read in one chunk and the transport
delivers the remote file in the chunks `a\r` and `\nb`. The scan ends
without error, `index.html` has `Local.Changed` and `Remote.Changed` both
set, and the report has a row for it. -/
theorem identical_text_file_flagged_when_chunks_differ :
    (Reader.content { chunks := [page] } = Reader.content { chunks := [ascii "a\r", ascii "\nb"] }) ∧
      (ScanFolders splitEnv siteTree { cache := {} }).2 = none ∧
      ((idleWindow.runScan splitEnv siteTree).cache.get? "index.html").map
        (fun fp => (fp.Local.Changed, fp.Remote.Changed)) = some (true, true) ∧
      ShowResults (idleWindow.runScan splitEnv siteTree).cache
        = [{ path := "index.html", lc := some .conflict, ls := "", rc := some .conflict,
             rs := "" }] := by
  decide!

/-! ## The shutdown -/

/-- C8, as stated, fails: the window is active, the abort is sent when the
walk has visited the root folder, the walk observes it at `index.html` and
the scan ends with the error `Scan aborted`; `EndScan` receives it and calls
`Cache.Write` on nothing, although the cache holds the progress made. -/
theorem EndScan_abort_not_persisted :
    (activeWindow.scan syncedEnv siteTree (some 1)).2 = some (.New "Scan aborted") ∧
      (activeWindow.shutdown syncedEnv siteTree 1).writes = [] ∧
      ((activeWindow.shutdown syncedEnv siteTree 1).cache.get? "index.html").isSome := by
  decide!

/-- C8, amended: when the walk of a scan comes to a node at which the stop
signal is waiting, `Walk` returns the error `Scan aborted`, not `nil`. For an
active window `EndScan` sets the state to stopping and sends one abort; it
calls `Cache.Write`, once and on the cache of the window, when the result it
receives is `nil`, and does not call it when the result is an error, be it
the error of an observed abort or any other. -/
theorem EndScan_persists_only_nil_result (env : Env) (s : Scanner) (tree : Tree)
    (st : ScanState) (p : String) (t : Tree) (st' : ScanState) (w : MainWindow)
    (hact : w.scanState = Scanner__Active)
    (hreach : Reaches env (s.visit env) env.Config.Source tree st p t st')
    (hstop : st'.stop = some 0) :
    s.Walk env tree st = ({ st' with stop := none }, some (.New "Scan aborted")) ∧
      (∀ recv, (w.EndScan recv).scanState = Scanner__Stopping ∧
        (w.EndScan recv).aborts = w.aborts + 1) ∧
      (w.EndScan none).writes = w.writes ++ [w.cache] ∧
      (∀ err, (w.EndScan (some err)).writes = w.writes) ∧
      (w.EndScan (s.Walk env tree st).2).writes = w.writes := by
  have hW : s.Walk env tree st = ({ st' with stop := none }, some (.New "Scan aborted")) :=
    filepathWalk_of_Reaches env _ hreach _ _ (walk_visit_stop env s p t st' hstop) (by simp)
  have hsome : ∀ err, (w.EndScan (some err)).writes = w.writes := fun err => by
    rw [EndScan_some w err hact]
    simp [MainWindow.writes, MainWindow.emit, List.filterMap_append]
  refine ⟨hW, fun recv => ?_, ?_, hsome, ?_⟩
  · cases recv with
    | none =>
      rw [EndScan_none w hact]
      simp [MainWindow.aborts, MainWindow.emit, List.countP_append]
    | some err =>
      rw [EndScan_some w err hact]
      simp [MainWindow.aborts, MainWindow.emit, List.countP_append]
  · rw [EndScan_none w hact]
    simp [MainWindow.writes, MainWindow.emit, List.filterMap_append]
  · rw [hW]
    exact hsome _

/-- C8, amended, at the site, for an abort that is waiting when the walk
begins. -/
theorem EndScan_persists_only_nil_result_witness :
    (pageScanner { chunks := [page] } 9 { chunks := [page] }).Walk syncedEnv siteTree
        { cache := {}, stop := some 0 }
        = ({ ({ cache := {}, stop := some 0 } : ScanState) with stop := none },
            some (.New "Scan aborted")) ∧
      (∀ recv, (activeWindow.EndScan recv).scanState = Scanner__Stopping ∧
        (activeWindow.EndScan recv).aborts = activeWindow.aborts + 1) ∧
      (activeWindow.EndScan none).writes = activeWindow.writes ++ [activeWindow.cache] ∧
      (∀ err, (activeWindow.EndScan (some err)).writes = activeWindow.writes) ∧
      (activeWindow.EndScan
        ((pageScanner { chunks := [page] } 9 { chunks := [page] }).Walk syncedEnv siteTree
          { cache := {}, stop := some 0 }).2).writes = activeWindow.writes :=
  EndScan_persists_only_nil_result syncedEnv (pageScanner { chunks := [page] } 9 { chunks := [page] })
    siteTree { cache := {}, stop := some 0 } "/site" siteTree { cache := {}, stop := some 0 }
    activeWindow rfl (Reaches.here _ _ _) rfl

/-! ## The order of the cache -/

theorem Cache.Keys_perm (cache : Cache) : cache.Keys.Perm cache.FilePrints.keys := by
  unfold Cache.Keys
  simp only
  split_ifs
  · exact List.perm_insertionSort _ _
  · exact List.Perm.refl _

theorem Cache.mem_Keys (cache : Cache) (path : String) :
    path ∈ cache.Keys ↔ (cache.get? path).isSome := by
  rw [(Cache.Keys_perm cache).mem_iff, Cache.get?, AList.lookup_isSome, AList.mem_keys]

theorem Cache.Keys_nodup (cache : Cache) : cache.Keys.Nodup :=
  (Cache.Keys_perm cache).nodup_iff.mpr cache.FilePrints.keys_nodup

theorem Cache.Keys_sorted (cache : Cache) : cache.Keys.Sorted (· < ·) := by
  have hn := Cache.Keys_nodup cache
  unfold Cache.Keys at hn ⊢
  simp only at hn ⊢
  split_ifs at hn ⊢ with h
  · exact (List.sorted_insertionSort (fun a b : String => a ≤ b) _).lt_of_le hn
  · match hk : cache.FilePrints.keys with
    | [] => exact List.sorted_nil
    | [a] => exact List.sorted_singleton a
    | a :: b :: rest => rw [hk] at h; simp at h

theorem foldl_Walk_step {σ : Type} (cache : Cache) (cb : σ → String → FilePrint → σ)
    (l : List String) (init : σ) :
    l.foldl
        (fun acc k =>
          match cache.get? k with
          | some fp => cb acc k fp
          | none => acc)
        init =
      (l.filterMap fun k => (cache.get? k).map fun fp => (k, fp)).foldl
        (fun acc kfp => cb acc kfp.1 kfp.2) init := by
  induction l generalizing init with
  | nil => rfl
  | cons k rest ih =>
    cases h : cache.get? k with
    | none => simp [List.filterMap_cons, h, ih]
    | some fp => simp [List.filterMap_cons, h, ih]

theorem Walk_calls (cache : Cache) :
    cache.Walk (fun calls path fp => calls ++ [(path, fp)]) [] =
      cache.Keys.filterMap fun k => (cache.get? k).map fun fp => (k, fp) := by
  unfold Cache.Walk
  rw [foldl_Walk_step]
  generalize (cache.Keys.filterMap fun k => (cache.get? k).map fun fp => (k, fp)) = l
  have : ∀ (acc : List (String × FilePrint)),
      l.foldl (fun acc kfp => acc ++ [(kfp.1, kfp.2)]) acc = acc ++ l := by
    induction l with
    | nil => simp
    | cons a rest ih => intro acc; simp [ih]
  simpa using this []

/-- C11: `Keys` is in strictly ascending order, has no path twice, and holds
a path exactly when the cache stores a fingerprint under it. `Walk` calls its
callback for the paths of `Keys`, in that order and once each, with the
fingerprint stored under the path: the calls it makes are those, and for any
callback its result is the callback folded over those calls. -/
theorem Keys_sorted_Walk_in_order (cache : Cache) :
    cache.Keys.Sorted (· < ·) ∧
      cache.Keys.Nodup ∧
      (∀ path, path ∈ cache.Keys ↔ (cache.get? path).isSome) ∧
      (cache.Walk (fun calls path fp => calls ++ [(path, fp)]) []).map Prod.fst = cache.Keys ∧
      (∀ path fp, (path, fp) ∈ cache.Walk (fun calls path fp => calls ++ [(path, fp)]) [] →
        cache.get? path = some fp) ∧
      ∀ (σ : Type) (cb : σ → String → FilePrint → σ) (init : σ),
        cache.Walk cb init =
          (cache.Walk (fun calls path fp => calls ++ [(path, fp)]) []).foldl
            (fun acc call => cb acc call.1 call.2) init := by
  refine ⟨Cache.Keys_sorted cache, Cache.Keys_nodup cache, Cache.mem_Keys cache, ?_, ?_, ?_⟩
  · rw [Walk_calls]
    have hall : ∀ k ∈ cache.Keys, (cache.get? k).isSome := fun k hk =>
      (Cache.mem_Keys cache k).mp hk
    generalize cache.Keys = l at hall
    induction l with
    | nil => rfl
    | cons k rest ih =>
      obtain ⟨fp, hfp⟩ := Option.isSome_iff_exists.mp (hall k (List.mem_cons_self _ _))
      simp [List.filterMap_cons, hfp]
      exact ih fun k' hk' => hall k' (List.mem_cons_of_mem _ hk')
  · intro path fp hmem
    rw [Walk_calls, List.mem_filterMap] at hmem
    obtain ⟨k, -, hk⟩ := hmem
    cases h : cache.get? k with
    | none => simp [h] at hk
    | some fp' =>
      simp [h] at hk
      obtain ⟨rfl, rfl⟩ := hk
      exact h
  · intro σ cb init
    rw [Walk_calls]
    exact foldl_Walk_step cache cb cache.Keys init

/-! ## Exclusion and classification -/

theorem excludedLoop_iff (env : Env) (path base : String) (patterns : List String) :
    excludedLoop env path base patterns = true ↔
      ∃ pattern ∈ patterns,
        env.Match pattern (if env.Separator ∈ pattern.data then path else base) = true := by
  induction patterns with
  | nil => simp [excludedLoop]
  | cons pattern rest ih =>
    by_cases hsep : env.Separator ∈ pattern.data
    · by_cases hm : env.Match pattern path = true
      · simp [excludedLoop, hsep, hm]
      · simp [excludedLoop, hsep, hm, ih]
    · by_cases hm : env.Match pattern base = true
      · simp [excludedLoop, hsep, hm]
      · simp [excludedLoop, hsep, hm, ih]

theorem starMatch_iff (k : List Char → Bool) (cs : List Char) :
    starMatch k cs = true ↔ ∃ x y, cs = x ++ y ∧ '/' ∉ x ∧ k y = true := by
  induction cs with
  | nil =>
    simp only [starMatch]
    constructor
    · intro h; exact ⟨[], [], rfl, by simp, h⟩
    · rintro ⟨x, y, hxy, -, hk⟩
      have := List.append_eq_nil.mp hxy.symm
      rw [this.2] at hk
      exact hk
  | cons c rest ih =>
    simp only [starMatch, Bool.or_eq_true, Bool.and_eq_true, ih, bne_iff_ne, ne_eq]
    constructor
    · rintro (h | ⟨hc, x, y, hxy, hx, hk⟩)
      · exact ⟨[], c :: rest, rfl, by simp, h⟩
      · refine ⟨c :: x, y, by simp [hxy], ?_, hk⟩
        simp only [List.mem_cons, not_or]
        exact ⟨fun h => hc h.symm, hx⟩
    · rintro ⟨x, y, hxy, hx, hk⟩
      cases x with
      | nil =>
        left
        simp only [List.nil_append] at hxy
        rw [hxy]; exact hk
      | cons a x' =>
        right
        simp only [List.cons_append, List.cons.injEq] at hxy
        simp only [List.mem_cons, not_or] at hx
        obtain ⟨rfl, hrest⟩ := hxy
        exact ⟨fun h => hx.1 h.symm, x', y, hrest, hx.2, hk⟩

theorem globMatch_tmp (y : List Char) : globMatch ".tmp".data y = true ↔ y = ".tmp".data := by
  constructor
  · intro h
    match y with
    | [] => simp [globMatch] at h
    | [a] => simp [globMatch] at h
    | [a, b] => simp [globMatch] at h
    | [a, b, c] => simp [globMatch] at h
    | [a, b, c, d] =>
      simp [globMatch] at h
      obtain ⟨rfl, rfl, rfl, rfl⟩ := h
      rfl
    | a :: b :: c :: d :: e :: rest => simp [globMatch] at h
  · rintro rfl
    decide

theorem globMatch_logs (name : List Char) :
    globMatch "logs/*.tmp".data name = true ↔
      ∃ x, '/' ∉ x ∧ name = "logs/".data ++ x ++ ".tmp".data := by
  have hstar : ∀ cs, globMatch "*.tmp".data cs = true ↔
      ∃ x, '/' ∉ x ∧ cs = x ++ ".tmp".data := by
    intro cs
    have : globMatch "*.tmp".data cs = starMatch (globMatch ".tmp".data) cs := by
      simp [globMatch]
    rw [this, starMatch_iff]
    constructor
    · rintro ⟨x, y, hxy, hx, hk⟩
      exact ⟨x, hx, by rw [hxy, (globMatch_tmp y).mp hk]⟩
    · rintro ⟨x, hx, hcs⟩
      exact ⟨x, _, hcs, hx, (globMatch_tmp _).mpr rfl⟩
  constructor
  · intro h
    match name with
    | [] => simp [globMatch] at h
    | [a] => simp [globMatch] at h
    | [a, b] => simp [globMatch] at h
    | [a, b, c] => simp [globMatch] at h
    | [a, b, c, d] => simp [globMatch] at h
    | a :: b :: c :: d :: e :: rest =>
      have h5 : a = 'l' ∧ b = 'o' ∧ c = 'g' ∧ d = 's' ∧ e = '/' ∧
          globMatch "*.tmp".data rest = true := by
        simp [globMatch] at h ⊢
        tauto
      obtain ⟨rfl, rfl, rfl, rfl, rfl, hr⟩ := h5
      obtain ⟨x, hx, hrest⟩ := (hstar rest).mp hr
      exact ⟨x, hx, by rw [hrest]; rfl⟩
  · rintro ⟨x, hx, rfl⟩
    have : globMatch "logs/*.tmp".data ("logs/".data ++ x ++ ".tmp".data) =
        globMatch "*.tmp".data (x ++ ".tmp".data) := by
      simp [globMatch]
    rw [this]
    exact (hstar _).mpr ⟨x, hx, rfl⟩

/-- C12: `excluded` is true exactly when the path is the configured cache
file name or some pattern of the list matches, a pattern without the
separator being matched against the base name of the path and a pattern with
the separator against the whole path. On a system with slash-separated paths
the pattern `thumbs.db` excludes `sub/dir/thumbs.db`, and the pattern
`logs/*.tmp` excludes, besides the cache file, exactly the paths `logs/`,
then a name without a slash, then `.tmp`. -/
theorem excluded_iff_pattern_matches :
    (∀ (env : Env) (s : Scanner) (path : String),
        s.excluded env path = true ↔
          path = env.Config.CacheFile ∨
            ∃ pattern ∈ s.Exclude,
              env.Match pattern
                (if env.Separator ∈ pattern.data then path else env.Base path) = true) ∧
      (plainScanner ["thumbs.db"] []).excluded (globEnv "" "" none) "sub/dir/thumbs.db" = true ∧
      ∀ path : String,
        (plainScanner ["logs/*.tmp"] []).excluded (globEnv "" "" none) path = true ↔
          path = "ftpsync.cache" ∨
            ∃ name : List Char,
              '/' ∉ name ∧ path = String.mk ("logs/".data ++ name ++ ".tmp".data) := by
  have hgen : ∀ (env : Env) (s : Scanner) (path : String),
      s.excluded env path = true ↔
        path = env.Config.CacheFile ∨
          ∃ pattern ∈ s.Exclude,
            env.Match pattern
              (if env.Separator ∈ pattern.data then path else env.Base path) = true := by
    intro env s path
    unfold Scanner.excluded
    by_cases hc : path = env.Config.CacheFile
    · simp [hc]
    · simp only [hc, if_false, false_or]
      exact excludedLoop_iff env path (env.Base path) s.Exclude
  refine ⟨hgen, by decide!, fun path => ?_⟩
  rw [hgen]
  have hsep : (globEnv "" "" none).Separator ∈ "logs/*.tmp".data := by decide
  constructor
  · rintro (h | ⟨pattern, hmem, hm⟩)
    · exact Or.inl h
    · have hp : pattern = "logs/*.tmp" := by simpa [plainScanner] using hmem
      subst hp
      rw [if_pos hsep] at hm
      obtain ⟨x, hx, hd⟩ := (globMatch_logs path.data).mp hm
      exact Or.inr ⟨x, hx, by rw [← hd]⟩
  · rintro (h | ⟨x, hx, hp⟩)
    · exact Or.inl h
    · refine Or.inr ⟨"logs/*.tmp", by simp [plainScanner], ?_⟩
      rw [if_pos hsep]
      exact (globMatch_logs path.data).mpr ⟨x, hx, by rw [hp]⟩

/-- C13, on the code: `isBinary` is true exactly when the extension of the
path, put in lower case, is empty or is literally one of the configured
entries. With `.PNG` configured neither `a.png` nor `a.PNG` is classified
binary, while with `.png` configured both are. -/
theorem isBinary_misses_upper_case_entry :
    (∀ (env : Env) (s : Scanner) (path : String),
        s.isBinary env path = true ↔
          env.ToLower (env.Ext path) ∈ s.BinaryFiles ∨ env.ToLower (env.Ext path) = "") ∧
      (newScanner (globEnv ".PNG" "" none) logoConn).isBinary (globEnv ".PNG" "" none) "a.png"
        = false ∧
      (newScanner (globEnv ".PNG" "" none) logoConn).isBinary (globEnv ".PNG" "" none) "a.PNG"
        = false ∧
      (newScanner (globEnv ".png" "" none) logoConn).isBinary (globEnv ".png" "" none) "a.PNG"
        = true ∧
      (newScanner (globEnv ".png" "" none) logoConn).isBinary (globEnv ".png" "" none) "a.png"
        = true := by
  refine ⟨fun env s path => ?_, by decide!, by decide!, by decide!, by decide!⟩
  simp [Scanner.isBinary]

theorem visit_folder (env : Env) (s : Scanner) (st : ScanState) (p : String)
    (info : OsFileInfo) (hstop : st.stop ≠ some 0) (hdir : info.IsDir = true) :
    s.visit env st p info none =
      s.EnterFolder env { st with stop := st.stop.map fun n => n - 1 } (env.Rel s.Local p)
        info := by
  unfold Scanner.visit
  split
  · next h => exact absurd h hstop
  · simp [hdir]

/-- C14: for a folder that is not excluded and whose remote listing fails
with `err`, `EnterFolder` returns `err` exactly when the entry of the folder
has `Remote.IsDir` set and returns no error otherwise; in both cases the
entry then has the local side of a folder with the modification time found,
and its remote side is as before. When it returns `err` at a folder the walk
has come to, `Walk` ends there with `err`. -/
theorem EnterFolder_listing_failed (env : Env) (s : Scanner) (path : String)
    (info : OsFileInfo) (err : OsError)
    (hex : s.excluded env path = false)
    (hdir : s.Conn.ReadDir (env.Join s.Remote path) = .error err) :
    (∀ st : ScanState,
        ((s.EnterFolder env st path info).2 = some (.Os err) ↔
          (st.cache.AddEntry path).2.Remote.IsDir = true) ∧
        ((st.cache.AddEntry path).2.Remote.IsDir = false →
          (s.EnterFolder env st path info).2 = none) ∧
        (s.EnterFolder env st path info).1.cache.get? path =
          some
            { Local := { IsDir := true, Changed := false, ModTime := info.ModTime, Size := 0,
                         Hash := [] }
              Remote := (st.cache.AddEntry path).2.Remote }) ∧
      ∀ (tree : Tree) (st0 st : ScanState) (p : String) (children : List Tree),
        Reaches env (s.visit env) env.Config.Source tree st0 p (.node info none children) st →
        st.stop ≠ some 0 → info.IsDir = true → env.Rel s.Local p = path →
        (st.cache.AddEntry path).2.Remote.IsDir = true →
        s.Walk env tree st0 =
          ((s.EnterFolder env { st with stop := st.stop.map fun n => n - 1 } path info).1,
            some (.Os err)) := by
  have hE : ∀ st : ScanState,
      s.EnterFolder env st path info =
        (s.folderState env st path info,
          if (st.cache.AddEntry path).2.Remote.IsDir then some (.Os err) else none) := by
    intro st
    rcases ha : st.cache.AddEntry path with ⟨cache, ent⟩
    by_cases hr : ent.Remote.IsDir = true <;>
      simp [Scanner.EnterFolder, Scanner.folderState, hex, hdir, ha, ScanState.emit, hr]
  have hget : ∀ st : ScanState,
      (s.folderState env st path info).cache.get? path =
        some
          { Local := { IsDir := true, Changed := false, ModTime := info.ModTime, Size := 0,
                       Hash := [] }
            Remote := (st.cache.AddEntry path).2.Remote } := by
    intro st
    rcases ha : st.cache.AddEntry path with ⟨cache, ent⟩
    simp [Scanner.folderState, ScanState.emit, ha, Cache.get?_set_same]
  refine ⟨fun st => ⟨?_, ?_, ?_⟩, ?_⟩
  · rw [hE]
    by_cases hr : (st.cache.AddEntry path).2.Remote.IsDir = true <;> simp [hr]
  · intro hr
    rw [hE]
    simp [hr]
  · rw [hE]
    exact hget st
  · intro tree st0 st p children hreach hstop hisdir hrel hr
    have hv := visit_folder env s st p info hstop hisdir
    rw [hrel] at hv
    have h2 : (s.EnterFolder env { st with stop := st.stop.map fun n => n - 1 } path info).2
        = some (.Os err) := by
      rw [hE]
      simp [hr]
    have hwalk : walk env (s.visit env) p (.node info none children) st =
        ((s.EnterFolder env { st with stop := st.stop.map fun n => n - 1 } path info).1,
          some (.Os err)) := by
      rw [← h2]
      simp only [walk, hisdir, hv]
      simp [h2]
    exact filepathWalk_of_Reaches env _ hreach _ _ hwalk (by simp)

/-- C14 at the folder `sub` of the site, which the server cannot list: with
nothing known of the remote side the call returns no error, and the entry of
the folder has the local side of a folder. -/
theorem EnterFolder_listing_failed_witness :
    ((plainScanner [] []).EnterFolder (globEnv "" "" none) { cache := {} } "sub"
        { Name := "sub", IsDir := true, ModTime := 3 }).2 = none ∧
      ((plainScanner [] []).EnterFolder (globEnv "" "" none) { cache := {} } "sub"
          { Name := "sub", IsDir := true, ModTime := 3 }).1.cache.get? "sub" =
        some
          { Local := { IsDir := true, Changed := false, ModTime := 3, Size := 0, Hash := [] }
            Remote := { IsDir := false, Changed := true, ModTime := 0, Size := 0, Hash := [] } } := by
  have h := (EnterFolder_listing_failed (globEnv "" "" none) (plainScanner [] []) "sub"
    { Name := "sub", IsDir := true, ModTime := 3 } (.NotExist "/www/sub") (by decide!)
    rfl).1 { cache := {} }
  exact ⟨h.2.1 (by decide!), h.2.2⟩

/-- C15: at a node the walk has come to with the stop signal waiting, the
function of the walk returns the error `Scan aborted` whatever the node is,
and the state it returns has the cache and the log of events it was given,
so that nothing was excluded, looked up, listed, fetched or opened; `Walk`
ends with that error in that state, so that no later node is visited. -/
theorem abort_comes_first (env : Env) (s : Scanner) (tree : Tree) (st0 : ScanState)
    (p : String) (t : Tree) (st : ScanState)
    (hreach : Reaches env (s.visit env) env.Config.Source tree st0 p t st)
    (hstop : st.stop = some 0) :
    (∀ (info : OsFileInfo) (err : Option OsError),
        (s.visit env st p info err).2 = some (.New "Scan aborted") ∧
        (s.visit env st p info err).1.cache = st.cache ∧
        (s.visit env st p info err).1.log = st.log) ∧
      (s.Walk env tree st0).2 = some (.New "Scan aborted") ∧
      (s.Walk env tree st0).1.cache = st.cache ∧
      (s.Walk env tree st0).1.log = st.log := by
  have hW : s.Walk env tree st0 = ({ st with stop := none }, some (.New "Scan aborted")) :=
    filepathWalk_of_Reaches env _ hreach _ _ (walk_visit_stop env s p t st hstop) (by simp)
  refine ⟨fun info err => ?_, ?_⟩
  · rw [visit_stop env s st p info err hstop]
    exact ⟨rfl, rfl, rfl⟩
  · rw [hW]
    exact ⟨rfl, rfl, rfl⟩

/-- C15 at the site, for a stop signal that is waiting when the walk begins. -/
theorem abort_comes_first_witness :
    (∀ (info : OsFileInfo) (err : Option OsError),
        ((pageScanner { chunks := [page] } 9 { chunks := [page] }).visit syncedEnv
          { cache := pageCache 7, stop := some 0 } "/site" info err).2
            = some (.New "Scan aborted") ∧
        ((pageScanner { chunks := [page] } 9 { chunks := [page] }).visit syncedEnv
          { cache := pageCache 7, stop := some 0 } "/site" info err).1.cache = pageCache 7 ∧
        ((pageScanner { chunks := [page] } 9 { chunks := [page] }).visit syncedEnv
          { cache := pageCache 7, stop := some 0 } "/site" info err).1.log = []) ∧
      ((pageScanner { chunks := [page] } 9 { chunks := [page] }).Walk syncedEnv siteTree
        { cache := pageCache 7, stop := some 0 }).2 = some (.New "Scan aborted") ∧
      ((pageScanner { chunks := [page] } 9 { chunks := [page] }).Walk syncedEnv siteTree
        { cache := pageCache 7, stop := some 0 }).1.cache = pageCache 7 ∧
      ((pageScanner { chunks := [page] } 9 { chunks := [page] }).Walk syncedEnv siteTree
        { cache := pageCache 7, stop := some 0 }).1.log = [] :=
  abort_comes_first syncedEnv (pageScanner { chunks := [page] } 9 { chunks := [page] }) siteTree
    { cache := pageCache 7, stop := some 0 } "/site" siteTree
    { cache := pageCache 7, stop := some 0 } (Reaches.here _ _ _) rfl

/-! ## The controller -/

theorem abortsOfScan_append_start (ui : List UiEvent) :
    abortsOfScan (ui ++ [.StartScan]) = some 0 := by
  simp [abortsOfScan, List.foldl_append, countAbort]

theorem abortsOfScan_append_abort (ui : List UiEvent) :
    abortsOfScan (ui ++ [.SendAbort]) = (abortsOfScan ui).map fun n => n + 1 := by
  simp [abortsOfScan, List.foldl_append, countAbort]

theorem abortsOfScan_append_other (ui : List UiEvent) (e : UiEvent)
    (hs : e ≠ .StartScan) (ha : e ≠ .SendAbort) :
    abortsOfScan (ui ++ [e]) = abortsOfScan ui := by
  cases e <;> simp_all [abortsOfScan, List.foldl_append, countAbort]

theorem abortsOfScan_append (ui l : List UiEvent) :
    abortsOfScan (ui ++ l) = l.foldl countAbort (abortsOfScan ui) := by
  simp [abortsOfScan, List.foldl_append]

theorem aborts_emit_other (w : MainWindow) (e : UiEvent) (ha : e ≠ .SendAbort) :
    (w.emit e).aborts = w.aborts := by
  cases e <;> simp_all [MainWindow.aborts, MainWindow.emit, List.countP_append]

theorem CtlInv_step (env : Env) (c : Controller) (e : CtlEvent) (h : CtlInv c) :
    CtlInv (c.step env e) := by
  by_cases hstuck : c.stuck = true
  · cases e <;> simp [Controller.step, hstuck, h]
  · unfold CtlInv at h ⊢
    simp only [Scanner__Idle, Scanner__Active, Scanner__Stopping] at h ⊢
    rcases h with ⟨hs, hn, ha⟩ | ⟨hs, hn, ha⟩ | ⟨hs, hn, ha⟩
    · cases e with
      | beginScan =>
        cases hc : env.Config.Check with
        | none =>
          simp [Controller.step, hstuck, hs, hc, hn, MainWindow.beginScan, MainWindow.emit,
            abortsOfScan_append_start, Scanner__Idle, Scanner__Active]
        | some err =>
          simp [Controller.step, hstuck, hs, hc, hn, MainWindow.beginScan, MainWindow.emit,
            abortsOfScan_append_other, MainWindow.aborts, List.countP_append, Scanner__Idle]
          simpa [MainWindow.aborts] using ha
      | scanComplete recv =>
        simp [Controller.step, hstuck, hs, hn, MainWindow.scanComplete, Scanner__Idle]
        exact ha
      | EndScan recv =>
        simp [Controller.step, hstuck, hs, hn, MainWindow.EndScan, Scanner__Active]
        exact ha
    · cases e with
      | beginScan =>
        simp [Controller.step, hstuck, hs, hn, ha, MainWindow.beginScan, Scanner__Idle]
      | scanComplete recv =>
        cases recv <;>
          simp [Controller.step, hstuck, hs, hn, ha, MainWindow.scanComplete, MainWindow.emit,
            abortsOfScan_append, countAbort, Scanner__Idle]
      | EndScan recv =>
        cases recv <;>
          simp [Controller.step, hstuck, hs, hn, ha, MainWindow.EndScan, MainWindow.emit,
            abortsOfScan_append, countAbort, Scanner__Active, Scanner__Stopping]
    · cases e with
      | beginScan =>
        simp [Controller.step, hstuck, hs, hn, ha, MainWindow.beginScan, Scanner__Idle]
      | scanComplete recv =>
        simp [Controller.step, hstuck, hs, hn, ha, Scanner__Idle]
      | EndScan recv =>
        simp [Controller.step, hstuck, hs, hn, ha, MainWindow.EndScan, Scanner__Active]

theorem CtlInv_run (env : Env) (events : List CtlEvent) (c : Controller) (h : CtlInv c) :
    CtlInv (Controller.run env c events) := by
  induction events generalizing c with
  | nil => exact h
  | cons e rest ih => exact ih _ (CtlInv_step env c e h)

/-- C16: after every sequence of `beginScan`, `scanComplete` and `EndScan`
begun with an idle window, at most one scan is running, and one is running
exactly when the state is active; since the last start of a scan at most one
abort was sent, and before the first start none. `beginScan` does nothing
unless the state is idle, and from the idle state with a valid configuration
it starts one scan and makes the state active. `EndScan` does nothing unless
the state is active, and from the active state it sends one abort and makes
the state stopping. -/
theorem one_scan_at_a_time (env : Env) (cache : Cache) (events : List CtlEvent) :
    (Controller.run env { w := { cache := cache } } events).scans ≤ 1 ∧
      ((Controller.run env { w := { cache := cache } } events).scans = 1 ↔
        (Controller.run env { w := { cache := cache } } events).w.scanState
          = Scanner__Active) ∧
      (∀ n, abortsOfScan (Controller.run env { w := { cache := cache } } events).w.ui = some n →
        n ≤ 1) ∧
      (abortsOfScan (Controller.run env { w := { cache := cache } } events).w.ui = none →
        (Controller.run env { w := { cache := cache } } events).w.aborts = 0) ∧
      (∀ w : MainWindow, w.scanState ≠ Scanner__Idle → w.beginScan env = w) ∧
      (∀ w : MainWindow, w.scanState = Scanner__Idle → env.Config.Check = none →
        (w.beginScan env).scanState = Scanner__Active ∧
          (w.beginScan env).starts = w.starts + 1) ∧
      (∀ (w : MainWindow) (recv : Option Error), w.scanState ≠ Scanner__Active →
        w.EndScan recv = w) ∧
      ∀ (w : MainWindow) (recv : Option Error), w.scanState = Scanner__Active →
        (w.EndScan recv).scanState = Scanner__Stopping ∧
          (w.EndScan recv).aborts = w.aborts + 1 := by
  have h0 : CtlInv { w := { cache := cache } } :=
    Or.inl ⟨rfl, rfl, Or.inl ⟨rfl, rfl⟩⟩
  have hinv := CtlInv_run env events _ h0
  generalize Controller.run env { w := { cache := cache } } events = c at hinv ⊢
  refine ⟨?_, ?_, ?_, ?_, ?_, ?_, ?_, ?_⟩
  · rcases hinv with ⟨-, hn, -⟩ | ⟨-, hn, -⟩ | ⟨-, hn, -⟩ <;> omega
  · rcases hinv with ⟨hs, hn, -⟩ | ⟨hs, hn, -⟩ | ⟨hs, hn, -⟩ <;>
      · rw [hs, hn]
        decide
  · intro n hn
    rcases hinv with ⟨-, -, ⟨ha, -⟩ | ha⟩ | ⟨-, -, ha⟩ | ⟨-, -, ha⟩ <;>
      rw [ha] at hn <;> simp at hn <;> omega
  · intro hnone
    rcases hinv with ⟨-, -, ⟨-, ha⟩ | ha⟩ | ⟨-, -, ha⟩ | ⟨-, -, ha⟩
    · exact ha
    all_goals
      rw [ha] at hnone
      simp at hnone
  · intro w hw
    simp [MainWindow.beginScan, hw]
  · intro w hw hc
    simp [MainWindow.beginScan, hw, hc, MainWindow.emit, MainWindow.starts,
      List.countP_append]
  · intro w recv hw
    simp [MainWindow.EndScan, hw]
  · intro w recv hw
    cases recv with
    | none =>
      rw [EndScan_none w hw]
      simp [MainWindow.aborts, MainWindow.emit, List.countP_append]
    | some err =>
      rw [EndScan_some w err hw]
      simp [MainWindow.aborts, MainWindow.emit, List.countP_append]

/-! ## The vetting of the server and the dialling -/

/-- C17: for a chain whose first certificate parses to the leaf,
`vetServerTrust` returns no error and the session it was given, so shows no
box, when the verification of the chain succeeds or when the cached
`ServerKey` is the signature of the leaf. Otherwise it shows the box once;
if the user agrees it returns no error and stores the signature of the leaf
as `ServerKey`, and if the user declines it returns an error and leaves the
configuration as it was. -/
theorem vetServerTrust_outcomes (r : Remote) (v : Session) (raw0 : List Byte)
    (leaf : Certificate) (rest : List Certificate)
    (hparse : r.ParseCertificates raw0 = .ok (leaf, rest)) :
    ((r.Verify leaf v.Config.RemoteHost rest = none ∨
          v.Config.ServerKey = some leaf.Signature) →
        vetServerTrust r v raw0 = (v, none)) ∧
      ∀ err, r.Verify leaf v.Config.RemoteHost rest = some err →
        v.Config.ServerKey ≠ some leaf.Signature →
        (vetServerTrust r v raw0).1.prompts =
            v.prompts ++ [.Certificate v.Config.RemoteHost err.text leaf.Subject leaf.Issuer] ∧
          (r.trust = true →
            (vetServerTrust r v raw0).2 = none ∧
              (vetServerTrust r v raw0).1.Config.ServerKey = some leaf.Signature) ∧
          (r.trust = false →
            (vetServerTrust r v raw0).2 = some (.New "TLS certificate not trusted") ∧
              (vetServerTrust r v raw0).1.Config = v.Config) := by
  have hkey : (v.Config.ServerKey.isSome ∧
      bytesEqual (v.Config.ServerKey.getD []) leaf.Signature = true) ↔
      v.Config.ServerKey = some leaf.Signature := by
    cases hk : v.Config.ServerKey with
    | none => simp
    | some k => simp [bytesEqual]
  constructor
  · rintro (hv | hk)
    · by_cases hc : v.Config.ServerKey = some leaf.Signature
      · simp [vetServerTrust, hparse, hkey.mpr hc]
      · have hn := mt hkey.mp hc
        simp only [vetServerTrust, hparse, hv]
        rw [if_neg hn]
    · simp [vetServerTrust, hparse, hkey.mpr hk]
  · intro err hv hk
    have hn := mt hkey.mp hk
    by_cases ht : r.trust = true
    · simp only [vetServerTrust, hparse, hv]
      rw [if_neg hn]
      simp [ht]
    · simp only [vetServerTrust, hparse, hv]
      rw [if_neg hn]
      simp [ht]

/-- C17 at a server whose certificate is signed by itself, for a user who
agrees, with no cached key. -/
theorem vetServerTrust_outcomes_witness :
    (vetServerTrust (selfSigned true) (freshSession "ftps") [48]).1.prompts =
        [.Certificate "example.org" "x509: certificate signed by unknown authority"
          "CN=example.org" "CN=example.org"] ∧
      (vetServerTrust (selfSigned true) (freshSession "ftps") [48]).2 = none ∧
      (vetServerTrust (selfSigned true) (freshSession "ftps") [48]).1.Config.ServerKey
        = some [1, 2, 3] := by
  have h := (vetServerTrust_outcomes (selfSigned true) (freshSession "ftps") [48]
    { Signature := [1, 2, 3], Subject := "CN=example.org", Issuer := "CN=example.org" } []
    rfl).2 (.Fail "x509: certificate signed by unknown authority") rfl (by decide)
  exact ⟨h.1, (h.2.1 rfl).1, (h.2.1 rfl).2⟩

/-- C18: let the user be one who agrees and let no cached `ServerKey` match.
A first vetting of a host key shows the box once and returns no error, and a
second vetting of the same key, whatever the user would answer then, returns
no error and the session it was given: no box and the same `ServerKey`. The
same holds of the vetting of a certificate whose verification fails. -/
theorem trust_on_first_use (r : Remote) (v : Session) (hostname remote : String)
    (keyBytes raw0 : List Byte) (leaf : Certificate) (rest : List Certificate) (verr : OsError)
    (htrust : r.trust = true)
    (hkey : v.Config.ServerKey ≠ some keyBytes)
    (hparse : r.ParseCertificates raw0 = .ok (leaf, rest))
    (hverify : r.Verify leaf v.Config.RemoteHost rest = some verr)
    (hsig : v.Config.ServerKey ≠ some leaf.Signature) :
    ((vetHostKey r v hostname remote keyBytes).1.prompts = v.prompts ++ [.HostKey hostname remote] ∧
        (vetHostKey r v hostname remote keyBytes).2 = none ∧
        ∀ (r2 : Remote) (hostname2 remote2 : String),
          vetHostKey r2 (vetHostKey r v hostname remote keyBytes).1 hostname2 remote2 keyBytes
            = ((vetHostKey r v hostname remote keyBytes).1, none)) ∧
      (vetServerTrust r v raw0).1.prompts =
          v.prompts ++ [.Certificate v.Config.RemoteHost verr.text leaf.Subject leaf.Issuer] ∧
        (vetServerTrust r v raw0).2 = none ∧
        ∀ (r2 : Remote) (rest2 : List Certificate),
          r2.ParseCertificates raw0 = .ok (leaf, rest2) →
          vetServerTrust r2 (vetServerTrust r v raw0).1 raw0 = ((vetServerTrust r v raw0).1, none) := by
  have hk1 : ¬ (v.Config.ServerKey.isSome ∧
      bytesEqual (v.Config.ServerKey.getD []) keyBytes = true) := by
    cases hk : v.Config.ServerKey with
    | none => simp
    | some k =>
      rw [hk] at hkey
      simpa [bytesEqual] using hkey
  have hk2 : ¬ (v.Config.ServerKey.isSome ∧
      bytesEqual (v.Config.ServerKey.getD []) leaf.Signature = true) := by
    cases hk : v.Config.ServerKey with
    | none => simp
    | some k =>
      rw [hk] at hsig
      simpa [bytesEqual] using hsig
  have hH : vetHostKey r v hostname remote keyBytes =
      ({ v with
          prompts := v.prompts ++ [.HostKey hostname remote]
          Config := { v.Config with ServerKey := some keyBytes } }, none) := by
    simp only [vetHostKey]
    rw [if_neg hk1]
    simp [htrust]
  have hS : vetServerTrust r v raw0 =
      ({ v with
          prompts := v.prompts ++
            [.Certificate v.Config.RemoteHost verr.text leaf.Subject leaf.Issuer]
          Config := { v.Config with ServerKey := some leaf.Signature } }, none) := by
    simp only [vetServerTrust, hparse, hverify]
    rw [if_neg hk2]
    simp [htrust]
  refine ⟨⟨?_, ?_, ?_⟩, ?_, ?_, ?_⟩
  · rw [hH]
  · rw [hH]
  · intro r2 hostname2 remote2
    rw [hH]
    simp [vetHostKey, bytesEqual]
  · rw [hS]
  · rw [hS]
  · intro r2 rest2 hp2
    rw [hS]
    simp [vetServerTrust, hp2, bytesEqual]

/-- C18 at a server whose certificate is signed by itself and whose host key
is not known, for a user who agrees. -/
theorem trust_on_first_use_witness :
    (vetHostKey (selfSigned true) (freshSession "sftp") "example.org" "192.0.2.1:22"
        [7, 7, 7]).1.prompts = [.HostKey "example.org" "192.0.2.1:22"] ∧
      (vetHostKey (selfSigned false)
        (vetHostKey (selfSigned true) (freshSession "sftp") "example.org" "192.0.2.1:22"
          [7, 7, 7]).1 "example.org" "192.0.2.1:22" [7, 7, 7]).2 = none ∧
      (vetServerTrust (selfSigned false)
        (vetServerTrust (selfSigned true) (freshSession "ftps") [48]).1 [48]).2 = none := by
  have h := trust_on_first_use (selfSigned true) (freshSession "sftp") "example.org"
    "192.0.2.1:22" [7, 7, 7] [48]
    { Signature := [1, 2, 3], Subject := "CN=example.org", Issuer := "CN=example.org" } []
    (.Fail "x509: certificate signed by unknown authority") rfl (by decide) rfl rfl (by decide)
  refine ⟨h.1.1, ?_, ?_⟩
  · rw [h.1.2.2 (selfSigned false) "example.org" "192.0.2.1:22"]
  · have h2 := trust_on_first_use (selfSigned true) (freshSession "ftps") "example.org"
      "192.0.2.1:22" [7, 7, 7] [48]
      { Signature := [1, 2, 3], Subject := "CN=example.org", Issuer := "CN=example.org" } []
      (.Fail "x509: certificate signed by unknown authority") rfl (by decide) rfl rfl
      (by decide)
    rw [h2.2.2.2 (selfSigned false) [] rfl]

/-- C19, on the code: the root folder `/www` of the server cannot be listed.
With the scheme `sftp` `DialRemote` returns a connection and has listed no
folder, although a listing of the root through that connection fails. With
the schemes `ftp` and `ftps` it has listed the root once and returns no
connection. -/
theorem dialSFTP_lists_no_root :
    (match (DialRemote lostRoot (freshSession "sftp")).2 with
      | .ok conn => (conn.ReadDir "/www").toOption.isNone
      | .error _ => false) = true ∧
      listings "/www" (DialRemote lostRoot (freshSession "sftp")).1.log = 0 ∧
      (DialRemote lostRoot (freshSession "sftp")).1.log = [] ∧
      (DialRemote lostRoot (freshSession "ftp")).2.toOption.isNone = true ∧
      listings "/www" (DialRemote lostRoot (freshSession "ftp")).1.log = 1 ∧
      (DialRemote lostRoot (freshSession "ftps")).2.toOption.isNone = true ∧
      listings "/www" (DialRemote lostRoot (freshSession "ftps")).1.log = 1 := by
  decide!

/-- C20: when the cache file does not exist, `LoadCache` returns an empty
cache and no error; when it cannot be opened for another reason, and when it
is opened and the decoder fails, whatever the decoder has stored by then,
`LoadCache` returns that error and no cache. -/
theorem LoadCache_outcomes (env : Env) (Decode : Reader → Cache → Cache × Option OsError) :
    (∀ err, env.Open (NewCache env).path = .error err → IsNotExist err = true →
        LoadCache env Decode = (some (NewCache env), none) ∧
          (NewCache env).FilePrints.keys = []) ∧
      (∀ err, env.Open (NewCache env).path = .error err → IsNotExist err = false →
        LoadCache env Decode = (none, some (.Os err))) ∧
      ∀ (f : Reader) (filled : Cache) (err : OsError),
        env.Open (NewCache env).path = .ok f → Decode f (NewCache env) = (filled, some err) →
        LoadCache env Decode = (none, some (.Os err)) := by
  refine ⟨fun err ho hn => ⟨?_, ?_⟩, fun err ho hn => ?_, fun f filled err ho hd => ?_⟩
  · simp [LoadCache, ho, hn]
  · simp [NewCache]
  · simp [LoadCache, ho, hn]
  · simp [LoadCache, ho, hd]

/-- C20 at a site without a cache file, and at one whose cache file is cut
short, so that the decoder fails after it has stored an entry. -/
theorem LoadCache_outcomes_witness :
    (LoadCache (globEnv "" "" none) brokenDecode = (some (NewCache (globEnv "" "" none)), none) ∧
        (NewCache (globEnv "" "" none)).FilePrints.keys = []) ∧
      LoadCache (storedEnv { chunks := [[1, 2]] }) brokenDecode
        = (none, some (.Os (.Fail "unexpected EOF"))) :=
  ⟨(LoadCache_outcomes (globEnv "" "" none) brokenDecode).1 (.NotExist "/site/ftpsync.cache")
      rfl rfl,
    (LoadCache_outcomes (storedEnv { chunks := [[1, 2]] }) brokenDecode).2.2
      { chunks := [[1, 2]] } _ (.Fail "unexpected EOF") rfl rfl⟩

/-! ## What the remote check leaves alone -/

theorem CheckRemote_entry (env : Env) (s : Scanner) (st : ScanState) (path : String)
    (info : OsFileInfo) (hex : s.excluded env path = false) :
    ∃ fp, (s.CheckRemote env st path info).1.cache.get? path = some fp ∧
      fp.Local = (st.cache.AddEntry path).2.Local ∧
      fp.Remote.IsDir = (st.cache.AddEntry path).2.Remote.IsDir ∧
      ((st.cache.AddEntry path).2.Remote.Changed = true → fp.Remote.Changed = true) := by
  unfold Scanner.CheckRemote
  have hs := Cache.get?_AddEntry_same st.cache path
  rcases ha : st.cache.AddEntry path with ⟨cache, ent⟩
  rw [ha] at hs
  simp only at hs
  rcases hc : ioCopy (s.newHash env path) (s.Conn.Retrieve (env.Join s.Remote path)) with
    ⟨hash, _ | err⟩ <;>
  · simp only [ScanState.emit, ha, hc, hex]
    split_ifs <;> simp_all [Cache.get?_set_same, Cache.set_set]

theorem CheckRemote_keeps (env : Env) (s : Scanner) (st : ScanState) (path : String)
    (info : OsFileInfo) (q : String) (fp0 : FilePrint) (h : st.cache.get? q = some fp0) :
    ∃ fp, (s.CheckRemote env st path info).1.cache.get? q = some fp ∧
      fp.Local = fp0.Local ∧ fp.Remote.IsDir = fp0.Remote.IsDir ∧
      (fp0.Remote.Changed = true → fp.Remote.Changed = true) := by
  by_cases hq : q = path
  · subst hq
    by_cases hex : s.excluded env q = true
    · refine ⟨fp0, ?_, rfl, rfl, id⟩
      simp [Scanner.CheckRemote, hex, h]
    · have hex2 : s.excluded env q = false := by simpa using hex
      have := CheckRemote_entry env s st q info hex2
      rw [Cache.AddEntry_of_get? h] at this
      exact this
  · exact ⟨fp0, by rw [CheckRemote_get?_ne env s st info hq, h], rfl, rfl, id⟩

theorem remoteEntry_keeps_Local (env : Env) (s : Scanner) (path : String) (st : ScanState)
    (inf : OsFileInfo) (q : String) (fp0 : FilePrint) (h : st.cache.get? q = some fp0) :
    ∃ fp, (s.remoteEntry env path st inf).cache.get? q = some fp ∧ fp.Local = fp0.Local := by
  unfold Scanner.remoteEntry
  simp only
  split_ifs with hex hd
  · exact ⟨fp0, h, rfl⟩
  · by_cases hq : q = env.Join path inf.Name
    · subst hq
      rw [Cache.AddEntry_of_get? h]
      exact ⟨_, Cache.get?_set_same _ _ _, rfl⟩
    · exact ⟨fp0, by rw [Cache.get?_set_ne _ _ hq, Cache.get?_AddEntry_ne _ hq, h], rfl⟩
  · obtain ⟨fp, h1, h2, -⟩ := CheckRemote_keeps env s st (env.Join path inf.Name) inf q fp0 h
    exact ⟨fp, h1, h2⟩

theorem foldl_remoteEntry_keeps_Local (env : Env) (s : Scanner) (path : String)
    (l : List OsFileInfo) (st : ScanState) (q : String) (fp0 : FilePrint)
    (h : st.cache.get? q = some fp0) :
    ∃ fp, (l.foldl (s.remoteEntry env path) st).cache.get? q = some fp ∧
      fp.Local = fp0.Local := by
  induction l generalizing st fp0 with
  | nil => exact ⟨fp0, h, rfl⟩
  | cons inf rest ih =>
    rw [List.foldl_cons]
    obtain ⟨fp1, h1, hl1⟩ := remoteEntry_keeps_Local env s path st inf q fp0 h
    obtain ⟨fp, h2, hl2⟩ := ih _ fp1 h1
    exact ⟨fp, h2, hl2.trans hl1⟩

theorem folderState_entry (env : Env) (s : Scanner) (st : ScanState) (path : String)
    (info : OsFileInfo) :
    (s.folderState env st path info).cache.get? path =
      some { (st.cache.AddEntry path).2 with
        Local := { IsDir := true, ModTime := info.ModTime, Size := 0 } } := by
  simp [Scanner.folderState, ScanState.emit, Cache.get?_set_same]

theorem EnterFolder_failed (env : Env) (s : Scanner) (st : ScanState) (path : String)
    (info : OsFileInfo) (err : OsError)
    (hex : s.excluded env path = false)
    (hdir : s.Conn.ReadDir (env.Join s.Remote path) = .error err) :
    (s.EnterFolder env st path info).1 = s.folderState env st path info := by
  simp only [Scanner.EnterFolder, Scanner.folderState, hex, hdir, Bool.false_eq_true, if_false]
  split_ifs <;> rfl

theorem folderState_get?_ne (env : Env) (s : Scanner) (st : ScanState) (path : String)
    (info : OsFileInfo) {q : String} (h : q ≠ path) :
    (s.folderState env st path info).cache.get? q = st.cache.get? q := by
  simp only [Scanner.folderState, ScanState.emit]
  rw [Cache.get?_set_ne _ _ h, Cache.get?_AddEntry_ne _ h]

theorem remoteEntry_folder (env : Env) (s : Scanner) (path : String) (st : ScanState)
    (inf : OsFileInfo) (hd : inf.IsDir = true)
    (hex : s.excluded env (env.Join path inf.Name) = false) :
    (s.remoteEntry env path st inf).cache.get? (env.Join path inf.Name) =
      some { (st.cache.AddEntry (env.Join path inf.Name)).2 with
        Remote := { IsDir := true, ModTime := inf.ModTime, Size := 0 } } := by
  simp [Scanner.remoteEntry, hex, hd, Cache.get?_set_same]

/-- C26: `CheckRemote` never writes to the local side of an entry and never
clears `Remote.Changed`. For every scanner, state, path, listing item and
outcome of the transport: an entry the cache holds, at the checked path or at
any other, is still there after the call with the local side it had, and
with `Remote.Changed` true if it was true; an entry the call makes has the
local side of a new entry and `Remote.Changed` true; no other entry comes to
be. The same holds of the body of the loop of `EnterFolder` for every item
that is not a folder, which is where `CheckRemote` is called. -/
theorem CheckRemote_keeps_Local_and_flag (env : Env) (s : Scanner) (st : ScanState)
    (path : String) (info : OsFileInfo) :
    (∀ (q : String) (fp0 : FilePrint), st.cache.get? q = some fp0 →
        ∃ fp, (s.CheckRemote env st path info).1.cache.get? q = some fp ∧
          fp.Local = fp0.Local ∧ (fp0.Remote.Changed = true → fp.Remote.Changed = true)) ∧
      (st.cache.get? path = none → s.excluded env path = false →
        ∃ fp, (s.CheckRemote env st path info).1.cache.get? path = some fp ∧
          fp.Local = newEntry.Local ∧ fp.Remote.Changed = true) ∧
      (∀ q : String, st.cache.get? q = none → q ≠ path ∨ s.excluded env path = true →
        (s.CheckRemote env st path info).1.cache.get? q = none) ∧
      ∀ (dir : String) (inf : OsFileInfo) (q : String) (fp0 : FilePrint),
        inf.IsDir = false → st.cache.get? q = some fp0 →
        ∃ fp, (s.remoteEntry env dir st inf).cache.get? q = some fp ∧
          fp.Local = fp0.Local ∧ (fp0.Remote.Changed = true → fp.Remote.Changed = true) := by
  refine ⟨fun q fp0 h => ?_, fun hn hex => ?_, fun q hn hq => ?_, fun dir inf q fp0 hd h => ?_⟩
  · obtain ⟨fp, h1, h2, -, h3⟩ := CheckRemote_keeps env s st path info q fp0 h
    exact ⟨fp, h1, h2, h3⟩
  · obtain ⟨fp, h1, h2, -, h3⟩ := CheckRemote_entry env s st path info hex
    rw [Cache.AddEntry_of_none hn] at h2 h3
    exact ⟨fp, h1, h2, h3 rfl⟩
  · rcases hq with hq | hq
    · rw [CheckRemote_get?_ne env s st info hq, hn]
    · simp [Scanner.CheckRemote, hq, hn]
  · by_cases hex : s.excluded env (env.Join dir inf.Name) = true
    · exact ⟨fp0, by simp [Scanner.remoteEntry, hex, h], rfl, id⟩
    · obtain ⟨fp, h1, h2, -, h3⟩ :=
        CheckRemote_keeps env s st (env.Join dir inf.Name) inf q fp0 h
      refine ⟨fp, ?_, h2, h3⟩
      simpa [Scanner.remoteEntry, hex, hd] using h1

/-- C27: when `CheckRemote` returns an error for a path, which it does only
when the fetch has failed, the entry of the path has the modification time
and the size of the listing item, no remote digest, and `Remote.Changed`
true. A second `CheckRemote` of the path with the same item, in the state the
first one left, adds the status message to the log and nothing else: no fetch,
and the cache as it was. So does every later `CheckRemote` of the path, by any
scanner over any transport and in any state, as long as the entry and the
listing item have that modification time and that size; if the scanner
excludes the path it does nothing at all. -/
theorem failed_fetch_not_retried (env : Env) (s : Scanner) (st : ScanState) (path : String)
    (info : OsFileInfo) (err : Error)
    (hfail : (s.CheckRemote env st path info).2 = some err) :
    (∃ fp, (s.CheckRemote env st path info).1.cache.get? path = some fp ∧
        fp.Remote.ModTime = info.ModTime ∧ fp.Remote.Size = info.Size ∧
        fp.Remote.Hash = [] ∧ fp.Remote.Changed = true) ∧
      s.CheckRemote env (s.CheckRemote env st path info).1 path info =
        ((s.CheckRemote env st path info).1.emit (.ShowStatus path), none) ∧
      ∀ (env2 : Env) (s2 : Scanner) (st2 : ScanState) (info2 : OsFileInfo) (fp2 : FilePrint),
        st2.cache.get? path = some fp2 →
        fp2.Remote.ModTime = info.ModTime → fp2.Remote.Size = info.Size →
        info2.ModTime = info.ModTime → info2.Size = info.Size →
        s2.CheckRemote env2 st2 path info2 =
          (if s2.excluded env2 path then st2 else st2.emit (.ShowStatus path), none) := by
  have later : ∀ (env2 : Env) (s2 : Scanner) (st2 : ScanState) (info2 : OsFileInfo)
      (fp2 : FilePrint), st2.cache.get? path = some fp2 →
      fp2.Remote.ModTime = info.ModTime → fp2.Remote.Size = info.Size →
      info2.ModTime = info.ModTime → info2.Size = info.Size →
      s2.CheckRemote env2 st2 path info2 =
        (if s2.excluded env2 path then st2 else st2.emit (.ShowStatus path), none) := by
    intro env2 s2 st2 info2 fp2 hget hm hs hm2 hs2
    have hadd : (st2.emit (.ShowStatus path)).cache.AddEntry path
        = ((st2.emit (.ShowStatus path)).cache, fp2) :=
      Cache.AddEntry_of_get? (by simpa [ScanState.emit] using hget)
    by_cases hex : s2.excluded env2 path = true
    · simp [Scanner.CheckRemote, hex]
    · simp [Scanner.CheckRemote, hex, hadd, hm, hs, hm2, hs2]
  have hex : s.excluded env path = false := by
    by_contra hne
    simp [Scanner.CheckRemote, hne] at hfail
  have first : ∃ fp, (s.CheckRemote env st path info).1.cache.get? path = some fp ∧
      fp.Remote.ModTime = info.ModTime ∧ fp.Remote.Size = info.Size ∧
      fp.Remote.Hash = [] ∧ fp.Remote.Changed = true := by
    revert hfail
    unfold Scanner.CheckRemote
    rcases ha : st.cache.AddEntry path with ⟨cache, ent⟩
    rcases hc : ioCopy (s.newHash env path) (s.Conn.Retrieve (env.Join s.Remote path)) with
      ⟨hash, _ | e⟩ <;>
    · simp only [ScanState.emit, ha, hc, hex]
      split_ifs <;> simp [Cache.get?_set_same]
  refine ⟨first, ?_, later⟩
  obtain ⟨fp, hget, hm, hs, -, -⟩ := first
  rw [later env s _ info fp hget hm hs rfl rfl]
  simp [hex]

/-- C27 at `logo.png`, which the server lists and fails to deliver. -/
theorem failed_fetch_not_retried_witness :
    (newScanner logoEnv logoConn).CheckRemote logoEnv
        ((newScanner logoEnv logoConn).CheckRemote logoEnv { cache := {} } "logo.png"
          { Name := "logo.png", ModTime := 4, Size := 9 }).1 "logo.png"
        { Name := "logo.png", ModTime := 4, Size := 9 } =
      (((newScanner logoEnv logoConn).CheckRemote logoEnv { cache := {} } "logo.png"
          { Name := "logo.png", ModTime := 4, Size := 9 }).1.emit (.ShowStatus "logo.png"),
        none) :=
  (failed_fetch_not_retried logoEnv (newScanner logoEnv logoConn) { cache := {} } "logo.png"
    { Name := "logo.png", ModTime := 4, Size := 9 } (.Os (.Fail "connection reset"))
    (by decide!)).2.1

/-- C28: let a local file be one that is not excluded and has to be hashed
again, and let opening it fail with `e`. Then `CheckLocal` returns `e`, and
the entry has `Local.Changed` true, the modification time and the size found,
and the local digest and the remote side it had before. A later `CheckLocal`
of the path that finds the same modification time and size, by any scanner
and whether or not the file can then be opened, returns no error and the
state it was given: the digest stays. Had the file been opened and its
reading failed, the digest would have been cleared. -/
theorem CheckLocal_open_failed (env : Env) (s : Scanner) (st : ScanState) (path : String)
    (info : OsFileInfo) (e : OsError)
    (hex : s.excluded env path = false)
    (hdiff : (st.cache.AddEntry path).2.Local.ModTime ≠ info.ModTime ∨
      (st.cache.AddEntry path).2.Local.Size ≠ info.Size)
    (hopen : env.Open (env.Join s.Local path) = .error e) :
    (s.CheckLocal env st path info).2 = some (.Os e) ∧
      (s.CheckLocal env st path info).1.cache.get? path =
        some
          { Local :=
              { IsDir := (st.cache.AddEntry path).2.Local.IsDir, Changed := true,
                ModTime := info.ModTime, Size := info.Size,
                Hash := (st.cache.AddEntry path).2.Local.Hash }
            Remote := (st.cache.AddEntry path).2.Remote } ∧
      (∀ (env2 : Env) (s2 : Scanner) (info2 : OsFileInfo),
        info2.ModTime = info.ModTime → info2.Size = info.Size →
        s2.CheckLocal env2 (s.CheckLocal env st path info).1 path info2 =
          ((s.CheckLocal env st path info).1, none)) ∧
      ∀ (env2 : Env) (f : Reader) (e2 : OsError),
        s.excluded env2 path = false → env2.Open (env2.Join s.Local path) = .ok f →
        f.err = some e2 →
        ∃ ent, (s.CheckLocal env2 st path info).1.cache.get? path = some ent ∧
          ent.Local.Hash = [] := by
  have hget : (s.CheckLocal env st path info).1.cache.get? path =
      some
        { Local :=
            { IsDir := (st.cache.AddEntry path).2.Local.IsDir, Changed := true,
              ModTime := info.ModTime, Size := info.Size,
              Hash := (st.cache.AddEntry path).2.Local.Hash }
          Remote := (st.cache.AddEntry path).2.Remote } := by
    rcases ha : st.cache.AddEntry path with ⟨cache, ent⟩
    rw [ha] at hdiff
    simp only at hdiff
    simp [Scanner.CheckLocal, hex, ha, hdiff, hopen, ScanState.emit, Cache.get?_set_same]
  refine ⟨?_, hget, fun env2 s2 info2 hm hs => ?_, fun env2 f e2 hex2 ho hr => ?_⟩
  · rcases ha : st.cache.AddEntry path with ⟨cache, ent⟩
    rw [ha] at hdiff
    simp only at hdiff
    simp [Scanner.CheckLocal, hex, ha, hdiff, hopen]
  · generalize (s.CheckLocal env st path info).1 = st1 at hget ⊢
    by_cases hex2 : s2.excluded env2 path = true
    · simp [Scanner.CheckLocal, hex2]
    · simp [Scanner.CheckLocal, hex2, Cache.AddEntry_of_get? hget, hm, hs]
  · exact (CheckLocal_read_failed env2 s st path info f e2 hex2 hdiff ho hr).2

/-- C28 at `index.html`, stored with modification time 3 and found with 7,
at a site where it cannot be opened. -/
theorem CheckLocal_open_failed_witness :
    ((newScanner lockedEnv (pageConn 9 { chunks := [page] })).CheckLocal lockedEnv
        { cache := pageCache 3 } "index.html" pageInfo).2
        = some (.Os (.Fail "permission denied")) ∧
      ((newScanner lockedEnv (pageConn 9 { chunks := [page] })).CheckLocal lockedEnv
          { cache := pageCache 3 } "index.html" pageInfo).1.cache.get? "index.html" =
        some
          { Local := { Changed := true, ModTime := 7, Size := 5, Hash := md5Sum (ascii "a\nb") }
            Remote :=
              { Changed := true, ModTime := 9, Size := 5, Hash := md5Sum (ascii "a\nb") } } := by
  have h := CheckLocal_open_failed lockedEnv (newScanner lockedEnv (pageConn 9 { chunks := [page] }))
    { cache := pageCache 3 } "index.html" pageInfo (.Fail "permission denied")
    (by decide!) (by decide!) rfl
  exact ⟨h.1, h.2.1.trans (by decide!)⟩

/-- C29: for a folder that is not excluded, `EnterFolder` leaves the entry of
the folder with the local side `IsDir` true, `Changed` false, the
modification time found, size 0 and no digest, whatever the side held before
and whatever the listing holds. When the remote listing is `pre ++ inf ::
post`, `inf` being a folder that is not excluded and that no later item
names again, the entry of `inf` ends with the remote side `IsDir` true,
`Changed` false, the modification time listed, size 0 and no digest; and if
the cache had no entry for it, and no earlier item names it, its local side
is that of a new entry, `Changed` true. When the cache had no entry for the
folder entered and no item of the listing, if there is one, names the folder
itself, its entry ends with `Local.Changed` false and the remote side of a new
entry, `Changed` true. -/
theorem EnterFolder_overwrites_sides (env : Env) (s : Scanner) (st : ScanState)
    (path : String) (info : OsFileInfo)
    (hex : s.excluded env path = false) :
    (∃ fp, (s.EnterFolder env st path info).1.cache.get? path = some fp ∧
        fp.Local =
          { IsDir := true, Changed := false, ModTime := info.ModTime, Size := 0, Hash := [] }) ∧
      (∀ (pre post : List OsFileInfo) (inf : OsFileInfo),
        s.Conn.ReadDir (env.Join s.Remote path) = .ok (pre ++ inf :: post) →
        inf.IsDir = true → s.excluded env (env.Join path inf.Name) = false →
        (∀ i ∈ post, env.Join path i.Name ≠ env.Join path inf.Name) →
        ∃ fp, (s.EnterFolder env st path info).1.cache.get? (env.Join path inf.Name) = some fp ∧
          fp.Remote =
            { IsDir := true, Changed := false, ModTime := inf.ModTime, Size := 0, Hash := [] } ∧
          (st.cache.get? (env.Join path inf.Name) = none → env.Join path inf.Name ≠ path →
            (∀ i ∈ pre, env.Join path i.Name ≠ env.Join path inf.Name) →
            fp.Local = newEntry.Local ∧ fp.Local.Changed = true)) ∧
      (st.cache.get? path = none →
        (∀ dir, s.Conn.ReadDir (env.Join s.Remote path) = .ok dir →
          ∀ i ∈ dir, env.Join path i.Name ≠ path) →
        ∃ fp, (s.EnterFolder env st path info).1.cache.get? path = some fp ∧
          fp.Local.Changed = false ∧ fp.Remote = newEntry.Remote ∧
          fp.Remote.Changed = true) := by
  have hfs := folderState_entry env s st path info
  refine ⟨?_, fun pre post inf hdir hd hexi hpost => ?_, fun hn hself => ?_⟩
  · rcases hr : s.Conn.ReadDir (env.Join s.Remote path) with err | dir
    · rw [EnterFolder_failed env s st path info err hex hr]
      exact ⟨_, hfs, rfl⟩
    · rw [EnterFolder_listed env s st path info dir hex hr]
      obtain ⟨fp, h1, h2⟩ := foldl_remoteEntry_keeps_Local env s path dir _ path _ hfs
      exact ⟨fp, h1, h2⟩
  · rw [EnterFolder_listed env s st path info _ hex hdir]
    simp only [List.foldl_append, List.foldl_cons]
    rw [foldl_remoteEntry_get?_ne env s path post _ hpost,
      remoteEntry_folder env s path _ inf hd hexi]
    refine ⟨_, rfl, rfl, fun hn hne hpre => ?_⟩
    have habs : (pre.foldl (s.remoteEntry env path) (s.folderState env st path info)).cache.get?
        (env.Join path inf.Name) = none := by
      rw [foldl_remoteEntry_get?_ne env s path pre _ hpre,
        folderState_get?_ne env s st path info hne, hn]
    rw [Cache.AddEntry_of_none habs]
    exact ⟨rfl, rfl⟩
  · have hfs2 : (s.folderState env st path info).cache.get? path =
        some { newEntry with Local := { IsDir := true, ModTime := info.ModTime, Size := 0 } } := by
      rw [hfs, Cache.AddEntry_of_none hn]
    rcases hr : s.Conn.ReadDir (env.Join s.Remote path) with err | dir
    · rw [EnterFolder_failed env s st path info err hex hr]
      exact ⟨_, hfs2, rfl, rfl, rfl⟩
    · rw [EnterFolder_listed env s st path info dir hex hr]
      simp only
      rw [foldl_remoteEntry_get?_ne env s path dir _ (hself dir hr)]
      exact ⟨_, hfs2, rfl, rfl, rfl⟩

/-- C29 at the root of a site whose server lists the folder `img`, which the
cache does not hold: the root ends with the local side of a folder, `img`
with the remote side of a folder and `Local.Changed` true. -/
theorem EnterFolder_overwrites_sides_witness :
    (((newScanner imgEnv imgConn).EnterFolder imgEnv { cache := {} } "." rootInfo).1.cache.get?
        ".").map (fun fp => fp.Local) =
        some { IsDir := true, Changed := false, ModTime := 3, Size := 0, Hash := [] } ∧
      ((newScanner imgEnv imgConn).EnterFolder imgEnv { cache := {} } "." rootInfo).1.cache.get?
          "img" =
        some
          { Local := { Changed := true }
            Remote := { IsDir := true, Changed := false, ModTime := 5, Size := 0, Hash := [] } } := by
  have h := EnterFolder_overwrites_sides imgEnv (newScanner imgEnv imgConn) { cache := {} } "."
    rootInfo (by decide!)
  refine ⟨?_, ?_⟩
  · obtain ⟨fp, h1, h2⟩ := h.1
    rw [h1, Option.map_some', h2]
    rfl
  · obtain ⟨fp, h1, h2, h3⟩ := h.2.1 [] [] { Name := "img", IsDir := true, ModTime := 5 }
      rfl rfl (by decide!) (by simp)
    have h4 := (h3 (by decide!) (by decide!) (by simp)).1
    have h5 : imgEnv.Join "." "img" = "img" := by decide!
    rw [h5] at h1
    rw [h1]
    cases fp
    simp only at h2 h4
    rw [h2, h4]
    rfl

/-! ## The configuration check, the report and the reload -/

/-- C22: `Check` returns an error exactly when the source, the remote host or
the name of the cache file is empty, and the first of the three that is empty
gives the message. When it returns an error, `beginScan` starts no scan and
leaves the scan state and the cache as they were, so an idle window stays
idle; from an idle window it shows that error. -/
theorem Check_fails_no_scan (env : Env) (w : MainWindow) :
    (env.Config.Check.isSome ↔
        env.Config.Source = "" ∨ env.Config.RemoteHost = "" ∨ env.Config.CacheFile = "") ∧
      (env.Config.Source = "" →
        env.Config.Check = some (.New "No source configured for scan")) ∧
      (env.Config.Source ≠ "" → env.Config.RemoteHost = "" →
        env.Config.Check = some (.New "No remote server configured for scan")) ∧
      (env.Config.Source ≠ "" → env.Config.RemoteHost ≠ "" → env.Config.CacheFile = "" →
        env.Config.Check = some (.New "Cache file name must not be blank")) ∧
      (env.Config.Check ≠ none →
        (w.beginScan env).scanState = w.scanState ∧ (w.beginScan env).starts = w.starts ∧
          (w.beginScan env).cache = w.cache ∧
          (w.scanState = Scanner__Idle → (w.beginScan env).scanState = Scanner__Idle) ∧
          (w.scanState = Scanner__Idle → ∃ err, env.Config.Check = some err ∧
            (w.beginScan env).ui = w.ui ++ [.showError "Scan" err])) := by
  refine ⟨?_, fun h => ?_, fun h1 h2 => ?_, fun h1 h2 h3 => ?_, fun hc => ?_⟩
  · unfold SiteConfig.Check
    split_ifs <;> simp_all
  · simp [SiteConfig.Check, h]
  · simp [SiteConfig.Check, h1, h2]
  · simp [SiteConfig.Check, h1, h2, h3]
  · rcases hch : env.Config.Check with _ | err
    · exact absurd hch hc
    · by_cases hi : w.scanState = Scanner__Idle
      · have hb : w.beginScan env = w.emit (.showError "Scan" err) := by
          simp [MainWindow.beginScan, hi, hch]
        rw [hb]
        refine ⟨rfl, ?_, rfl, fun h => h, fun _ => ⟨err, rfl, rfl⟩⟩
        simp [MainWindow.starts, MainWindow.emit, List.countP_append]
      · have hb : w.beginScan env = w := by simp [MainWindow.beginScan, hi]
        rw [hb]
        exact ⟨rfl, rfl, rfl, fun h => h, fun h => absurd h hi⟩

theorem resultRow_path (path : String) (fp : FilePrint) (row : Row)
    (h : resultRow path fp = some row) : row.path = path := by
  unfold resultRow at h
  split_ifs at h <;> simp at h <;> rw [← h]

theorem resultRow_isSome (path : String) (fp : FilePrint) :
    (resultRow path fp).isSome = (decide (path ≠ ".") && (fp.Local.Changed || fp.Remote.Changed)) := by
  unfold resultRow
  split_ifs <;> simp_all

theorem foldl_resultRow (cache : Cache) (l : List String) (init : List Row) :
    l.foldl
        (fun rows k =>
          match cache.get? k with
          | some fp =>
            match resultRow k fp with
            | some row => rows ++ [row]
            | none => rows
          | none => rows)
        init = init ++ l.filterMap fun k => (cache.get? k).bind (resultRow k) := by
  induction l generalizing init with
  | nil => simp
  | cons k rest ih =>
    rw [List.foldl_cons, ih]
    rcases hg : cache.get? k with _ | fp
    · simp [List.filterMap_cons, hg]
    · rcases hr : resultRow k fp with _ | row <;> simp [List.filterMap_cons, hg, hr]

theorem ShowResults_eq (cache : Cache) :
    ShowResults cache = cache.Keys.filterMap fun k => (cache.get? k).bind (resultRow k) :=
  (foldl_resultRow cache cache.Keys []).trans (List.nil_append _)

theorem map_path_filterMap (cache : Cache) (l : List String) :
    (l.filterMap fun k => (cache.get? k).bind (resultRow k)).map (fun row => row.path) =
      l.filter fun k =>
        decide (k ≠ ".") &&
          (cache.get? k).any fun fp => fp.Local.Changed || fp.Remote.Changed := by
  induction l with
  | nil => rfl
  | cons k rest ih =>
    rcases hg : cache.get? k with _ | fp
    · simp [List.filterMap_cons, List.filter_cons, hg, ih]
    · have hs := resultRow_isSome k fp
      rcases hr : resultRow k fp with _ | row
      · rw [hr] at hs
        have hs2 : (decide (k ≠ ".") && (fp.Local.Changed || fp.Remote.Changed)) = false := by
          simpa using hs.symm
        rw [List.filterMap_cons, List.filter_cons]
        simp only [hg, Option.some_bind, hr, Option.any_some, hs2]
        exact ih
      · rw [hr] at hs
        have hs2 : (decide (k ≠ ".") && (fp.Local.Changed || fp.Remote.Changed)) = true := by
          simpa using hs.symm
        rw [List.filterMap_cons, List.filter_cons]
        simp only [hg, Option.some_bind, hr, Option.any_some, hs2, List.map_cons, if_true]
        rw [resultRow_path k fp row hr]
        exact congrArg _ ih

/-- C25: the paths of the rows of `ShowResults`, in the order of the rows,
are the keys of the cache in their sorted order with those left out that are
`.` or whose fingerprint has neither `Local.Changed` nor `Remote.Changed`
set; the row of a path is the one the callback makes of its fingerprint. So
the paths of the rows are in strictly ascending order, a path that is not `.`
and whose fingerprint has one of the flags set has exactly one row, every
other path has none, and a fingerprint with both flags false makes no row. -/
theorem ShowResults_rows (cache : Cache) :
    ShowResults cache = (cache.Keys.filterMap fun k => (cache.get? k).bind (resultRow k)) ∧
      (ShowResults cache).map (fun row => row.path) =
        (cache.Keys.filter fun k =>
          decide (k ≠ ".") &&
            (cache.get? k).any fun fp => fp.Local.Changed || fp.Remote.Changed) ∧
      ((ShowResults cache).map fun row => row.path).Sorted (· < ·) ∧
      (∀ path : String,
        ((ShowResults cache).map fun row => row.path).count path =
          if path ≠ "." ∧ ∃ fp, cache.get? path = some fp ∧
              (fp.Local.Changed = true ∨ fp.Remote.Changed = true) then 1
          else 0) ∧
      ∀ (path : String) (fp : FilePrint),
        fp.Local.Changed = false → fp.Remote.Changed = false → resultRow path fp = none := by
  have hmap : (ShowResults cache).map (fun row => row.path) =
      (cache.Keys.filter fun k =>
        decide (k ≠ ".") &&
          (cache.get? k).any fun fp => fp.Local.Changed || fp.Remote.Changed) := by
    rw [ShowResults_eq]
    exact map_path_filterMap cache cache.Keys
  have hsorted : ((ShowResults cache).map fun row => row.path).Sorted (· < ·) := by
    rw [hmap]
    exact (Cache.Keys_sorted cache).filter _
  refine ⟨ShowResults_eq cache, hmap, hsorted, fun path => ?_, fun path fp hl hr => ?_⟩
  · have hnd : ((ShowResults cache).map fun row => row.path).Nodup := hsorted.nodup
    have hmem : path ∈ ((ShowResults cache).map fun row => row.path) ↔
        (path ≠ "." ∧ ∃ fp, cache.get? path = some fp ∧
          (fp.Local.Changed = true ∨ fp.Remote.Changed = true)) := by
      rw [hmap, List.mem_filter, Cache.mem_Keys]
      rcases hg : cache.get? path with _ | fp <;> simp
    split_ifs with h
    · exact List.count_eq_one_of_mem hnd (hmem.mpr h)
    · exact List.count_eq_zero_of_not_mem fun hm => h (hmem.mp hm)
  · have := resultRow_isSome path fp
    rw [hl, hr] at this
    simpa using this

theorem LoadCache_error (env : Env) (Decode : Reader → Cache → Cache × Option OsError)
    (err : Error) (h : (LoadCache env Decode).2 = some err) :
    LoadCache env Decode = (none, some err) := by
  revert h
  rcases ho : env.Open (NewCache env).path with e | f
  · by_cases hn : IsNotExist e = true <;> simp [LoadCache, ho, hn]
  · rcases hd : Decode f (NewCache env) with ⟨c, _ | e⟩ <;> simp [LoadCache, ho, hd]

theorem starts_emit_StartScan (w : MainWindow) :
    (w.emit .StartScan).starts = w.starts + 1 := by
  simp [MainWindow.starts, MainWindow.emit, List.countP_append]

/-- C30: at a site with a source, when `LoadCache` returns an error, `refresh`
leaves the window with the `nil` cache pointer, whatever cache it held; it
shows the error and gives the report no model, and the scan state is as it
was. `beginScan` on an idle window with a configuration that passes `Check`
starts a scan whatever the pointer is, and leaves the pointer as it is: after
the failed reload it starts a scan with the `nil` pointer. -/
theorem refresh_failed_nil_cache (env : Env) (Decode : Reader → Cache → Cache × Option OsError)
    (w : MainWindow) (err : Error)
    (hsrc : env.Config.Source ≠ "")
    (hload : (LoadCache env Decode).2 = some err) :
    (w.refresh env Decode).handle = none ∧
      (w.refresh env Decode).ui = w.ui ++ [.showError "Load cache" err] ∧
      (w.refresh env Decode).models = w.models ∧
      (w.refresh env Decode).scanState = w.scanState ∧
      (∀ w2 : MainWindow, w2.scanState = Scanner__Idle → env.Config.Check = none →
        (w2.beginScan env).scanState = Scanner__Active ∧
          (w2.beginScan env).starts = w2.starts + 1 ∧
          (w2.beginScan env).handle = w2.handle) ∧
      (w.scanState = Scanner__Idle → env.Config.Check = none →
        ((w.refresh env Decode).beginScan env).scanState = Scanner__Active ∧
          ((w.refresh env Decode).beginScan env).starts = w.starts + 1 ∧
          ((w.refresh env Decode).beginScan env).handle = none) := by
  have hr : w.refresh env Decode =
      ({ w with cacheNil := true } : MainWindow).emit (.showError "Load cache" err) := by
    simp [MainWindow.refresh, hsrc, LoadCache_error env Decode err hload, MainWindow.setCache]
  have hb : ∀ w2 : MainWindow, w2.scanState = Scanner__Idle → env.Config.Check = none →
      w2.beginScan env = ({ w2 with scanState := Scanner__Active } : MainWindow).emit .StartScan := by
    intro w2 hi hc
    simp [MainWindow.beginScan, hi, hc]
  have hstarts : (w.refresh env Decode).starts = w.starts := by
    rw [hr]
    simp [MainWindow.starts, MainWindow.emit, List.countP_append]
  refine ⟨?_, ?_, ?_, ?_, fun w2 hi hc => ?_, fun hi hc => ?_⟩
  · rw [hr]; rfl
  · rw [hr]; rfl
  · rw [hr]
    simp [MainWindow.models, MainWindow.emit, List.countP_append]
  · rw [hr]; rfl
  · rw [hb w2 hi hc]
    exact ⟨rfl, starts_emit_StartScan _, rfl⟩
  · have hi2 : (w.refresh env Decode).scanState = Scanner__Idle := by rw [hr]; exact hi
    rw [hb _ hi2 hc]
    refine ⟨rfl, ?_, ?_⟩
    · rw [starts_emit_StartScan]
      exact congrArg (· + 1) hstarts
    · rw [hr]; rfl

/-- C30 at a site whose cache file is cut short, for a window that shows the
report of the last scan: the pointer is `nil`, the report was given no new
model, and a scan is started. -/
theorem refresh_failed_nil_cache_witness :
    (shownWindow.refresh (storedEnv { chunks := [[1, 2]] }) brokenDecode).handle = none ∧
      (shownWindow.refresh (storedEnv { chunks := [[1, 2]] }) brokenDecode).models = 1 ∧
      ((shownWindow.refresh (storedEnv { chunks := [[1, 2]] }) brokenDecode).beginScan
          (storedEnv { chunks := [[1, 2]] })).scanState = Scanner__Active ∧
      ((shownWindow.refresh (storedEnv { chunks := [[1, 2]] }) brokenDecode).beginScan
          (storedEnv { chunks := [[1, 2]] })).handle = none := by
  have h := refresh_failed_nil_cache (storedEnv { chunks := [[1, 2]] }) brokenDecode shownWindow
    (.Os (.Fail "unexpected EOF")) (by decide) rfl
  have h2 := h.2.2.2.2.2 rfl rfl
  exact ⟨h.1, h.2.2.1.trans rfl, h2.1, h2.2.2⟩

/-! ## Pattern files, the viewer and the cache file -/

theorem expandExclude_eq (env : Env) (xs : List String) :
    expandExclude env xs = xs.flatMap (excludeEntry env) := by
  induction xs with
  | nil => rfl
  | cons x rest ih =>
    rw [List.flatMap_cons, ← ih, expandExclude]
    by_cases hx : x.data.head? = some '@'
    · simp only [hx, if_true, excludeEntry, patternFile]
      rcases env.Lines _ with _ | lines <;> rfl
    · simp only [hx, if_false, excludeEntry]
      rfl

theorem dropCR_of_ne (line : List Char) (h : line.getLast? ≠ some '\r') : dropCR line = line := by
  simp [dropCR, h]

theorem scanLinesFrom_line (cur line rest : List Char) (h : '\n' ∉ line) :
    scanLinesFrom cur (line ++ '\n' :: rest) =
      String.mk (dropCR (cur ++ line)) :: scanLinesFrom [] rest := by
  induction line generalizing cur with
  | nil => simp [scanLinesFrom]
  | cons c cs ih =>
    have hc : c ≠ '\n' := fun hc => h (by simp [hc])
    have hcs : '\n' ∉ cs := fun hm => h (List.mem_cons_of_mem _ hm)
    rw [List.cons_append, scanLinesFrom, if_neg hc, ih _ hcs]
    simp

theorem scanLinesFrom_lines (lines : List String)
    (h : ∀ l ∈ lines, '\n' ∉ l.data ∧ l.data.getLast? ≠ some '\r') :
    scanLinesFrom [] (lines.flatMap fun l => l.data ++ ['\n']) = lines := by
  induction lines with
  | nil => simp [scanLinesFrom]
  | cons l rest ih =>
    have hl := h l (List.mem_cons_self _ _)
    rw [List.flatMap_cons, List.append_assoc, List.singleton_append,
      scanLinesFrom_line [] l.data _ hl.1, List.nil_append, dropCR_of_ne _ hl.2,
      ih fun l' hl' => h l' (List.mem_cons_of_mem _ hl')]

/-- C23, the claim at a pattern file with an empty line: with the exclusion
string `@skip.lst|*.tmp` and the three lines `*.log`, an empty one and `*.bak`
in the file, the resolved list holds the empty string as a pattern, between
the patterns of the lines around it. -/
theorem expandExclude_keeps_empty_line :
    (newScanner (patternEnv "*.log\n\n*.bak\n") (siteConn [] fun _ => { chunks := [] })).Exclude
        = ["skip.lst", "*.log", "", "*.bak", "*.tmp"] ∧
      scanLines "*.log\n\n*.bak\n" = ["*.log", "", "*.bak"] ∧
      "" ∈ (newScanner (patternEnv "*.log\n\n*.bak\n")
        (siteConn [] fun _ => { chunks := [] })).Exclude := by
  decide!

/-- C23: the resolved list is made of what the entries of the exclusion
string add to it, entry by entry in their order: an entry that does not start
with `@` adds itself; an entry `@file` adds the name of the file and then all
the lines the line scanner yields for the file, in their order, or the name
alone when the file cannot be opened. The scanner yields every line of a
text of lines that end in a line feed, the empty ones as well as the others,
so that an empty line of a pattern file is a pattern of the resolved list. -/
theorem expandExclude_all_lines (env : Env) (conn : FTPConn) :
    (newScanner env conn).Exclude = (splitBar env.Config.Exclude).flatMap (excludeEntry env) ∧
      (∀ x : String, x.data.head? ≠ some '@' → excludeEntry env x = [x]) ∧
      (∀ (x : String) (lines : List String), x.data.head? = some '@' →
        env.Lines (patternFile env (String.mk (x.data.drop 1))) = some lines →
        excludeEntry env x = String.mk (x.data.drop 1) :: lines) ∧
      (∀ x : String, x.data.head? = some '@' →
        env.Lines (patternFile env (String.mk (x.data.drop 1))) = none →
        excludeEntry env x = [String.mk (x.data.drop 1)]) ∧
      ∀ lines : List String, (∀ l ∈ lines, '\n' ∉ l.data ∧ l.data.getLast? ≠ some '\r') →
        scanLines (String.mk (lines.flatMap fun l => l.data ++ ['\n'])) = lines := by
  refine ⟨expandExclude_eq env _, fun x hx => ?_, fun x lines hx hl => ?_, fun x hx hl => ?_,
    fun lines h => scanLinesFrom_lines lines h⟩
  · simp [excludeEntry, hx]
  · simp only [excludeEntry, hx, if_true, hl, Option.getD_some]
  · simp only [excludeEntry, hx, if_true, hl, Option.getD_none]

theorem ViewFile_ok (env : Env) (d : DiffMatchPatch) (path : String) (shown : String × List Diff)
    (h : ViewFile env d path = .ok shown) :
    ∃ text1 buf : List Byte, shown = (path, (d.DiffCleanupSemantic (d.DiffMain text1 buf)).2) := by
  revert h
  unfold ViewFile
  rcases env.Dial with e | conn
  · simp
  · simp only
    rcases (conn.Retrieve (env.Join env.Config.RemotePath path)).err with _ | e
    · simp only
      rcases env.Open (env.Join env.Config.Source path) with e | f
      · simp
      · simp only
        rcases f.err with _ | e
        · simp only
          intro h
          injection h with h
          exact ⟨_, _, h.symm⟩
        · simp
    · simp

theorem ViewFile_mouse (left : List Diff) :
    ViewFile mouseEnv (mouseLib left) "a.txt" =
      .ok ("a.txt", ((mouseLib left).DiffCleanupSemantic mouseRaw).2) := rfl

/-- C24: what `ViewFile` hands to the viewer is the slice it handed to the
cleanup, as the cleanup left it, and not the slice the cleanup returned: for
every library and every file that is shown, the fragments handed over are
as many as those of the raw diff of the local text against the remote one.
For the local text `mouse` and the remote text `sofas` the raw diff has seven
fragments and the cleanup returns two, the deletion of `mouse` and the
insertion of `sofas`; whatever the cleanup leaves in the slice of its caller,
what is handed to the viewer is not what the cleanup returned, and if it
leaves the slice as it was, it is the raw diff. -/
theorem ViewFile_drops_cleanup :
    (∀ (env : Env) (d : DiffMatchPatch) (path : String) (shown : String × List Diff),
        ViewFile env d path = .ok shown →
        ∃ text1 buf : List Byte,
          shown.2 = (d.DiffCleanupSemantic (d.DiffMain text1 buf)).2 ∧
            shown.2.length = (d.DiffMain text1 buf).length) ∧
      (∀ left : List Diff,
        ((mouseLib left).DiffCleanupSemantic
          ((mouseLib left).DiffMain (ascii "mouse") (ascii "sofas"))).1 = mouseClean ∧
        ∃ handed, ViewFile mouseEnv (mouseLib left) "a.txt" = .ok ("a.txt", handed) ∧
          handed.length = 7 ∧ handed ≠ mouseClean) ∧
      ViewFile mouseEnv (mouseLib mouseRaw) "a.txt" = .ok ("a.txt", mouseRaw) := by
  refine ⟨fun env d path shown h => ?_, fun left => ⟨rfl, _, ViewFile_mouse left, ?_, ?_⟩, rfl⟩
  · obtain ⟨text1, buf, rfl⟩ := ViewFile_ok env d path shown h
    exact ⟨text1, buf, rfl, d.keeps _⟩
  · exact (mouseLib left).keeps mouseRaw
  · intro h
    have h7 := (mouseLib left).keeps mouseRaw
    rw [h] at h7
    exact absurd h7 (by decide)

/-! ## The `gob` stream read back -/

theorem toNat_ofNat_lt {n : Nat} (h : n < 256) : (UInt8.ofNat n).toNat = n :=
  UInt8.toNat_ofNat_of_lt h

theorem bigEndian_cons_zero (l : List Byte) : bigEndian ((0 : Byte) :: l) = bigEndian l := by
  simp [bigEndian]

theorem bigEndian_dropWhile (l : List Byte) :
    bigEndian (l.dropWhile fun b => b = 0) = bigEndian l := by
  induction l with
  | nil => rfl
  | cons b l ih =>
    by_cases hb : b = 0
    · subst hb
      rw [List.dropWhile_cons_of_pos (by simp), ih, bigEndian_cons_zero]
    · rw [List.dropWhile_cons_of_neg (by simpa using hb)]

theorem bigEndian_PutUint64 (x : Nat) (h : x < 18446744073709551616) :
    bigEndian (PutUint64 x) = x := by
  simp only [bigEndian, PutUint64, List.foldl_cons, List.foldl_nil]
  rw [toNat_ofNat_lt (Nat.mod_lt _ (by norm_num)), toNat_ofNat_lt (Nat.mod_lt _ (by norm_num)),
    toNat_ofNat_lt (Nat.mod_lt _ (by norm_num)), toNat_ofNat_lt (Nat.mod_lt _ (by norm_num)),
    toNat_ofNat_lt (Nat.mod_lt _ (by norm_num)), toNat_ofNat_lt (Nat.mod_lt _ (by norm_num)),
    toNat_ofNat_lt (Nat.mod_lt _ (by norm_num)), toNat_ofNat_lt (Nat.mod_lt _ (by norm_num))]
  omega

theorem bigEndian_PutUint32 (x : Nat) (h : x < 4294967296) :
    bigEndian (PutUint32 x) = x := by
  simp only [bigEndian, PutUint32, List.foldl_cons, List.foldl_nil]
  rw [toNat_ofNat_lt (Nat.mod_lt _ (by norm_num)), toNat_ofNat_lt (Nat.mod_lt _ (by norm_num)),
    toNat_ofNat_lt (Nat.mod_lt _ (by norm_num)), toNat_ofNat_lt (Nat.mod_lt _ (by norm_num))]
  omega

theorem encodeUint_ne_nil (x : Nat) (l : List Byte) : encodeUint x ++ l ≠ [] := by
  unfold encodeUint
  split_ifs <;> simp

theorem decodeUint_encodeUint (x : Nat) (h : x < 18446744073709551616) (rest : List Byte) :
    decodeUint (encodeUint x ++ rest) = some (x, rest) := by
  unfold encodeUint
  by_cases hx : x ≤ 0x7F
  · have hb : (UInt8.ofNat x).toNat = x := toNat_ofNat_lt (by omega)
    simp [hx, decodeUint, hb]
  · have hval : bigEndian ((PutUint64 x).dropWhile fun b => b = 0) = x := by
      rw [bigEndian_dropWhile, bigEndian_PutUint64 x h]
    have hle : ((PutUint64 x).dropWhile fun b => b = 0).length ≤ 8 :=
      (List.dropWhile_sublist _).length_le.trans (by simp [PutUint64])
    have hpos : 0 < ((PutUint64 x).dropWhile fun b => b = 0).length := by
      apply List.length_pos.mpr
      intro hd
      rw [hd] at hval
      simp only [bigEndian, List.foldl_nil] at hval
      omega
    generalize (PutUint64 x).dropWhile (fun b => b = 0) = bytes at hval hle hpos
    have hb : (UInt8.ofNat (256 - bytes.length)).toNat = 256 - bytes.length :=
      toNat_ofNat_lt (by omega)
    simp only [hx, if_false, List.cons_append, decodeUint, hb]
    have h1 : ¬ 256 - bytes.length ≤ 0x7F := by omega
    have h2 : 256 - (256 - bytes.length) = bytes.length := by omega
    have h3 : ¬ bytes.length > 8 := by omega
    have h4 : ¬ (bytes ++ rest).length < bytes.length := by simp
    simp only [h1, if_false, h2, h3, h4, List.take_left', List.drop_left', hval]

theorem decodeInt_encodeInt (i : Int) (h : fitsInt64 i) (rest : List Byte) :
    decodeInt (encodeInt i ++ rest) = some (i, rest) := by
  unfold fitsInt64 at h
  unfold decodeInt encodeInt
  by_cases hi : i < 0
  · simp only [hi, if_true]
    rw [decodeUint_encodeUint _ (by omega)]
    simp only [Option.map_some']
    have h1 : (2 * (-i - 1) + 1).toNat % 2 = 1 := by omega
    simp only [h1, if_true]
    congr 2
    omega
  · simp only [hi, if_false]
    rw [decodeUint_encodeUint _ (by omega)]
    simp only [Option.map_some']
    have h1 : ¬ (2 * i).toNat % 2 = 1 := by omega
    simp only [h1, if_false]
    congr 2
    omega

theorem decodeBytes_encodeBytes (p : List Byte) (h : p.length < tooBig) (rest : List Byte) :
    decodeBytes (encodeBytes p ++ rest) = some (p, rest) := by
  unfold tooBig at h
  unfold decodeBytes encodeBytes
  rw [List.append_assoc, decodeUint_encodeUint _ (by omega)]
  have h1 : ¬ ((p ++ rest).length < p.length ∨ tooBig ≤ p.length) := by
    simp [tooBig]
    omega
  simp only [h1, if_false, List.take_left', List.drop_left']

theorem utf8Next_utf8Char (c : Char) (rest : List Byte) :
    utf8Next (utf8Char c ++ rest) = some (c, rest) := by
  have hv : c.toNat < 1114112 := by
    rcases c.valid with h | ⟨_, h⟩
    · exact Nat.lt_trans h (by decide)
    · exact h
  unfold utf8Char
  simp only
  by_cases h1 : c.toNat < 128
  · have hb : (UInt8.ofNat c.toNat).toNat = c.toNat := toNat_ofNat_lt (by omega)
    simp only [h1, if_true, List.singleton_append, utf8Next, hb, Char.ofNat_toNat]
  · by_cases h2 : c.toNat < 2048
    · have hb0 : (UInt8.ofNat (192 + c.toNat / 64)).toNat = 192 + c.toNat / 64 :=
        toNat_ofNat_lt (by omega)
      have hb1 : (UInt8.ofNat (128 + c.toNat % 64)).toNat = 128 + c.toNat % 64 :=
        toNat_ofNat_lt (by omega)
      have g1 : ¬ 192 + c.toNat / 64 < 128 := by omega
      have g2 : 192 + c.toNat / 64 < 224 := by omega
      have e : (192 + c.toNat / 64 - 192) * 64 + (128 + c.toNat % 64 - 128) = c.toNat := by
        omega
      simp only [h1, h2, if_true, if_false, List.cons_append, List.nil_append, utf8Next, hb0,
        hb1, g1, g2, e, Char.ofNat_toNat]
    · by_cases h3 : c.toNat < 65536
      · have hb0 : (UInt8.ofNat (224 + c.toNat / 4096)).toNat = 224 + c.toNat / 4096 :=
          toNat_ofNat_lt (by omega)
        have hb1 : (UInt8.ofNat (128 + c.toNat / 64 % 64)).toNat = 128 + c.toNat / 64 % 64 :=
          toNat_ofNat_lt (by omega)
        have hb2 : (UInt8.ofNat (128 + c.toNat % 64)).toNat = 128 + c.toNat % 64 :=
          toNat_ofNat_lt (by omega)
        have g1 : ¬ 224 + c.toNat / 4096 < 128 := by omega
        have g2 : ¬ 224 + c.toNat / 4096 < 224 := by omega
        have g3 : 224 + c.toNat / 4096 < 240 := by omega
        have e : (224 + c.toNat / 4096 - 224) * 4096 + (128 + c.toNat / 64 % 64 - 128) * 64 +
            (128 + c.toNat % 64 - 128) = c.toNat := by omega
        simp only [h1, h2, h3, if_true, if_false, List.cons_append, List.nil_append, utf8Next,
          hb0, hb1, hb2, g1, g2, g3, e, Char.ofNat_toNat]
      · have hb0 : (UInt8.ofNat (240 + c.toNat / 262144)).toNat = 240 + c.toNat / 262144 :=
          toNat_ofNat_lt (by omega)
        have hb1 : (UInt8.ofNat (128 + c.toNat / 4096 % 64)).toNat
            = 128 + c.toNat / 4096 % 64 := toNat_ofNat_lt (by omega)
        have hb2 : (UInt8.ofNat (128 + c.toNat / 64 % 64)).toNat = 128 + c.toNat / 64 % 64 :=
          toNat_ofNat_lt (by omega)
        have hb3 : (UInt8.ofNat (128 + c.toNat % 64)).toNat = 128 + c.toNat % 64 :=
          toNat_ofNat_lt (by omega)
        have g1 : ¬ 240 + c.toNat / 262144 < 128 := by omega
        have g2 : ¬ 240 + c.toNat / 262144 < 224 := by omega
        have g3 : ¬ 240 + c.toNat / 262144 < 240 := by omega
        have e : (240 + c.toNat / 262144 - 240) * 262144 +
            (128 + c.toNat / 4096 % 64 - 128) * 4096 + (128 + c.toNat / 64 % 64 - 128) * 64 +
            (128 + c.toNat % 64 - 128) = c.toNat := by omega
        simp only [h1, h2, h3, if_false, List.cons_append, List.nil_append, utf8Next,
          hb0, hb1, hb2, hb3, g1, g2, g3, e, Char.ofNat_toNat]

theorem utf8Char_length_pos (c : Char) : 0 < (utf8Char c).length := by
  unfold utf8Char
  simp only
  split_ifs <;> simp

theorem utf8CharsN_flatMap (l : List Char) (n : Nat) (h : l.length ≤ n) :
    utf8CharsN n (l.flatMap utf8Char) = l := by
  induction l generalizing n with
  | nil =>
    cases n with
    | zero => rfl
    | succ n => simp [utf8CharsN, utf8Next]
  | cons c l ih =>
    cases n with
    | zero => simp at h
    | succ n =>
      rw [List.flatMap_cons, utf8CharsN, utf8Next_utf8Char]
      simp only
      rw [ih n (by simpa using h)]

theorem length_le_flatMap_utf8Char (l : List Char) : l.length ≤ (l.flatMap utf8Char).length := by
  induction l with
  | nil => simp
  | cons c l ih =>
    rw [List.flatMap_cons, List.length_append, List.length_cons]
    have := utf8Char_length_pos c
    omega

theorem bytesString_stringBytes (s : String) : bytesString (stringBytes s) = s := by
  unfold bytesString stringBytes utf8Chars
  rw [utf8CharsN_flatMap _ _ (length_le_flatMap_utf8Char _)]

theorem UnmarshalBinary_MarshalBinary (t : Time) (h : fitsInt64 (t / 1000000000)) :
    UnmarshalBinary (MarshalBinary t) = some t := by
  unfold fitsInt64 at h
  have hs : bigEndian (PutUint64 (t / 1000000000 % 18446744073709551616).toNat)
      = (t / 1000000000 % 18446744073709551616).toNat :=
    bigEndian_PutUint64 _ (by omega)
  have hn : bigEndian (PutUint32 (t % 1000000000).toNat) = (t % 1000000000).toNat :=
    bigEndian_PutUint32 _ (by omega)
  have h8 : (PutUint64 (t / 1000000000 % 18446744073709551616).toNat).length = 8 := rfl
  have h4 : (PutUint32 (t % 1000000000).toNat).length = 4 := rfl
  have hm : MarshalBinary t =
      1 :: (PutUint64 (t / 1000000000 % 18446744073709551616).toNat ++
        (PutUint32 (t % 1000000000).toNat ++ [255, 255])) := rfl
  have hsec : int64 (t / 1000000000 % 18446744073709551616).toNat = t / 1000000000 := by
    unfold int64
    split_ifs <;> omega
  have hnsec : ((t % 1000000000).toNat : Int) = t % 1000000000 := by omega
  rw [hm]
  simp only [UnmarshalBinary, List.length_cons, List.length_append, h8, h4, List.length_nil,
    ne_eq, not_true_eq_false, if_false, List.take_left' h8, List.drop_left' h8,
    List.take_left' h4, hs, hn, hsec, hnsec]
  simp only [Option.some.injEq]
  exact Int.ediv_add_emod' t 1000000000

theorem decodeStruct_encodeStruct {α : Type} (n : Nat)
    (field : Nat → α → List Byte → Option (α × List Byte)) (store : Nat → α → α)
    (hn : n < 128) (fs : List (Option (List Byte))) :
    ∀ (i : Nat) (fieldnum : Int) (rounds : Nat) (v : α) (rest : List Byte),
      fieldnum < i → -1 ≤ fieldnum → i + fs.length = n → fs.length < rounds →
      (∀ (j : Nat) (value : List Byte), fs[j]? = some (some value) →
        ∀ (v : α) (r : List Byte), field (i + j) v (value ++ r) = some (store (i + j) v, r)) →
      decodeStruct n field rounds fieldnum v (encodeStruct fieldnum i fs ++ rest)
        = some (storeFields store i fs v, rest) := by
  induction fs with
  | nil =>
    intro i fieldnum rounds v rest _ _ _ hr _
    obtain ⟨r, rfl⟩ : ∃ r, rounds = r + 1 := ⟨rounds - 1, by simp at hr; omega⟩
    have h0 : decodeUint (encodeUint 0 ++ rest) = some (0, rest) :=
      decodeUint_encodeUint 0 (by norm_num) rest
    rw [encodeStruct, decodeStruct, if_neg (encodeUint_ne_nil 0 rest), h0]
    simp [storeFields]
  | cons f fs ih =>
    intro i fieldnum rounds v rest hlt hge hlen hr hdec
    rw [List.length_cons] at hlen hr
    have hdec' : ∀ (j : Nat) (value : List Byte), fs[j]? = some (some value) →
        ∀ (v : α) (r : List Byte),
          field (i + 1 + j) v (value ++ r) = some (store (i + 1 + j) v, r) := by
      intro j value hj v r
      have := hdec (j + 1) value (by simpa using hj) v r
      rwa [show i + (j + 1) = i + 1 + j by omega] at this
    rcases f with _ | value
    · rw [encodeStruct, storeFields]
      exact ih (i + 1) fieldnum rounds v rest (by omega) hge (by omega) (by omega) hdec'
    · obtain ⟨r, rfl⟩ : ∃ r, rounds = r + 1 := ⟨rounds - 1, by omega⟩
      have hd : decodeUint (encodeUint ((i : Int) - fieldnum).toNat ++
          (value ++ (encodeStruct i (i + 1) fs ++ rest)))
          = some (((i : Int) - fieldnum).toNat, value ++ (encodeStruct i (i + 1) fs ++ rest)) :=
        decodeUint_encodeUint _ (by omega) _
      have h1 : ¬ ((i : Int) - fieldnum).toNat = 0 := by omega
      have h2 : fieldnum + (((i : Int) - fieldnum).toNat : Int) = (i : Int) := by omega
      have h3 : ¬ ((i : Int) ≥ (n : Int)) := by omega
      have hf := hdec 0 value (by simp) v (encodeStruct i (i + 1) fs ++ rest)
      rw [Nat.add_zero] at hf
      rw [encodeStruct, storeFields, List.append_assoc, List.append_assoc, decodeStruct,
        if_neg (encodeUint_ne_nil _ _), hd]
      simp only [h1, if_false, h2, h3, Int.toNat_ofNat, hf]
      exact ih (i + 1) i r (store i v) rest (by omega) (by omega) (by omega) (by omega) hdec'

theorem storeFields_FileInfo (i v : FileInfo) :
    storeFields (storeFileInfo i) 0 (fieldsFileInfo i) v = mergeFileInfo i v := by
  rcases i with ⟨d, c, t, s, h⟩
  rcases v with ⟨d', c', t', s', h'⟩
  by_cases h1 : d = true <;> by_cases h2 : c = true <;> by_cases h3 : t = 0 <;>
    by_cases h4 : s = 0 <;> by_cases h5 : h.length > 0 <;>
    simp [fieldsFileInfo, storeFields, storeFileInfo, mergeFileInfo, h1, h2, h3, h4, h5]

theorem mergeFileInfo_zero (i : FileInfo) : mergeFileInfo i {} = i := by
  rcases i with ⟨d, c, t, s, h⟩
  simp only [mergeFileInfo]
  congr
  · cases d <;> rfl
  · cases c <;> rfl
  · by_cases h3 : t = 0 <;> simp [h3]
  · by_cases h4 : s = 0 <;> simp [h4]
  · cases h <;> simp

theorem decodeFileInfo_encodeFileInfo (i : FileInfo) (h : i.fits) (v : FileInfo)
    (rest : List Byte) :
    decodeFileInfo v (encodeFileInfo i ++ rest) = some (mergeFileInfo i v, rest) := by
  obtain ⟨hs, ht, hh⟩ := h
  unfold decodeFileInfo encodeFileInfo
  rw [decodeStruct_encodeStruct 5 decodeFileInfoField (storeFileInfo i) (by norm_num)
    (fieldsFileInfo i) 0 (-1) 6 v rest (by norm_num) (by norm_num) rfl
    (by simp [fieldsFileInfo]), storeFields_FileInfo]
  intro j value hj v r
  rw [Nat.zero_add]
  unfold fieldsFileInfo at hj
  rcases j with _ | _ | _ | _ | _ | j
  · simp only [List.getElem?_cons_zero, Option.some.injEq] at hj
    split_ifs at hj with hc
    · obtain rfl := Option.some.inj hj
      simp [decodeFileInfoField, decodeUint_encodeUint, storeFileInfo, hc]
  · simp only [List.getElem?_cons_succ, List.getElem?_cons_zero, Option.some.injEq] at hj
    split_ifs at hj with hc
    · obtain rfl := Option.some.inj hj
      simp [decodeFileInfoField, decodeUint_encodeUint, storeFileInfo, hc]
  · simp only [List.getElem?_cons_succ, List.getElem?_cons_zero, Option.some.injEq] at hj
    split_ifs at hj with hc
    · obtain rfl := Option.some.inj hj
      have hl : (MarshalBinary i.ModTime).length < tooBig := by
        simp [MarshalBinary, PutUint64, PutUint32, tooBig]
      simp [decodeFileInfoField, decodeBytes_encodeBytes _ hl,
        UnmarshalBinary_MarshalBinary _ ht, storeFileInfo]
  · simp only [List.getElem?_cons_succ, List.getElem?_cons_zero, Option.some.injEq] at hj
    split_ifs at hj with hc
    · obtain rfl := Option.some.inj hj
      simp [decodeFileInfoField, decodeInt_encodeInt _ hs, storeFileInfo]
  · simp only [List.getElem?_cons_succ, List.getElem?_cons_zero, Option.some.injEq] at hj
    split_ifs at hj with hc
    · obtain rfl := Option.some.inj hj
      simp [decodeFileInfoField, decodeBytes_encodeBytes _ hh, storeFileInfo]
  · simp at hj

theorem decodeFilePrint_encodeFilePrint (fp : FilePrint) (hl : fp.Local.fits)
    (hr : fp.Remote.fits) (rest : List Byte) :
    decodeFilePrint {} (encodeFilePrint fp ++ rest) = some (fp, rest) := by
  unfold decodeFilePrint encodeFilePrint
  rw [decodeStruct_encodeStruct 2 decodeFilePrintField (storeFilePrint fp) (by norm_num)
    [some (encodeFileInfo fp.Local), some (encodeFileInfo fp.Remote)] 0 (-1) 3 {} rest
    (by norm_num) (by norm_num) rfl (by simp)]
  · simp [storeFields, storeFilePrint, mergeFileInfo_zero]
  · intro j value hj v r
    rw [Nat.zero_add]
    rcases j with _ | _ | j
    · simp only [List.getElem?_cons_zero, Option.some.injEq] at hj
      subst hj
      simp [decodeFilePrintField, decodeFileInfo_encodeFileInfo _ hl, storeFilePrint]
    · simp only [List.getElem?_cons_succ, List.getElem?_cons_zero, Option.some.injEq] at hj
      subst hj
      simp [decodeFilePrintField, decodeFileInfo_encodeFileInfo _ hr, storeFilePrint]
    · simp at hj

theorem decodeEntries_flatMap (l : List (Σ _ : String, FilePrint))
    (h : ∀ e ∈ l, (stringBytes e.1).length < tooBig ∧ e.2.Local.fits ∧ e.2.Remote.fits)
    (cache : Cache) (rest : List Byte) :
    decodeEntries l.length cache
        ((l.flatMap fun e => encodeBytes (stringBytes e.1) ++ encodeFilePrint e.2) ++ rest)
      = some (l.foldl (fun c e => c.set e.1 e.2) cache, rest) := by
  induction l generalizing cache with
  | nil => rfl
  | cons e l ih =>
    obtain ⟨hk, hl, hr⟩ := h e (List.mem_cons_self _ _)
    rw [List.length_cons, List.flatMap_cons, decodeEntries, List.append_assoc, List.append_assoc,
      decodeBytes_encodeBytes _ hk]
    simp only
    rw [decodeFilePrint_encodeFilePrint _ hl hr]
    simp only [bytesString_stringBytes, List.foldl_cons]
    exact ih (fun e' he' => h e' (List.mem_cons_of_mem _ he')) _

theorem get?_foldl_set (l : List (Σ _ : String, FilePrint)) (hnd : l.NodupKeys) (cache : Cache)
    (path : String) :
    (l.foldl (fun c e => c.set e.1 e.2) cache).get? path =
      match l.dlookup path with
      | some fp => some fp
      | none => cache.get? path := by
  induction l generalizing cache with
  | nil => rfl
  | cons e l ih =>
    rcases e with ⟨k, fp⟩
    obtain ⟨hk, hl⟩ := List.nodupKeys_cons.mp hnd
    rw [List.foldl_cons, ih hl]
    by_cases hp : path = k
    · subst hp
      rw [List.dlookup_cons_eq, List.dlookup_eq_none.mpr hk]
      exact Cache.get?_set_same _ _ _
    · rw [List.dlookup_cons_ne _ _ hp]
      rcases l.dlookup path with _ | x
      · exact Cache.get?_set_ne _ _ hp
      · rfl

theorem gobValue_ne_nil (l : List (Σ _ : String, FilePrint)) : gobValue l ++ [] ≠ [] := by
  unfold gobValue
  rw [encodeStruct, List.append_assoc, List.append_assoc]
  exact encodeUint_ne_nil _ _

theorem gobDecode_gobValue (l : List (Σ _ : String, FilePrint))
    (hlen : l.length < 18446744073709551616)
    (hfit : ∀ e ∈ l, (stringBytes e.1).length < tooBig ∧ e.2.Local.fits ∧ e.2.Remote.fits)
    (into : Cache) :
    gobDecode { chunks := [gobValue l] } into =
      (l.foldl (fun c e => c.set e.1 e.2) into, none) := by
  have hc : ({ chunks := [gobValue l] } : Reader).content = gobValue l ++ [] := by
    simp [Reader.content]
  have key := decodeStruct_encodeStruct 1 decodeCacheField
    (fun _ c => l.foldl (fun c e => c.set e.1 e.2) c) (by norm_num)
    [some (encodeMap l)] 0 (-1) 2 into [] (by norm_num) (by norm_num) rfl
    (by simp) (by
      intro j value hj v r
      rcases j with _ | j
      · simp only [List.getElem?_cons_zero, Option.some.injEq] at hj
        subst hj
        unfold decodeCacheField encodeMap
        rw [List.append_assoc, decodeUint_encodeUint _ hlen]
        exact decodeEntries_flatMap _ hfit v r
      · simp at hj)
  unfold gobDecode
  rw [hc, if_neg (gobValue_ne_nil l)]
  unfold gobValue
  rw [key]
  rfl

theorem gobDecode_range (cache : Cache) (h : cache.fits)
    (l : List (Σ _ : String, FilePrint)) (hp : l.Perm cache.FilePrints.entries) (into : Cache) :
    gobDecode { chunks := [gobValue l] } into =
        (l.foldl (fun c e => c.set e.1 e.2) into, none) ∧
      ∀ path, (l.foldl (fun c e => c.set e.1 e.2) into).get? path =
        match cache.get? path with
        | some fp => some fp
        | none => into.get? path := by
  obtain ⟨hlen, hfit⟩ := h
  have hnd : l.NodupKeys := (List.perm_nodupKeys hp).mpr cache.FilePrints.nodupKeys
  refine ⟨gobDecode_gobValue l (by rw [hp.length_eq]; exact hlen)
    (fun e he => hfit e (hp.mem_iff.mp he)) into, fun path => ?_⟩
  rw [get?_foldl_set l hnd into path,
    List.perm_dlookup path hnd cache.FilePrints.nodupKeys hp]
  rfl

theorem NewCache_get? (env : Env) (path : String) : (NewCache env).get? path = none := by
  simp [NewCache, Cache.get?]

theorem Keys_eq_of_get? (a b : Cache) (h : ∀ path, a.get? path = b.get? path) :
    a.Keys = b.Keys := by
  refine List.eq_of_perm_of_sorted ?_ (Cache.Keys_sorted a) (Cache.Keys_sorted b)
  refine (List.perm_ext_iff_of_nodup (Cache.Keys_nodup a) (Cache.Keys_nodup b)).mpr fun x => ?_
  rw [Cache.mem_Keys, Cache.mem_Keys, h]

/-- The values that the documentation of the package gives for the encoding:
the numbers 7 and 256, the integer -129, and the struct of the two integers
22 and 33. -/
theorem gob_documented_values :
    encodeUint 7 = [0x07] ∧ encodeUint 256 = [0xFE, 0x01, 0x00] ∧
      encodeInt (-129) = [0xFE, 0x01, 0x01] ∧
      encodeStruct (-1) 0 [some (encodeInt 22), some (encodeInt 33)]
        = [0x01, 0x2C, 0x01, 0x42, 0x00] := by
  decide!

/-- C21: let the configuration pass `Check`, let the cache be one of the
current site, so that its file is the one `NewCache` names, let the file be
created, and let the cache be one the Go types hold. Then `Write`, which
encodes the cache with `gob`, shows no error, in whatever order the map is
ranged over; and `LoadCache`, which decodes the file with `gob` into an empty
cache, returns in the world `Write` leaves no error and a cache with the same
keys that stores under every path the same fingerprint, all fields of both
sides alike. When the configuration does not pass `Check`, `Write` shows
nothing and leaves the world as it is. -/
theorem Write_then_LoadCache (env : Env) (Create : String → Option OsError)
    (range : Cache → List (Σ _ : String, FilePrint)) (cache : Cache)
    (hcheck : env.Config.Check = none)
    (hpath : cache.path = (NewCache env).path)
    (hcreate : Create cache.path = none)
    (hrange : (range cache).Perm cache.FilePrints.entries)
    (hfits : cache.fits) :
    (cache.Write env Create (gobEncode range)).2 = none ∧
      (∃ loaded,
        LoadCache (cache.Write env Create (gobEncode range)).1 gobDecode = (some loaded, none) ∧
          (∀ path, loaded.get? path = cache.get? path) ∧ loaded.Keys = cache.Keys) ∧
      ∀ (env2 : Env) (err : Error), env2.Config.Check = some err →
        (cache.Write env2 Create (gobEncode range)).2 = none ∧
          (cache.Write env2 Create (gobEncode range)).1.Open = env2.Open := by
  have hw : cache.Write env Create (gobEncode range) =
      ({ env with
          Open := fun path =>
            if path = cache.path then .ok { chunks := [gobValue (range cache)] }
            else env.Open path },
        none) := by
    simp [Cache.Write, hcheck, hcreate, gobEncode]
  refine ⟨by rw [hw], ?_, fun env2 err h2 => by simp [Cache.Write, h2]⟩
  rw [hw]
  obtain ⟨hdec, hlook⟩ := gobDecode_range cache hfits (range cache) hrange (NewCache env)
  have hget : ∀ path,
      ((range cache).foldl (fun c e => c.set e.1 e.2) (NewCache env)).get? path
        = cache.get? path := by
    intro path
    rw [hlook path, NewCache_get?]
    rcases cache.get? path with _ | fp <;> rfl
  refine ⟨_, ?_, hget, Keys_eq_of_get? _ _ hget⟩
  have hn : NewCache
      ({ env with
          Open := fun path =>
            if path = cache.path then .ok { chunks := [gobValue (range cache)] }
            else env.Open path } :
        Env) = NewCache env := rfl
  simp only [LoadCache, hn, ← hpath, if_true, hdec]

/-- C21 at the site of the concrete runs, for a cache that holds
`index.html` and in which the folder `img` was stored after it, the map being
ranged over from the entry stored first: the cache read back holds both
paths with the fingerprints written. -/
theorem Write_then_LoadCache_witness :
    ∃ loaded,
      LoadCache
          ((((NewCache syncedEnv).set "index.html"
              { Local := { ModTime := 7, Size := 5, Hash := md5Sum (ascii "a\nb") }
                Remote := { Changed := true, ModTime := 9, Size := 5, Hash := [] } }).set "img"
              { Local := { Changed := true }
                Remote := { IsDir := true, ModTime := 5 } }).Write
            syncedEnv (fun _ => none) (gobEncode fun c => c.FilePrints.entries.reverse)).1
          gobDecode = (some loaded, none) ∧
        loaded.get? "index.html" =
          some
            { Local := { ModTime := 7, Size := 5, Hash := md5Sum (ascii "a\nb") }
              Remote := { Changed := true, ModTime := 9, Size := 5, Hash := [] } } ∧
        loaded.Keys = ["img", "index.html"] := by
  obtain ⟨loaded, h1, h2, h3⟩ :=
    (Write_then_LoadCache syncedEnv (fun _ => none) (fun c => c.FilePrints.entries.reverse)
      (((NewCache syncedEnv).set "index.html"
        { Local := { ModTime := 7, Size := 5, Hash := md5Sum (ascii "a\nb") }
          Remote := { Changed := true, ModTime := 9, Size := 5, Hash := [] } }).set "img"
        { Local := { Changed := true }
          Remote := { IsDir := true, ModTime := 5 } })
      (by decide) rfl rfl (List.reverse_perm _) (by decide!)).2.1
  exact ⟨loaded, h1, (h2 "index.html").trans (by decide!), h3.trans (by decide!)⟩

end FtpSync
